import Mathlib

/-!
# aah build: packaging pipeline

A shallow embedding of `src/aah/build.go` (the `aah build` command of the aah
command line tool) together with the parts of the Go standard library it
relies on (`path/filepath`, `strings`), on a Unix system.

Go strings are byte sequences; the path functions below only ever inspect the
ASCII bytes `/` and `.`, which never occur inside a multi-byte UTF-8 sequence,
so paths are modelled as Lean strings (sequences of characters).
-/

namespace Aah

/-! ## `path/filepath` and `strings` (Go standard library, Unix) -/

namespace Filepath

/-- The elements of a path between its separators: `a//b/` gives `a`, ``, `b`, ``. -/
def splitSep : List Char → List (List Char)
  | [] => [[]]
  | c :: cs =>
    if c = '/' then [] :: splitSep cs
    else
      match splitSep cs with
      | [] => [[c]]
      | w :: ws => (c :: w) :: ws

/-- The elements written one after the other with a separator in between. -/
def joinSep : List (List Char) → List Char
  | [] => []
  | [w] => w
  | w :: v :: ws => w ++ '/' :: joinSep (v :: ws)

/-- The element `..`. -/
def dotdot : List Char := ['.', '.']

/-- One element of the lexical processing of `filepath.Clean`. The elements kept so far
are held last first. An empty element and `.` are dropped; `..` removes the element
before it when there is one that is not itself `..`, is dropped at the root of a rooted
path, and is kept otherwise; any other element is kept. -/
def cleanStep (rooted : Bool) (kept : List (List Char)) (e : List Char) : List (List Char) :=
  if e = [] ∨ e = ['.'] then kept
  else if e = dotdot then
    match kept with
    | [] => if rooted then [] else [e]
    | top :: rest => if top = dotdot then e :: kept else rest
  else e :: kept

/-- An element that `filepath.Clean` keeps wherever it stands: not empty, not `.`, not
`..`, and without a separator. -/
def Plain (e : List Char) : Prop := e ≠ [] ∧ e ≠ ['.'] ∧ e ≠ dotdot ∧ '/' ∉ e

/-- The extension of a zip archive. -/
def zipExt : List Char := ['.', 'z', 'i', 'p']

/-- The elements `filepath.Clean` keeps of a path, first first. -/
def cleanElems (rooted : Bool) (p : List Char) : List (List Char) :=
  ((splitSep p).foldl (cleanStep rooted) []).reverse

/-- Whether the path starts at the root. -/
def rootedChars (p : List Char) : Bool := p.head? = some '/'

/-- The function `filepath.Clean` on the characters of a path. -/
def cleanChars (p : List Char) : List Char :=
  if p = [] then ['.']
  else
    let body := joinSep (cleanElems (rootedChars p) p)
    if rootedChars p then '/' :: body
    else if body = [] then ['.'] else body

/-- The function `filepath.Clean`: the shortest path name equivalent to `path` by purely
lexical processing. -/
def Clean (path : String) : String := ⟨cleanChars path.data⟩

/-- The function `filepath.IsAbs`: on Unix, whether the path begins with a separator. -/
def IsAbs (path : String) : Bool := rootedChars path.data

/-- The function `filepath.Join`: the elements from the first non-empty one on, joined
with separators and cleaned; the empty string when every element is empty. -/
def Join (elem : List String) : String :=
  match elem.dropWhile (fun e => e = "") with
  | [] => ""
  | es => ⟨cleanChars (joinSep (es.map String.data))⟩

/-- A path without its trailing separators. -/
def stripTrailingSep (p : List Char) : List Char :=
  (p.reverse.dropWhile (fun c => c = '/')).reverse

/-- The characters after the last separator (all of them when there is none). -/
def lastElem (p : List Char) : List Char :=
  (p.reverse.takeWhile (fun c => c ≠ '/')).reverse

/-- The function `filepath.Base`: the last element of the path, trailing separators
removed first; `.` for the empty path and `/` for a path of separators only. -/
def Base (path : String) : String :=
  if path.data = [] then "."
  else
    let e := lastElem (stripTrailingSep path.data)
    if e = [] then "/" else ⟨e⟩

/-- The function `filepath.Dir`: all but the last element of the path, cleaned. -/
def Dir (path : String) : String :=
  ⟨cleanChars (path.data.reverse.dropWhile (fun c => c ≠ '/')).reverse⟩

/-- The function `filepath.Abs`: an absolute path is cleaned, any other path is joined
to the working directory; it fails when the working directory cannot be determined
(`getwd` is the result of `os.Getwd`). -/
def Abs (getwd : Except String String) (path : String) : Except String String :=
  if IsAbs path then .ok (Clean path)
  else
    match getwd with
    | .error err => .error err
    | .ok wd => .ok (Join [wd, path])

/-- Where the reading of a pattern of `filepath.Match` stands: between two terms, after a
backslash, or at some place of a character class `[...]`. -/
inductive PatternScan where
  /-- between two terms -/
  | term
  /-- after a backslash outside a class: the character it escapes comes next -/
  | escaped
  /-- after `[`: `^` or the first range comes next -/
  | opened
  /-- after `[^`: the first range comes next -/
  | negated
  /-- after a backslash where a range starts -/
  | loEscaped
  /-- after the first character of a range: `-`, `]` or another range comes next -/
  | lo
  /-- after the `-` of a range: its upper end comes next -/
  | dash
  /-- after a backslash at the upper end of a range -/
  | hiEscaped
  /-- after the upper end of a range: `]` or another range comes next -/
  | hi
  deriving DecidableEq, Repr

/-- The start of a range of a character class at the character `c` (`getEsc` in
`filepath.Match`): `]` ends the class when it holds a range already (`closes`), and
neither `]` nor `-` starts a range. None when the pattern is malformed there. -/
def rangeStart (closes : Bool) (c : Char) : Option PatternScan :=
  if c = ']' then (if closes then some .term else none)
  else if c = '-' then none
  else if c = '\\' then some .loEscaped
  else some .lo

/-- One more character of a pattern is read; none when the pattern is malformed there. -/
def PatternScan.step : PatternScan → Char → Option PatternScan
  | .term, c =>
    if c = '\\' then some .escaped else if c = '[' then some .opened else some .term
  | .escaped, _ => some .term
  | .opened, c => if c = '^' then some .negated else rangeStart false c
  | .negated, c => rangeStart false c
  | .loEscaped, _ => some .lo
  | .lo, c => if c = '-' then some .dash else rangeStart true c
  | .dash, c =>
    if c = ']' ∨ c = '-' then none else if c = '\\' then some .hiEscaped else some .hi
  | .hiEscaped, _ => some .hi
  | .hi, c => rangeStart true c

/-- Whether what is left of a pattern can be read to its end, and ends between two terms:
a backslash is followed by a character, and a class that is opened holds a range and is
closed. -/
def scanPattern : PatternScan → List Char → Bool
  | .term, [] => true
  | _, [] => false
  | s, c :: cs =>
    match s.step c with
    | some s1 => scanPattern s1 cs
    | none => false

/-- Whether the pattern is malformed, that is whether `filepath.Match` answers
`ErrBadPattern` for it. The syntax of a pattern is a sequence of terms `*`, `?`, a
character, a backslash followed by a character, or a class `[...]`, with `^` first to
negate it, of one range or more, a range being a character or `lo-hi`, where a character
other than a backslash, `-` and `]` stands in for itself and one after a backslash is taken
as it is. -/
def badPattern (pattern : String) : Bool := !scanPattern .term pattern.data

end Filepath

namespace Strings

/-- The function `strings.HasSuffix`. -/
def HasSuffix (s suffix : String) : Bool := suffix.data.isSuffixOf s.data

/-- The function `unicode.IsSpace`: the characters with the White Space property. -/
def isSpace (c : Char) : Bool :=
  c = '\t' ∨ c = '\n' ∨ c.val = 0x0B ∨ c.val = 0x0C ∨ c = '\r' ∨ c = ' ' ∨
  c.val = 0x85 ∨ c.val = 0xA0 ∨ c.val = 0x1680 ∨ (0x2000 ≤ c.val ∧ c.val ≤ 0x200A) ∨
  c.val = 0x2028 ∨ c.val = 0x2029 ∨ c.val = 0x202F ∨ c.val = 0x205F ∨ c.val = 0x3000

end Strings

/-! ## Helpers of `aahframework.org/essentials` and of the tool itself -/

namespace Ess

/-- The function `ess.IsStrEmpty`: whether nothing is left of the string once its leading
and trailing white space is trimmed, that is whether it is white space only. -/
def IsStrEmpty (v : String) : Bool := v.data.all Strings.isSpace

/-- Modelled from the spec: `ess.StripExt` belongs to the essentials library, which is not
under `src/`: the name of the file with its extension stripped, that is the part before
its first dot, and the name itself when it has no dot or starts with one. The functions
of `build.go` below take it as a parameter, so what is proved of them holds whichever
way the library cuts a name with several dots. -/
def StripExt (name : String) : String :=
  let stem := name.data.takeWhile (fun c => c ≠ '.')
  if stem = [] then name else ⟨stem⟩

/-- Modelled from the spec: the method `Validate` of `ess.Excludes` belongs to the
essentials library, which is not under `src/`. The validation fails with
`InvalidPatternError` if a pattern is empty or malformed; a malformed pattern is one that
`filepath.Match`, by which the patterns are tested, refuses. The error names the first
such pattern. -/
def ExcludesValidate (patterns : List String) : Option String :=
  match patterns.find? (fun p => p.data.isEmpty || Filepath.badPattern p) with
  | some p => some ("InvalidPatternError: " ++ p)
  | none => none

end Ess

/-- Modelled from the spec: `addTargetBuildInfo` is declared outside `src/`. The canonical
base name is `<binaryBaseNameWithoutExt>-<version>-<goos>-<goarch>` (the artifact naming
convention `<appbinaryname>-<appversion>-<goos>-<goarch>.zip` of `buildCmd`), so the
helper appends the target operating system and architecture. -/
def addTargetBuildInfo (goos goarch fileName : String) : String :=
  fileName ++ "-" ++ goos ++ "-" ++ goarch

/-- The canonical artifact name computed at the top of `createZipArchiveName`:
`ess.StripExt(filepath.Base(appBinary)) + "-" + getAppVersion(...)` with the target
build information added. `stripExt` is `ess.StripExt` and `version` is what
`getAppVersion(appBaseDir, projectCfg)` returns. -/
def archiveName (stripExt : String → String) (version goos goarch appBinary : String) : String :=
  addTargetBuildInfo goos goarch (stripExt (Filepath.Base appBinary) ++ "-" ++ version)

/-- The function `createZipArchiveName` of `build.go`. `outputFile` is the value of
`firstNonEmpty(c.String("o"), c.String("output"))` (the explicit output of the spec),
`getwd` the result `filepath.Abs` gets from the operating system. An `error` result is
the error handed to `logFatal`, which ends the process. -/
def createZipArchiveName (stripExt : String → String) (getwd : Except String String)
    (outputFile version goos goarch appBaseDir appBinary : String) : Except String String :=
  let name := archiveName stripExt version goos goarch appBinary
  let dest : Except String String :=
    if Ess.IsStrEmpty outputFile then
      .ok (Filepath.Join [appBaseDir, "build", name])
    else
      match Filepath.Abs getwd outputFile with
      | .error err => .error err
      | .ok abs =>
        if !Strings.HasSuffix abs ".zip" then .ok (Filepath.Join [abs, name])
        else .ok abs
  match dest with
  | .error err => .error err
  | .ok d => if !Strings.HasSuffix d ".zip" then .ok (d ++ ".zip") else .ok d

/-! ## Startup script templates -/

/-- The lines of a text, one after the other. -/
def joinLines (lines : List String) : String := ⟨(lines.map String.data).flatten⟩

/-- A parsed piece of a `text/template` template: literal text, or the action that prints
a field of the data (`{{ .Name }}`). -/
inductive Seg where
  | lit (text : List Char)
  | field (name : List Char)
  deriving DecidableEq, Repr

/-- The text before the next opening delimiter `{{`, and what follows the delimiter when
there is one. -/
def splitAction : List Char → List Char × Option (List Char)
  | [] => ([], none)
  | c :: rest =>
    match c, rest with
    | '{', '{' :: body => ([], some body)
    | _, _ => ((c :: (splitAction rest).1), (splitAction rest).2)

/-- The text of an action up to its closing delimiter `}}`, and what follows it. -/
def splitActionEnd : List Char → Option (List Char × List Char)
  | [] => none
  | c :: rest =>
    match c, rest with
    | '}', '}' :: after => some ([], after)
    | _, _ => (splitActionEnd rest).map (fun r => (c :: r.1, r.2))

/-- The text without the spaces around it. -/
def trimSpaces (cs : List Char) : List Char :=
  ((cs.dropWhile (fun c => c = ' ')).reverse.dropWhile (fun c => c = ' ')).reverse

/-- The pieces of a template. Only the action of the two startup templates is
understood, a field of the data: any other action is refused. -/
def parseTmplAux : Nat → List Char → Except String (List Seg)
  | 0, _ => .error "template: too long"
  | fuel + 1, cs =>
    match splitAction cs with
    | (text, none) => .ok [Seg.lit text]
    | (text, some body) =>
      match splitActionEnd body with
      | none => .error "template: unclosed action"
      | some (action, after) =>
        match trimSpaces action with
        | '.' :: name =>
          match parseTmplAux fuel after with
          | .error err => .error err
          | .ok segs => .ok (Seg.lit text :: Seg.field name :: segs)
        | _ => .error "template: unexpected action"

/-- The value of a field in the data of a template, a `map[string]string`. -/
def lookupField (data : List (String × String)) (name : List Char) : List Char :=
  match data.find? (fun kv => kv.1.data = name) with
  | some kv => kv.2.data
  | none => "<no value>".data

/-- What executing a piece of a template writes. -/
def Seg.exec (data : List (String × String)) : Seg → List Char
  | .lit text => text
  | .field name => lookupField data name

/-- The source text of a piece of a template. -/
def Seg.source : Seg → List Char
  | .lit text => text
  | .field name => "\x7b\x7b .".data ++ name ++ " \x7d\x7d".data

/-- Whether the text holds the opening delimiter of an action. -/
def hasAction (cs : List Char) : Bool := (splitAction cs).2.isSome

/-- Modelled from the spec: `renderTmpl` is declared outside `src/`. It renders a startup
script template with its substitution variables: the template is parsed and executed as
Go's `text/template` does, each `{{ .Name }}` writing the value of `Name` in the data. -/
def renderTmpl (text : String) (data : List (String × String)) : Except String String :=
  match parseTmplAux (text.data.length + 1) text.data with
  | .error err => .error err
  | .ok segs => .ok ⟨(segs.map (Seg.exec data)).flatten⟩

/-- The constant `aahBashStartupTemplate` of `build.go`, line by line. -/
def aahBashStartupTemplate : String :=
  joinLines [
    "#!/usr/bin/env bash\n",
    "\n",
    "# The MIT License (MIT)\n",
    "#\n",
    "# Copyright (c) Jeevanandam M., https://myjeeva.com <jeeva@myjeeva.com>\n",
    "#\n",
    "# Permission is hereby granted, free of charge, to any person obtaining a copy\n",
    "# of this software and associated documentation files (the \"Software\"), to deal\n",
    "# in the Software without restriction, including without limitation the rights\n",
    "# to use, copy, modify, merge, publish, distribute, sublicense, and/or sell\n",
    "# copies of the Software, and to permit persons to whom the Software is\n",
    "# furnished to do so, subject to the following conditions:\n",
    "#\n",
    "# The above copyright notice and this permission notice shall be included in all\n",
    "# copies or substantial portions of the Software.\n",
    "#\n",
    "# THE SOFTWARE IS PROVIDED \"AS IS\", WITHOUT WARRANTY OF ANY KIND, EXPRESS OR\n",
    "# IMPLIED, INCLUDING BUT NOT LIMITED TO THE WARRANTIES OF MERCHANTABILITY,\n",
    "# FITNESS FOR A PARTICULAR PURPOSE AND NONINFRINGEMENT. IN NO EVENT SHALL THE\n",
    "# AUTHORS OR COPYRIGHT HOLDERS BE LIABLE FOR ANY CLAIM, DAMAGES OR OTHER\n",
    "# LIABILITY, WHETHER IN AN ACTION OF CONTRACT, TORT OR OTHERWISE, ARISING FROM,\n",
    "# OUT OF OR IN CONNECTION WITH THE SOFTWARE OR THE USE OR OTHER DEALINGS IN THE\n",
    "# SOFTWARE.\n",
    "\n",
    "###########################################\n",
    "# Start and Stop script for aah application\n",
    "###########################################\n",
    "\n",
    "APP_NAME=\"\x7b\x7b .AppName \x7d\x7d\"\n",
    "APP_ENV_PROFILE=\"\x7b\x7b .AppProfile \x7d\x7d\"\n",
    "APP_EXT_CONFIG=\"\"\n",
    "\n",
    "if [ ! -z \"$2\" ]; then\n",
    "  APP_ENV_PROFILE=$2\n",
    "fi\n",
    "\n",
    "if [ ! -z \"$3\" ]; then\n",
    "  APP_EXT_CONFIG=\"-config=$3\"\n",
    "fi\n",
    "\n",
    "# resolve links - $0 may be a softlink\n",
    "PRG=\"$0\"\n",
    "while [ -h \"$PRG\" ] ; do\n",
    "  ls=\x7b\x7b .Backtick \x7d\x7dls -ld \"$PRG\"\x7b\x7b .Backtick \x7d\x7d\n",
    "  link=\x7b\x7b .Backtick \x7d\x7dexpr \"$ls\" : '.*-> \\(.*\\)$'\x7b\x7b .Backtick \x7d\x7d\n",
    "  if expr \"$link\" : '/.*' > /dev/null; then\n",
    "    PRG=\"$link\"\n",
    "  else\n",
    "    PRG=\x7b\x7b .Backtick \x7d\x7ddirname \"$PRG\"\x7b\x7b .Backtick \x7d\x7d/\"$link\"\n",
    "  fi\n",
    "done\n",
    "\n",
    "# resolve APP_DIR and set executable\n",
    "APP_DIR=$(cd \"$(dirname $PRG)\"; pwd)\n",
    "APP_EXECUTABLE=\"$APP_DIR\"/bin/\"$APP_NAME\"\n",
    "APP_PID=\"$APP_DIR\"/\"$APP_NAME\".pid\n",
    "\n",
    "if [ ! -x \"$APP_EXECUTABLE\" ]; then\n",
    "  echo \"Cannot find aah application executable: $APP_EXECUTABLE\"\n",
    "  exit 1\n",
    "fi\n",
    "\n",
    "# go to application base directory\n",
    "cd \"$APP_DIR\"\n",
    "\n",
    "start() \x7b\n",
    "  if [ ! -z \"$APP_PID\" ]; then # not empty\n",
    "    if [ -f \"$APP_PID\" ]; then # exists and regular file\n",
    "      if [ -s \"$APP_PID\" ]; then # not-empty\n",
    "        echo \"Existing PID file found during start.\"\n",
    "        if [ -r \"$APP_PID\" ]; then\n",
    "          PID=\x7b\x7b .Backtick \x7d\x7dcat \"$APP_PID\"\x7b\x7b .Backtick \x7d\x7d\n",
    "          ps -p $PID >/dev/null 2>&1\n",
    "          if [ $? -eq 0 ] ; then\n",
    "            echo \"$APP_NAME appears to still be running with PID $PID. Start aborted.\"\n",
    "            ps -f -p $PID\n",
    "            exit 1\n",
    "          fi\n",
    "        fi\n",
    "      fi\n",
    "    fi\n",
    "  fi\n",
    "\n",
    "  nohup \"$APP_EXECUTABLE\" -profile=\"$APP_ENV_PROFILE\" \"$APP_EXT_CONFIG\" > appstart.log 2>&1 &\n",
    "  echo \"$APP_NAME started.\"\n",
    "\x7d\n",
    "\n",
    "stop() \x7b\n",
    "  if [ ! -z \"$APP_PID\" ]; then # not empty\n",
    "    if [ -f \"$APP_PID\" ]; then # exists and regular file\n",
    "      if [ -s \"$APP_PID\" ]; then # not-empty\n",
    "\t\t\t\tPID=\x7b\x7b .Backtick \x7d\x7dcat \"$APP_PID\"\x7b\x7b .Backtick \x7d\x7d\n",
    "        kill -15 \"$PID\" >/dev/null 2>&1\n",
    "        if [ $? -gt 0 ]; then\n",
    "          echo \"$APP_PID file found but no matching process was found. Stop aborted.\"\n",
    "          exit 1\n",
    "        else\n",
    "          rm -f \"$APP_PID\" >/dev/null 2>&1\n",
    "          echo \"$APP_NAME stopped.\"\n",
    "        fi\n",
    "      else\n",
    "        echo \"$APP_PID file is empty and has been ignored.\"\n",
    "      fi\n",
    "    else\n",
    "      echo \"$APP_PID file does not exists. Stop aborted.\"\n",
    "      exit 1\n",
    "    fi\n",
    "  fi\n",
    "\x7d\n",
    "\n",
    "version() \x7b\n",
    "  \"$APP_EXECUTABLE\" -version\n",
    "  echo \"\"\n",
    "\x7d\n",
    "\n",
    "case \"$1\" in\n",
    "start)\n",
    "  start\n",
    "  ;;\n",
    "stop)\n",
    "  stop\n",
    "  ;;\n",
    "restart)\n",
    "  stop\n",
    "  sleep 2\n",
    "  start\n",
    "  ;;\n",
    "version)\n",
    "  version\n",
    "  ;;\n",
    "*)\n",
    "  echo \"Usage: $0 \x7bstart|stop|restart|version\x7d\"\n",
    "\techo \"\"\n",
    "  exit 1\n",
    "esac\n",
    "\n",
    "exit 0\n"]

/-- The constant `aahCmdStartupTemplate` of `build.go`, line by line. -/
def aahCmdStartupTemplate : String :=
  joinLines [
    "@ECHO OFF\n",
    "\n",
    "REM The MIT License (MIT)\n",
    "REM\n",
    "REM Copyright (c) Jeevanandam M., https://myjeeva.com <jeeva@myjeeva.com>\n",
    "REM\n",
    "REM Permission is hereby granted, free of charge, to any person obtaining a copy\n",
    "REM of this software and associated documentation files (the \"Software\"), to deal\n",
    "REM in the Software without restriction, including without limitation the rights\n",
    "REM to use, copy, modify, merge, publish, distribute, sublicense, and/or sell\n",
    "REM copies of the Software, and to permit persons to whom the Software is\n",
    "REM furnished to do so, subject to the following conditions:\n",
    "REM\n",
    "REM The above copyright notice and this permission notice shall be included in all\n",
    "REM copies or substantial portions of the Software.\n",
    "REM\n",
    "REM THE SOFTWARE IS PROVIDED \"AS IS\", WITHOUT WARRANTY OF ANY KIND, EXPRESS OR\n",
    "REM IMPLIED, INCLUDING BUT NOT LIMITED TO THE WARRANTIES OF MERCHANTABILITY,\n",
    "REM FITNESS FOR A PARTICULAR PURPOSE AND NONINFRINGEMENT. IN NO EVENT SHALL THE\n",
    "REM AUTHORS OR COPYRIGHT HOLDERS BE LIABLE FOR ANY CLAIM, DAMAGES OR OTHER\n",
    "REM LIABILITY, WHETHER IN AN ACTION OF CONTRACT, TORT OR OTHERWISE, ARISING FROM,\n",
    "REM OUT OF OR IN CONNECTION WITH THE SOFTWARE OR THE USE OR OTHER DEALINGS IN THE\n",
    "REM SOFTWARE.\n",
    "\n",
    "REM ##########################################\n",
    "REM Start and Stop script for aah application\n",
    "REM ##########################################\n",
    "\n",
    "SETLOCAL ENABLEEXTENSIONS ENABLEDELAYEDEXPANSION\n",
    "\n",
    "SET APP_NAME=\x7b\x7b .AppName \x7d\x7d\n",
    "SET APP_ENV_PROFILE=\x7b\x7b .AppProfile \x7d\x7d\n",
    "SET APP_EXT_CONFIG=\"\"\n",
    "\n",
    "IF NOT \"%2\" == \"\" (\n",
    "\tSET APP_ENV_PROFILE=\"%2\"\n",
    ")\n",
    "\n",
    "IF NOT \"%3\" == \"\" (\n",
    "  SET APP_EXT_CONFIG=\"-config %3\"\n",
    ")\n",
    "\n",
    "REM resolve APP_DIR and set executable\n",
    "SET APP_DIR=%~dp0\n",
    "SET APP_EXECUTABLE=%APP_DIR%bin\\%APP_NAME%.exe\n",
    "SET APP_PID=%APP_DIR%%APP_NAME%.pid\n",
    "\n",
    "REM change directory\n",
    "cd %APP_DIR%\n",
    "\n",
    "if \"\"%1\"\" == \"\"\"\" GOTO :cmdUsage\n",
    "if \"\"%1\"\" == \"\"start\"\" GOTO :doStart\n",
    "if \"\"%1\"\" == \"\"stop\"\" GOTO :doStop\n",
    "if \"\"%1\"\" == \"\"version\"\" GOTO :doVersion\n",
    "\n",
    ":doStart\n",
    "REM check app is running already\n",
    "tasklist /FI \"IMAGENAME eq %APP_NAME%.exe\" 2>NUL | find /I /N \"%APP_NAME%.exe\">NUL\n",
    "IF \"%ERRORLEVEL%\" == \"0\" (\n",
    "  ECHO %APP_NAME% appears to still be running. Start aborted.\n",
    "  GOTO :end\n",
    ")\n",
    "\n",
    "START \"\" /B \"%APP_EXECUTABLE%\" -profile \"%APP_ENV_PROFILE%\" \"%APP_EXT_CONFIG%\" > appstart.log 2>&1\n",
    "ECHO \x7b\x7b .AppName \x7d\x7d started.\n",
    "GOTO :end\n",
    "\n",
    ":doStop\n",
    "SET /P PID= < %APP_PID%\n",
    "IF NOT %PID% == \"\" (\n",
    "  taskkill /pid %PID% /f\n",
    "\tECHO \x7b\x7b .AppName \x7d\x7d stopped.\n",
    ")\n",
    "GOTO :end\n",
    "\n",
    ":doVersion\n",
    "%APP_EXECUTABLE% -version\n",
    "GOTO :end\n",
    "\n",
    ":cmdUsage\n",
    "echo Usage: %0 \x7bstart or stop or version\x7d\n",
    "GOTO :end\n",
    "\n",
    ":end\n",
    "ENDLOCAL\n"]

/-- The pieces of a startup template, none when it does not parse. -/
def tmplSegs (text : String) : List Seg :=
  match parseTmplAux (text.data.length + 1) text.data with
  | .ok segs => segs
  | .error _ => []

/-- The names of the substitution variables of the startup templates. -/
def startupFields : List (List Char) := ["AppName".data, "AppProfile".data, "Backtick".data]

/-- A literal piece holds no action, and an action names a substitution variable. -/
def Seg.wellFormed : Seg → Bool
  | .lit text => !hasAction text
  | .field name => startupFields.contains name

/-- Whether somewhere in the pieces the field `AppProfile` stands between a text that
ends in `before` and a text that starts with `after`. -/
def hasProfileSlot (before after : List Char) : List Seg → Bool
  | [] => false
  | seg :: rest =>
    (match seg, rest with
      | .lit t1, .field name :: .lit t2 :: _ =>
        before.isSuffixOf t1 && name == "AppProfile".data && after.isPrefixOf t2
      | _, _ => false)
    || hasProfileSlot before after rest

/-- What is checked of a startup template by evaluating its parse: it parses, its
pieces are well formed, their source text is the template, and the field `AppProfile`
stands between `before` and `after`. -/
def templateChecked (text : String) (before after : String) : Bool :=
  match parseTmplAux (text.data.length + 1) text.data with
  | .error _ => false
  | .ok segs =>
    segs.all Seg.wellFormed && (segs.map Seg.source).flatten == text.data
      && hasProfileSlot before.data after.data segs

/-- A piece of a startup template with every `{{ .AppName }}` replaced by the name of
the binary, every `{{ .AppProfile }}` by the profile and every `{{ .Backtick }}` by a
backtick. -/
def Seg.substituted (appName appProfile : String) : Seg → List Char
  | .lit text => text
  | .field name =>
    if name = "AppName".data then appName.data
    else if name = "AppProfile".data then appProfile.data
    else if name = "Backtick".data then ['`']
    else "<no value>".data

/-! ## The world of a build: file system, compiler, configuration -/

/-- Modelled from the spec: the constant `permRWXRXRX` is declared outside `src/`; the
permission bits are executable, owner rwx and group/other rx, mode 0755. -/
def permRWXRXRX : Nat := 0o755

/-- The arguments `build.go` gives to `compileApp` (the project configuration apart). -/
structure CompileArgs where
  Cmd : String
  AppPack : Bool
  AppEmbed : Bool
  deriving DecidableEq, Repr

/-- A call that leaves the functions of `build.go`: to the essentials library, to the
standard library, to the loggers, or to a function of the tool declared outside `src/`. -/
inductive Call where
  | tempDir (dir pfx : String)
  | deleteFiles (path : String)
  | mkDirAll (path : String) (perm : Nat)
  | copyFile (destDir src : String)
  | applyFileMode (path : String) (perm : Nat)
  | logError (err : String)
  | validate (patterns : List String)
  | dirsPath (basePath : String) (recursive : Bool)
  | isFileExists (path : String)
  | copyDir (dest src : String) (excludes : List String)
  | writeFile (path data : String) (perm : Nat)
  | zip (dest src : String)
  | cleanupAutoGenVFSFiles (appBaseDir : String)
  | processMount (appBaseDir vroot proot : String) (excludes noGzipList : List String)
  | compileApp (args : CompileArgs)
  | logFatal (err : String)
  | logErrorf (format : String) (args : List String)
  | infof (format : String) (args : List String)
  | aahInit (importPath : String)
  deriving DecidableEq, Repr

/-- The collaborators of `build.go`, over a state `σ` of the world (file system, compiler
output): what each call answers and how it changes the state. An `Option String` answer
is a Go `error`, `none` being `nil`. -/
structure World (σ : Type) where
  /-- `ioutil.TempDir(dir, prefix)` -/
  tempDir : String → String → σ → Except String String × σ
  /-- `ess.DeleteFiles(path)` -/
  deleteFiles : String → σ → σ
  /-- `ess.MkDirAll(path, perm)` -/
  mkDirAll : String → Nat → σ → Option String × σ
  /-- `ess.CopyFile(destDir, src)`, the error of its result -/
  copyFile : String → String → σ → Option String × σ
  /-- `ess.ApplyFileMode(path, perm)` -/
  applyFileMode : String → Nat → σ → Option String × σ
  /-- `ess.Excludes(patterns).Validate()` -/
  validate : List String → Option String
  /-- `filepath.Match(pattern, name)`, by which `ess.Excludes.Match` tests each pattern -/
  globMatch : String → String → Bool
  /-- `ess.DirsPath(basePath, recursive)` -/
  dirsPath : String → Bool → σ → List String × Option String
  /-- `ess.IsFileExists(path)` -/
  isFileExists : String → σ → Bool
  /-- `ess.CopyDir(dest, src, excludes)` -/
  copyDir : String → String → List String → σ → Option String × σ
  /-- `ioutil.WriteFile(path, data, perm)` -/
  writeFile : String → String → Nat → σ → Option String × σ
  /-- `ess.Zip(dest, src)` -/
  zip : String → String → σ → Option String × σ
  /-- `cleanupAutoGenVFSFiles(appBaseDir)` -/
  cleanupAutoGenVFSFiles : String → σ → σ
  /-- `processMount(appBaseDir, vroot, proot, excludes, noGzipList)` -/
  processMount : String → String → String → List String → List String → σ → Option String × σ
  /-- `compileApp(args)` -/
  compileApp : CompileArgs → σ → Except String String × σ
  /-- `os.Getwd()`, as `filepath.Abs` calls it -/
  getwd : σ → Except String String
  /-- `ess.StripExt(name)` -/
  stripExt : String → String
  /-- `renderTmpl(w, text, data)`, what it writes to the buffer `w` or its error -/
  renderTmpl : String → List (String × String) → Except String String
  /-- `getAppVersion(appBaseDir, projectCfg)` -/
  appVersion : String → σ → String
  /-- the target operating system of `addTargetBuildInfo` -/
  goos : String
  /-- the target architecture of `addTargetBuildInfo` -/
  goarch : String

/-- The project configuration (`*config.Config`), as far as `build.go` reads it. -/
structure Config where
  /-- `StringList(key)` -/
  stringList : String → List String × Bool
  /-- `StringDefault(key, defaultValue)` -/
  stringDefault : String → String → String
  /-- `KeysByPath(path)` -/
  keysByPath : String → List String

/-- The application as the package `aah` knows it after `aah.Init`. -/
structure App where
  /-- `aah.AppBaseDir()` -/
  baseDir : String
  /-- `aah.AppName()` -/
  name : String
  /-- `aah.AppImportPath()` -/
  importPath : String

/-- The state of the world and the calls made so far, oldest first. -/
structure Run (σ : Type) where
  state : σ
  calls : List Call

/-- How a function that may call `logFatal` ends: it returns, or the process has been
ended. -/
inductive Outcome (α : Type) where
  | done (a : α)
  | fatal
  deriving DecidableEq, Repr

/-- The call is recorded and the state replaced. -/
def Run.record {σ : Type} (r : Run σ) (c : Call) (s : σ) : Run σ := ⟨s, r.calls ++ [c]⟩

/-- A call to a logger: it is recorded and leaves the state alone. -/
def Run.log {σ : Type} (r : Run σ) (c : Call) : Run σ := ⟨r.state, r.calls ++ [c]⟩

/-- The run `r2` continues the run `r1`: its calls are those of `r1` followed by calls
that all satisfy `P`. -/
def Run.Extends {σ : Type} (P : Call → Prop) (r1 r2 : Run σ) : Prop :=
  ∃ new, r2.calls = r1.calls ++ new ∧ ∀ c ∈ new, P c

/-- Modelled from the spec: `logFatal` is declared outside `src/`. A fatal error is
reported and terminates the process with a non-zero exit code; Go runs no deferred call
when the process exits. -/
def logFatal {σ α : Type} (err : String) (r : Run σ) : Outcome α × Run σ :=
  (.fatal, r.log (.logFatal err))

namespace Ess

/-- The method `Match` of `ess.Excludes`: whether any pattern matches the name. -/
def ExcludesMatch {σ : Type} (w : World σ) (patterns : List String) (name : String) : Bool :=
  patterns.any (fun p => w.globMatch p name)

end Ess

/-- Modelled from the spec: `excludeAndCreateSlice` is declared outside `src/`. The
subtree exclude list is a superset of the top-level excludes plus the reserved name. -/
def excludeAndCreateSlice (arr : List String) (str : String) : List String := arr ++ [str]

/-! ## `build.go` -/

/-- The function `createZipArchive` of `build.go`. -/
def createZipArchive {σ : Type} (w : World σ) (buildBaseDir destArchiveFile : String)
    (r : Run σ) : Option String × Run σ :=
  let r1 := r.record (.deleteFiles destArchiveFile) (w.deleteFiles destArchiveFile r.state)
  let archiveBaseDir := Filepath.Dir destArchiveFile
  let made := w.mkDirAll archiveBaseDir permRWXRXRX r1.state
  let r2 := r1.record (.mkDirAll archiveBaseDir permRWXRXRX) made.2
  match made.1 with
  | some err => (some err, r2)
  | none =>
    let zipped := w.zip destArchiveFile buildBaseDir r2.state
    (zipped.1, r2.record (.zip destArchiveFile buildBaseDir) zipped.2)

/-- The binary block of `copyFilesToWorkingDir` (`// binary file` and `// apply
executable file mode`): the errors of `ess.MkDirAll` and `ess.CopyFile` are discarded,
the one of `ess.ApplyFileMode` is logged. -/
def copyBinary {σ : Type} (w : World σ) (buildBaseDir appBinary : String) (r : Run σ) : Run σ :=
  let appBinaryName := Filepath.Base appBinary
  let binDir := Filepath.Join [buildBaseDir, "bin"]
  let r1 := r.record (.mkDirAll binDir permRWXRXRX) (w.mkDirAll binDir permRWXRXRX r.state).2
  let r2 := r1.record (.copyFile binDir appBinary) (w.copyFile binDir appBinary r1.state).2
  let target := Filepath.Join [binDir, appBinaryName]
  let moded := w.applyFileMode target permRWXRXRX r2.state
  let r3 := r2.record (.applyFileMode target permRWXRXRX) moded.2
  match moded.1 with
  | some err => r3.log (.logError err)
  | none => r3

/-- The loop of `copyFilesToWorkingDir` over the application directories. -/
def copyAppDirs {σ : Type} (w : World σ) (buildBaseDir : String)
    (excludes subTreeExcludes : List String) : List String → Run σ → Option String × Run σ
  | [], r => (none, r)
  | srcdir :: rest, r =>
    if Ess.ExcludesMatch w excludes (Filepath.Base srcdir) then
      copyAppDirs w buildBaseDir excludes subTreeExcludes rest r
    else
      let r1 := r.log (.isFileExists srcdir)
      if w.isFileExists srcdir r.state then
        let copied := w.copyDir buildBaseDir srcdir subTreeExcludes r1.state
        let r2 := r1.record (.copyDir buildBaseDir srcdir subTreeExcludes) copied.2
        match copied.1 with
        | some err => (some err, r2)
        | none => copyAppDirs w buildBaseDir excludes subTreeExcludes rest r2
      else copyAppDirs w buildBaseDir excludes subTreeExcludes rest r1

/-- The data of the startup templates in `copyFilesToWorkingDir`. -/
def startupData {σ : Type} (w : World σ) (appBinary appProfile : String) :
    List (String × String) :=
  [("AppName", w.stripExt (Filepath.Base appBinary)), ("AppProfile", appProfile),
    ("Backtick", "`")]

/-- The startup files block of `copyFilesToWorkingDir` (`// startup files`). -/
def writeStartupFiles {σ : Type} (w : World σ) (buildBaseDir appBinary appProfile : String)
    (r : Run σ) : (String × Option String) × Run σ :=
  let data := startupData w appBinary appProfile
  match w.renderTmpl aahBashStartupTemplate data with
  | .error err => (("", some err), r)
  | .ok sh =>
    let shPath := Filepath.Join [buildBaseDir, "aah.sh"]
    let wrote := w.writeFile shPath sh permRWXRXRX r.state
    let r1 := r.record (.writeFile shPath sh permRWXRXRX) wrote.2
    match wrote.1 with
    | some err => (("", some err), r1)
    | none =>
      match w.renderTmpl aahCmdStartupTemplate data with
      | .error err => (("", some err), r1)
      | .ok cmd =>
        let cmdPath := Filepath.Join [buildBaseDir, "aah.cmd"]
        let wrote2 := w.writeFile cmdPath cmd permRWXRXRX r1.state
        ((buildBaseDir, wrote2.1), r1.record (.writeFile cmdPath cmd permRWXRXRX) wrote2.2)

/-- The part of `copyFilesToWorkingDir` from `// build package excludes` on. -/
def copyAppFiles {σ : Type} (w : World σ) (cfg : Config)
    (appBaseDir appBinary appProfile buildBaseDir : String) (r : Run σ) :
    (String × Option String) × Run σ :=
  let cfgExcludes := (cfg.stringList "build.excludes").1
  let r1 := r.log (.validate cfgExcludes)
  match w.validate cfgExcludes with
  | some err => (("", some err), r1)
  | none =>
    let appDirs := (w.dirsPath appBaseDir false r1.state).1
    let r2 := r1.log (.dirsPath appBaseDir false)
    let subTreeExcludes := excludeAndCreateSlice cfgExcludes "app"
    match copyAppDirs w buildBaseDir cfgExcludes subTreeExcludes appDirs r2 with
    | (some err, r3) => (("", some err), r3)
    | (none, r3) => writeStartupFiles w buildBaseDir appBinary appProfile r3

/-- The function `copyFilesToWorkingDir` of `build.go`: the staging root and the error. -/
def copyFilesToWorkingDir {σ : Type} (w : World σ) (cfg : Config)
    (appBaseDir appBinary appProfile : String) (r : Run σ) :
    (String × Option String) × Run σ :=
  let appBinaryName := Filepath.Base appBinary
  let tmp := w.tempDir "" appBinaryName r.state
  let r1 := r.record (.tempDir "" appBinaryName) tmp.2
  match tmp.1 with
  | .error err => (("", some ("unable to get temp directory: " ++ err)), r1)
  | .ok tmpDir =>
    let buildBaseDir := Filepath.Join [tmpDir, w.stripExt appBinaryName]
    let r2 := r1.record (.deleteFiles buildBaseDir) (w.deleteFiles buildBaseDir r1.state)
    let made := w.mkDirAll buildBaseDir permRWXRXRX r2.state
    let r3 := r2.record (.mkDirAll buildBaseDir permRWXRXRX) made.2
    match made.1 with
    | some err => (("", some err), r3)
    | none =>
      copyAppFiles w cfg appBaseDir appBinary appProfile buildBaseDir
        (copyBinary w buildBaseDir appBinary r3)

/-- The mount path configured for a custom mount, `vroot` in `buildSingleBinary`. -/
def mountPath (cfg : Config) (key : String) : String :=
  cfg.stringDefault ("vfs.mount." ++ key ++ ".mount_path") ""

/-- The physical path configured for a custom mount, `proot` in `buildSingleBinary`. -/
def physicalPath (cfg : Config) (key : String) : String :=
  cfg.stringDefault ("vfs.mount." ++ key ++ ".physical_path") ""

/-- The loop of `buildSingleBinary` over the custom mount points (`// Custom mount
points`), `keys` being what is left of `projectCfg.KeysByPath("vfs.mount")`. -/
def customMounts {σ : Type} (w : World σ) (cfg : Config) (appBaseDir : String)
    (excludes noGzipList : List String) : List String → Run σ → Outcome Unit × Run σ
  | [], r => (.done (), r)
  | key :: keys, r =>
    let vroot := mountPath cfg key
    let proot := physicalPath cfg key
    if !Filepath.IsAbs proot then
      customMounts w cfg appBaseDir excludes noGzipList keys
        (r.log (.logErrorf "vfs %s: physical_path is not absolute path, skip mount: %s"
          [proot, vroot]))
    else if !Ess.IsStrEmpty vroot && !Ess.IsStrEmpty proot then
      let r1 := r.log (.infof "|--- Processing mount: '%s' <== '%s'" [vroot, proot])
      let mounted := w.processMount appBaseDir vroot proot excludes noGzipList r1.state
      let r2 := r1.record (.processMount appBaseDir vroot proot excludes noGzipList) mounted.2
      match mounted.1 with
      | some err => logFatal err r2
      | none => customMounts w cfg appBaseDir excludes noGzipList keys r2
    else customMounts w cfg appBaseDir excludes noGzipList keys r

/-- The archive step of `buildSingleBinary` (`// Creating app archive`) and the two
messages after it. `outputFile` is `firstNonEmpty(c.String("o"), c.String("output"))`. -/
def archiveSingleBinary {σ : Type} (w : World σ) (app : App) (outputFile appBinary : String)
    (r : Run σ) : Outcome Unit × Run σ :=
  match createZipArchiveName w.stripExt (w.getwd r.state) outputFile
      (w.appVersion app.baseDir r.state) w.goos w.goarch app.baseDir appBinary with
  | .error err => logFatal err r
  | .ok destArchiveFile =>
    match createZipArchive w appBinary destArchiveFile r with
    | (some err, r1) => logFatal err r1
    | (none, r1) =>
      (.done (), (r1.log (.infof "Build successful for '%s' [%s]" [app.name, app.importPath])).log
        (.infof "Application artifact is here: %s\n" [destArchiveFile]))

/-- The body of `buildSingleBinary`, after its `defer` statement. -/
def buildSingleBinaryBody {σ : Type} (w : World σ) (cfg : Config) (app : App)
    (outputFile : String) (r : Run σ) : Outcome Unit × Run σ :=
  let appBaseDir := app.baseDir
  let excludes := (cfg.stringList "build.excludes").1
  let noGzipList := (cfg.stringList "vfs.no_gzip").1
  let mounted := w.processMount appBaseDir "/app" appBaseDir excludes noGzipList r.state
  let r1 := r.record (.processMount appBaseDir "/app" appBaseDir excludes noGzipList) mounted.2
  match mounted.1 with
  | some err => logFatal err r1
  | none =>
    match customMounts w cfg appBaseDir excludes noGzipList (cfg.keysByPath "vfs.mount") r1 with
    | (.fatal, r2) => (.fatal, r2)
    | (.done _, r2) =>
      let r3 := r2.log (.infof "Embed successful for '%s' [%s]" [app.name, app.importPath])
      let args : CompileArgs := { Cmd := "BuildCmd", AppPack := true, AppEmbed := true }
      let compiled := w.compileApp args r3.state
      let r4 := r3.record (.compileApp args) compiled.2
      match compiled.1 with
      | .error err => logFatal err r4
      | .ok appBinary => archiveSingleBinary w app outputFile appBinary r4

/-- The function `buildSingleBinary` of `build.go`. The deferred
`cleanupAutoGenVFSFiles(appBaseDir)` runs when the body returns; it does not run when
`logFatal` has ended the process. -/
def buildSingleBinary {σ : Type} (w : World σ) (cfg : Config) (app : App)
    (outputFile : String) (r : Run σ) : Outcome Unit × Run σ :=
  let r0 := r.log (.infof "Embed starts for '%s' [%s]" [app.name, app.importPath])
  match buildSingleBinaryBody w cfg app outputFile r0 with
  | (.fatal, r1) => (.fatal, r1)
  | (.done u, r1) =>
    (.done u, r1.record (.cleanupAutoGenVFSFiles app.baseDir)
      (w.cleanupAutoGenVFSFiles app.baseDir r1.state))

/-- The command line of a build (`*cli.Context`), as far as `build.go` reads it: `flag` is
its method `Bool` and `value` its method `String`, each by the name of the flag. -/
structure Context where
  flag : String → Bool
  value : String → String

/-- What `buildAction` and `buildBinary` ask of the package `aah` and of the functions of
the tool that are declared outside `src/`. -/
structure Tool (σ : Type) where
  /-- `appImportPath(c)` -/
  appImportPath : Context → String
  /-- `aah.Init(importPath)` -/
  aahInit : String → σ → Option String × σ
  /-- `aah.AppBaseDir()`, `aah.AppName()` and `aah.AppImportPath()` once `aah.Init` is done -/
  app : σ → App
  /-- `aahProjectCfg(baseDir)` -/
  aahProjectCfg : String → σ → Config
  /-- the constant `aahProjectIdentifier` -/
  aahProjectIdentifier : String
  /-- `firstNonEmpty(values...)` -/
  firstNonEmpty : List String → String

/-- The naming and archive steps of `buildBinary` (`createZipArchiveName`, then
`// Creating app archive`) and the two messages after them: the staging root
`buildBaseDir` is what is archived. `outputFile` is
`firstNonEmpty(c.String("o"), c.String("output"))`. -/
def archiveStagingRoot {σ : Type} (w : World σ) (app : App)
    (outputFile appBinary buildBaseDir : String) (r : Run σ) : Outcome Unit × Run σ :=
  match createZipArchiveName w.stripExt (w.getwd r.state) outputFile
      (w.appVersion app.baseDir r.state) w.goos w.goarch app.baseDir appBinary with
  | .error err => logFatal err r
  | .ok destArchiveFile =>
    match createZipArchive w buildBaseDir destArchiveFile r with
    | (some err, r1) => logFatal err r1
    | (none, r1) =>
      (.done (), (r1.log (.infof "Build successful for '%s' [%s]" [app.name, app.importPath])).log
        (.infof "Application artifact is here: %s\n" [destArchiveFile]))

/-- The function `buildBinary` of `build.go`. -/
def buildBinary {σ : Type} (t : Tool σ) (w : World σ) (c : Context) (cfg : Config) (app : App)
    (r : Run σ) : Outcome Unit × Run σ :=
  let appBaseDir := app.baseDir
  let r1 := r.record (.cleanupAutoGenVFSFiles appBaseDir)
    (w.cleanupAutoGenVFSFiles appBaseDir r.state)
  let args : CompileArgs := { Cmd := "BuildCmd", AppPack := true, AppEmbed := false }
  let compiled := w.compileApp args r1.state
  let r2 := r1.record (.compileApp args) compiled.2
  match compiled.1 with
  | .error err => logFatal err r2
  | .ok appBinary =>
    let appProfile := t.firstNonEmpty [c.value "e", c.value "envprofile", "prod"]
    match copyFilesToWorkingDir w cfg appBaseDir appBinary appProfile r2 with
    | ((_, some err), r3) => logFatal err r3
    | ((buildBaseDir, none), r3) =>
      archiveStagingRoot w app (t.firstNonEmpty [c.value "o", c.value "output"]) appBinary
        buildBaseDir r3

/-- The function `buildAction` of `build.go`: `.done none` is its result `nil`. What
`initCLILogger` returns is the logger `cliLog`, whose messages are the calls `infof`. -/
def buildAction {σ : Type} (t : Tool σ) (w : World σ) (c : Context) (r : Run σ) :
    Outcome (Option String) × Run σ :=
  let importPath := t.appImportPath c
  let inited := t.aahInit importPath r.state
  let r1 := r.record (.aahInit importPath) inited.2
  match inited.1 with
  | some err => logFatal err r1
  | none =>
    let app := t.app r1.state
    let projectCfg := t.aahProjectCfg app.baseDir r1.state
    let r2 := (r1.log (.infof "Loaded aah project file: %s"
      [Filepath.Join [app.baseDir, t.aahProjectIdentifier]])).log
      (.infof "Build starts for '%s' [%s]" [app.name, app.importPath])
    let built :=
      if c.flag "s" || c.flag "single" then
        buildSingleBinary w projectCfg app (t.firstNonEmpty [c.value "o", c.value "output"]) r2
      else buildBinary t w c projectCfg app r2
    match built with
    | (.fatal, r3) => (.fatal, r3)
    | (.done _, r3) => (.done none, r3)

/-- The run in which `buildAction` chooses between its two modes, `aah.Init` having
succeeded: the call of `aah.Init` and the two opening messages have been made. -/
def buildStart {σ : Type} (t : Tool σ) (c : Context) (r : Run σ) : Run σ :=
  ⟨(t.aahInit (t.appImportPath c) r.state).2,
    r.calls ++ [.aahInit (t.appImportPath c),
      .infof "Loaded aah project file: %s"
        [Filepath.Join [(t.app (t.aahInit (t.appImportPath c) r.state).2).baseDir,
          t.aahProjectIdentifier]],
      .infof "Build starts for '%s' [%s]"
        [(t.app (t.aahInit (t.appImportPath c) r.state).2).name,
          (t.app (t.aahInit (t.appImportPath c) r.state).2).importPath]]⟩

/-- The run of `buildBinary` when `compileApp` has returned: the generated files have
been cleaned up and the application compiled as a package, without the embed flag. -/
def compiledRun {σ : Type} (w : World σ) (app : App) (r : Run σ) : Run σ :=
  ⟨(w.compileApp ⟨"BuildCmd", true, false⟩
      (w.cleanupAutoGenVFSFiles app.baseDir r.state)).2,
    r.calls ++ [.cleanupAutoGenVFSFiles app.baseDir, .compileApp ⟨"BuildCmd", true, false⟩]⟩

/-- The run of `buildSingleBinary` when the default mount point `/app` has been
processed. -/
def mountedRun {σ : Type} (w : World σ) (cfg : Config) (app : App) (r : Run σ) : Run σ :=
  ⟨(w.processMount app.baseDir "/app" app.baseDir (cfg.stringList "build.excludes").1
      (cfg.stringList "vfs.no_gzip").1 r.state).2,
    r.calls ++ [.infof "Embed starts for '%s' [%s]" [app.name, app.importPath],
      .processMount app.baseDir "/app" app.baseDir (cfg.stringList "build.excludes").1
        (cfg.stringList "vfs.no_gzip").1]⟩

/-- The run of `buildSingleBinary` when `compileApp` has returned, `r` being the run in
which the embedding ended: the application is compiled as a package with the embed
flag. -/
def embeddedRun {σ : Type} (w : World σ) (app : App) (r : Run σ) : Run σ :=
  ⟨(w.compileApp ⟨"BuildCmd", true, true⟩ r.state).2,
    r.calls ++ [.infof "Embed successful for '%s' [%s]" [app.name, app.importPath],
      .compileApp ⟨"BuildCmd", true, true⟩]⟩

/-- Whether the call is the validation of an exclude list. -/
def Call.isValidate : Call → Bool
  | .validate _ => true
  | _ => false

/-- Whether the call enumerates or copies directories of the application: `ess.DirsPath`,
the test `ess.IsFileExists` of a directory it listed, `ess.CopyDir`. -/
def Call.isTraversal : Call → Bool
  | .dirsPath _ _ => true
  | .isFileExists _ => true
  | .copyDir _ _ _ => true
  | _ => false

/-- Whether the call belongs to the part of `copyFilesToWorkingDir` that comes before the
validation of the excludes: the temporary directory, the staging root and the binary. -/
def Call.isSetup : Call → Bool
  | .tempDir _ _ => true
  | .deleteFiles _ => true
  | .mkDirAll _ _ => true
  | .copyFile _ _ => true
  | .applyFileMode _ _ => true
  | .logError _ => true
  | _ => false

/-- Whether what the call copies or writes goes into the staging root `root`: the binary
into its directory `bin`, a subtree into the root, a startup file into the root. The
other calls copy and write nothing. -/
def Call.intoRoot (root : String) : Call → Prop
  | .copyFile destDir _ => destDir = Filepath.Join [root, "bin"]
  | .copyDir dest _ _ => dest = root
  | .writeFile path _ _ =>
    path = Filepath.Join [root, "aah.sh"] ∨ path = Filepath.Join [root, "aah.cmd"]
  | _ => True

/-- The stages of the build state machine of the spec that make calls. The naming stage
makes none: it is the computation of `createZipArchiveName`. -/
inductive Stage where
  | embedding
  | compiling
  | staging
  | archiving
  deriving DecidableEq, Repr

/-- The stage a call belongs to: `processMount` is the embedding of the assets,
`compileApp` the compile step, `ess.Zip` the writing of the archive, and the calls that
only `copyFilesToWorkingDir` makes are the staging. The loggers, `aah.Init`, the cleanup
of the generated files and the two calls that the staging and the archiver share
(`ess.DeleteFiles`, `ess.MkDirAll`) tell no stage. -/
def Call.stage : Call → Option Stage
  | .processMount _ _ _ _ _ => some .embedding
  | .compileApp _ => some .compiling
  | .tempDir _ _ => some .staging
  | .copyFile _ _ => some .staging
  | .applyFileMode _ _ => some .staging
  | .validate _ => some .staging
  | .dirsPath _ _ => some .staging
  | .isFileExists _ => some .staging
  | .copyDir _ _ _ => some .staging
  | .writeFile _ _ _ => some .staging
  | .zip _ _ => some .archiving
  | _ => none

/-- A stage put in front of the stages that follow it, written once when it goes on. -/
def pushStage (s : Stage) : List Stage → List Stage
  | [] => [s]
  | t :: ts => if s = t then t :: ts else s :: t :: ts

/-- The stages a list of calls goes through, in their order, each maximal run of calls of
one stage counted once. -/
def stagesOf (calls : List Call) : List Stage :=
  calls.foldr (fun c acc => match c.stage with
    | none => acc
    | some s => pushStage s acc) []

/-! ## A file system, for what the staging leaves on disk -/

/-- A node of the file system: a file with its content and mode, or a directory with its
entries by name (the modes of directories are left out). -/
inductive FsNode where
  | file (content : String) (mode : Nat)
  | dir (entries : List (String × FsNode))

/-- The entry of that name, the first one when the list holds several. -/
def entryFind (name : String) : List (String × FsNode) → Option FsNode
  | [] => none
  | (n, node) :: rest => if n = name then some node else entryFind name rest

/-- The entries without the entries of that name. -/
def entryErase (name : String) : List (String × FsNode) → List (String × FsNode)
  | [] => []
  | (n, node) :: rest =>
    if n = name then entryErase name rest else (n, node) :: entryErase name rest

/-- The entries with the entry of that name replaced, or added last when there is none. -/
def entrySet (name : String) (node : FsNode) : List (String × FsNode) → List (String × FsNode)
  | [] => [(name, node)]
  | (n, old) :: rest =>
    if n = name then (n, node) :: entryErase name rest
    else (n, old) :: entrySet name node rest

/-- The entries once the entry of that name is `o`: set when `o` is a node, erased when it
is none. -/
def entryPut (name : String) (o : Option FsNode) (es : List (String × FsNode)) :
    List (String × FsNode) :=
  match o with
  | some node => entrySet name node es
  | none => entryErase name es

/-- What is found along the path from a node that may be missing: nothing under a file or
under what is missing. -/
def getAt : List String → Option FsNode → Option FsNode
  | [], o => o
  | x :: p, some (.dir es) => getAt p (entryFind x es)
  | _ :: _, _ => none

/-- The node once what stands at the path is changed by `f`, which gets what is there (or
none) and answers what shall be there (or none), or fails. The change fails under a file,
and under a missing directory unless `mk` says that missing directories are made. -/
def alterAt (mk : Bool) (f : Option FsNode → Option (Option FsNode)) :
    List String → Option FsNode → Option (Option FsNode)
  | [], o => f o
  | x :: p, some (.dir es) =>
    (alterAt mk f p (entryFind x es)).map (fun o => some (.dir (entryPut x o es)))
  | x :: p, none =>
    if mk then (alterAt mk f p none).map (fun o => some (.dir (entryPut x o []))) else none
  | _ :: _, some (.file _ _) => none

mutual
/-- Modelled from the spec: what `ess.CopyDir` copies of a node, the excludes being applied
at every directory level: an entry whose name is excluded is pruned with all it holds. -/
def pruneNode (excluded : String → Bool) : FsNode → FsNode
  | .file content mode => .file content mode
  | .dir es => .dir (pruneEntries excluded es)
/-- The entries that `ess.CopyDir` copies. -/
def pruneEntries (excluded : String → Bool) :
    List (String × FsNode) → List (String × FsNode)
  | [] => []
  | (n, node) :: rest =>
    if excluded n then pruneEntries excluded rest
    else (n, pruneNode excluded node) :: pruneEntries excluded rest
end

mutual
/-- The paths of the directories under a node found at `path`: its direct
subdirectories, and theirs when `recursive` is set. -/
def dirPathsNode (recursive : Bool) (path : String) : FsNode → List String
  | .file _ _ => []
  | .dir es => dirPathsEntries recursive path es
/-- The paths of the directories among the entries of the directory `base`. -/
def dirPathsEntries (recursive : Bool) (base : String) :
    List (String × FsNode) → List String
  | [] => []
  | (n, node) :: rest =>
    (match node with
      | .file _ _ => []
      | .dir _ =>
        Filepath.Join [base, n]
          :: (if recursive then dirPathsNode recursive (Filepath.Join [base, n]) node
              else []))
      ++ dirPathsEntries recursive base rest
end

/-- The elements of a path from the root, as the operating system resolves it (the
working directory is the root): what `filepath.Clean` keeps of the rooted path. -/
def pathElems (path : String) : List String :=
  (Filepath.cleanElems true path.data).map String.mk

/-- Whether the name is a plain path element. -/
def isPlainName (name : String) : Bool :=
  name.data ≠ [] && name.data ≠ ['.'] && name.data ≠ Filepath.dotdot && !name.data.contains '/'

/-- The state of a file system: the root directory, and the names that `ioutil.TempDir`
will try in turn (its random numbers). -/
structure Fs where
  root : FsNode
  names : List String

/-- What stands at the path. -/
def Fs.get (s : Fs) (path : String) : Option FsNode := getAt (pathElems path) (some s.root)

/-- The file system once what stands at the elements is changed by `f`; none when the
change fails. -/
def Fs.alter (s : Fs) (mk : Bool) (f : Option FsNode → Option (Option FsNode))
    (elems : List String) : Option Fs :=
  match alterAt mk f elems (some s.root) with
  | some (some root) => some { s with root := root }
  | _ => none

/-- What `os.MkdirAll` leaves at the end of the path: a directory is left as it is, a
missing one is made empty, and a file is in the way. -/
def mkdirNode : Option FsNode → Option (Option FsNode)
  | none => some (some (.dir []))
  | some (.dir es) => some (some (.dir es))
  | some (.file _ _) => none

/-- What a copy leaves at its target: the node, unless something stands there. -/
def placeNode (node : FsNode) : Option FsNode → Option (Option FsNode)
  | none => some (some node)
  | some _ => none

/-- What `ioutil.WriteFile` leaves at the path: a new file with the mode given, or the
file that was there with its content replaced; a directory is in the way. -/
def writeNode (data : String) (perm : Nat) : Option FsNode → Option (Option FsNode)
  | none => some (some (.file data perm))
  | some (.file _ mode) => some (some (.file data mode))
  | some (.dir _) => none

/-- What `os.Chmod` leaves at the path: the file with the mode given. -/
def chmodNode (perm : Nat) : Option FsNode → Option (Option FsNode)
  | none => none
  | some (.file content _) => some (some (.file content perm))
  | some (.dir es) => some (some (.dir es))

/-- A change of the file system as a call makes it: the error `err` is answered, and the
files are left as they are, when the change fails. -/
def Fs.attempt (s : Fs) (mk : Bool) (f : Option FsNode → Option (Option FsNode))
    (elems : List String) (err : String) : Option String × Fs :=
  match s.alter mk f elems with
  | some s1 => (none, s1)
  | none => (some err, s)

/-- Modelled from the spec: `ess.MkDirAll(path, perm)`, which belongs to the essentials
library: the directory and its missing parents are made (`os.MkdirAll`). -/
def Fs.mkDirAll (path : String) (_perm : Nat) (s : Fs) : Option String × Fs :=
  s.attempt true mkdirNode (pathElems path) "mkdir: not a directory"

/-- Modelled from the spec: `ess.DeleteFiles(path)`: what stands at the path is removed
with all it holds; the errors are not returned to `build.go`. -/
def Fs.deleteFiles (path : String) (s : Fs) : Fs :=
  (s.attempt false (fun _ => some none) (pathElems path) "remove: no such directory").2

/-- Modelled from the spec: `ess.CopyFile(destDir, src)`: the file `src` is copied under
its name into the directory `destDir`, which exists and holds no entry of that name. -/
def Fs.copyFile (destDir src : String) (s : Fs) : Option String × Fs :=
  match s.get src, (pathElems src).getLast? with
  | some (.file content mode), some name =>
    s.attempt false (placeNode (.file content mode)) (pathElems destDir ++ [name])
      "copy: destination is not free"
  | _, _ => (some "copy: source is not a file", s)

/-- Modelled from the spec: `ess.ApplyFileMode(path, perm)`: the mode of the file is
set (`os.Chmod`). -/
def Fs.applyFileMode (path : String) (perm : Nat) (s : Fs) : Option String × Fs :=
  s.attempt false (chmodNode perm) (pathElems path) "chmod: no such file or directory"

/-- Modelled from the spec: `ess.CopyDir(dest, src, excludes)`: the directory `src` is
copied under its name into the directory `dest`, which exists and holds no entry of that
name, without what the excludes prune; nothing is copied when the name of `src` itself is
excluded. -/
def Fs.copyDir (globMatch : String → String → Bool) (dest src : String)
    (excludes : List String) (s : Fs) : Option String × Fs :=
  match s.get src, (pathElems src).getLast? with
  | some (.dir es), some name =>
    if excludes.any (fun p => globMatch p name) then (none, s)
    else
      s.attempt false
        (placeNode (.dir (pruneEntries (fun n => excludes.any (fun p => globMatch p n)) es)))
        (pathElems dest ++ [name]) "copy: destination is not free"
  | _, _ => (some "copy: source is not a directory", s)

/-- The function `ioutil.WriteFile`. -/
def Fs.writeFile (path data : String) (perm : Nat) (s : Fs) : Option String × Fs :=
  s.attempt false (writeNode data perm) (pathElems path) "write: no such directory"

/-- The function `ioutil.TempDir`: a new directory is made in `dir` (in `/tmp` when `dir`
is empty) under the first name `pfx ++ suffix` that is a plain name and that nothing
bears yet, the suffixes being tried in the order of `names`. -/
def Fs.tempDir (dir pfx : String) (s : Fs) : Except String String × Fs :=
  let base := if dir = "" then "/tmp" else dir
  match s.names.find? (fun suffix =>
      isPlainName (pfx ++ suffix) && (s.get (Filepath.Join [base, pfx ++ suffix])).isNone) with
  | none => (.error "tempdir: no name is free", s)
  | some suffix =>
    match s.alter false (placeNode (.dir [])) (pathElems (Filepath.Join [base, pfx ++ suffix])) with
    | some s1 => (.ok (Filepath.Join [base, pfx ++ suffix]), s1)
    | none => (.error "tempdir: no such directory", s)

/-- Modelled from the spec: `ess.DirsPath(basePath, recursive)`: the paths of the
directories under `basePath`. -/
def Fs.dirsPath (basePath : String) (recursive : Bool) (s : Fs) : List String × Option String :=
  match s.get basePath with
  | some (.dir es) => (dirPathsEntries recursive basePath es, none)
  | _ => ([], some "not a directory")

/-- The path lies outside the directory of the temporary files: its first element is
not `tmp`. -/
def Outside (elems : List String) : Prop := ∃ a q, elems = a :: q ∧ a ≠ "tmp"

/-- Two file systems in which an assembly is under way, in the staging roots `R1` and
`R2`: outside `/tmp` each holds what `ref` holds, and the two staging roots hold the
same. -/
def Staged (ref : FsNode) (R1 R2 : List String) (t1 t2 : FsNode) : Prop :=
  (∀ a q, a ≠ "tmp" → getAt (a :: q) (some t1) = getAt (a :: q) (some ref))
  ∧ (∀ a q, a ≠ "tmp" → getAt (a :: q) (some t2) = getAt (a :: q) (some ref))
  ∧ ∃ m, getAt R1 (some t1) = some m ∧ getAt R2 (some t2) = some m

/-- The paths from the staging root at which an assembly may leave a directory, `excluded`
telling the names that the subtree excludes match: the path `bin`, or a path none of whose
names is excluded. -/
def StagedDir (excluded : String → Bool) (q : List String) : Prop :=
  q = ["bin"] ∨ ∀ n ∈ q, excluded n = false

/-- Every directory under the staging root `R` of the tree stands at such a path. -/
def DirsStaged (excluded : String → Bool) (R : List String) (t : FsNode) : Prop :=
  ∀ x q es, getAt (R ++ x :: q) (some t) = some (.dir es) → StagedDir excluded (x :: q)

/-- The world of a file system. The calls of the essentials library and of the standard
library on files act on the state; what a build asks besides (patterns, names, templates,
the compiler, the embedding, the archive) is answered as in `w0` and leaves the files
alone. -/
def fsWorld (w0 : World Unit) : World Fs where
  tempDir := Fs.tempDir
  deleteFiles := Fs.deleteFiles
  mkDirAll := Fs.mkDirAll
  copyFile := Fs.copyFile
  applyFileMode := Fs.applyFileMode
  validate := w0.validate
  globMatch := w0.globMatch
  dirsPath := Fs.dirsPath
  isFileExists := fun path s => (s.get path).isSome
  copyDir := Fs.copyDir w0.globMatch
  writeFile := Fs.writeFile
  zip := fun dest src s => ((w0.zip dest src ()).1, s)
  cleanupAutoGenVFSFiles := fun _ s => s
  processMount := fun a v p e n s => ((w0.processMount a v p e n ()).1, s)
  compileApp := fun args s => ((w0.compileApp args ()).1, s)
  getwd := fun _ => w0.getwd ()
  stripExt := w0.stripExt
  renderTmpl := w0.renderTmpl
  appVersion := fun dir _ => w0.appVersion dir ()
  goos := w0.goos
  goarch := w0.goarch

/-! ## Sample worlds -/

/-- A world without state in which every call succeeds, the validation of the excludes
apart, which is that of the library: the application `/proj` has the directories `app` and
`config`, and compiles to `/proj/build/bin/myapp`. -/
def quietWorld : World Unit where
  tempDir := fun _ pfx s => (.ok ("/tmp/" ++ pfx ++ "042"), s)
  deleteFiles := fun _ s => s
  mkDirAll := fun _ _ s => (none, s)
  copyFile := fun _ _ s => (none, s)
  applyFileMode := fun _ _ s => (none, s)
  validate := Ess.ExcludesValidate
  globMatch := fun pattern name => pattern = name
  dirsPath := fun basePath _ _ => ([basePath ++ "/app", basePath ++ "/config"], none)
  isFileExists := fun _ _ => true
  copyDir := fun _ _ _ s => (none, s)
  writeFile := fun _ _ _ s => (none, s)
  zip := fun _ _ s => (none, s)
  cleanupAutoGenVFSFiles := fun _ s => s
  processMount := fun _ _ _ _ _ s => (none, s)
  compileApp := fun _ s => (.ok "/proj/build/bin/myapp", s)
  getwd := fun _ => .ok "/cwd"
  stripExt := Ess.StripExt
  renderTmpl := renderTmpl
  appVersion := fun _ _ => "1.0.0-abcdef"
  goos := "linux"
  goarch := "amd64"

/-- The world `quietWorld`, except that the binary cannot be put in place: creating
`bin`, copying the binary and setting its mode all fail. -/
def noBinaryWorld : World Unit :=
  { quietWorld with
    mkDirAll := fun path _ s =>
      (if path = "/tmp/myapp042/myapp/bin" then some "mkdir: permission denied" else none, s)
    copyFile := fun _ _ s => (some "copy: no such file or directory", s)
    applyFileMode := fun _ _ s => (some "chmod: no such file or directory", s) }

/-- The world `quietWorld`, except that no temporary directory can be made. -/
def noTempWorld : World Unit :=
  { quietWorld with tempDir := fun _ _ s => (.error "no space left on device", s) }

/-- The world `quietWorld`, except that the excludes do not validate. -/
def badExcludesWorld : World Unit :=
  { quietWorld with validate := fun _ => some "syntax error in pattern" }

/-- The world `quietWorld`, except that the mount of `/data/shared` fails. -/
def badMountWorld : World Unit :=
  { quietWorld with
    processMount := fun _ _ proot _ _ s =>
      (if proot = "/data/shared" then some "path does not exist: /data/shared" else none, s) }

/-- The world `quietWorld`, except that the application does not compile. -/
def noCompileWorld : World Unit :=
  { quietWorld with compileApp := fun _ s => (.error "compile failed", s) }

/-- The world `quietWorld`, except that the parent directory of an archive cannot be
created. -/
def noArchiveDirWorld : World Unit :=
  { quietWorld with
    mkDirAll := fun path _ s =>
      (if path = "/proj/build" then some "mkdir: read-only file system" else none, s) }

/-- A project configuration with two excludes and four custom mounts: `assets` has a
relative physical path, `docs` has none, `shared` and `extra` have absolute ones. -/
def sampleConfig : Config where
  stringList := fun key =>
    if key = "build.excludes" then (["*.bak", "vendor"], true) else ([], false)
  stringDefault := fun key defaultValue =>
    if key = "vfs.mount.assets.mount_path" then "/assets"
    else if key = "vfs.mount.assets.physical_path" then "assets"
    else if key = "vfs.mount.docs.mount_path" then "/docs"
    else if key = "vfs.mount.shared.mount_path" then "/shared"
    else if key = "vfs.mount.shared.physical_path" then "/data/shared"
    else if key = "vfs.mount.extra.mount_path" then "/extra"
    else if key = "vfs.mount.extra.physical_path" then "/data/extra"
    else defaultValue
  keysByPath := fun path =>
    if path = "vfs.mount" then ["assets", "docs", "shared", "extra"] else []

/-- The sample configuration with two more excludes: a class that is not closed, and an
empty pattern. -/
def badPatternConfig : Config :=
  { sampleConfig with
    stringList := fun key =>
      if key = "build.excludes" then (["*.bak", "[vendor", ""], true) else ([], false) }

/-- The sample configuration with the one exclude `bin`. -/
def binExcludedConfig : Config :=
  { sampleConfig with
    stringList := fun key =>
      if key = "build.excludes" then (["bin"], true) else ([], false) }

/-- The application `myapp` in `/proj`. -/
def sampleApp : App := { baseDir := "/proj", name := "myapp", importPath := "github.com/user/myapp" }

/-- The tool around the application `myapp`: `aah.Init` succeeds and the project
configuration is `sampleConfig`. -/
def sampleTool : Tool Unit where
  appImportPath := fun c => c.value "importpath"
  aahInit := fun _ s => (none, s)
  app := fun _ => sampleApp
  aahProjectCfg := fun _ _ => sampleConfig
  aahProjectIdentifier := "aah.project"
  firstNonEmpty := fun values => (values.find? (fun v => !Ess.IsStrEmpty v)).getD ""

/-- The command line `aah build -i github.com/user/myapp`. -/
def plainBuild : Context where
  flag := fun _ => false
  value := fun name => if name = "importpath" then "github.com/user/myapp" else ""

/-- The command line `aah build -i github.com/user/myapp --single`. -/
def singleBuild : Context where
  flag := fun name => name = "single"
  value := fun name => if name = "importpath" then "github.com/user/myapp" else ""

/-- A file system that holds the application `/proj`, with its compiled binary, and an
empty `/tmp`. -/
def sampleFs : Fs where
  root := .dir [("tmp", .dir []),
    ("proj", .dir [("app", .dir [("main.go", .file "package main" 0o644)]),
      ("config", .dir [("app.conf", .file "env.default = dev" 0o644)]),
      ("build", .dir [("bin", .dir [("myapp", .file "binary" 0o644)])])])]
  names := ["042", "043"]

/-- The file system `sampleFs` after an interrupted build: `/tmp/myapp042/myapp` is there,
with a file in it. -/
def staleFs : Fs where
  root := .dir [("tmp", .dir [("myapp042", .dir [("myapp",
      .dir [("stale.txt", .file "left behind" 0o644)])])]),
    ("proj", .dir [("app", .dir [("main.go", .file "package main" 0o644)]),
      ("config", .dir [("app.conf", .file "env.default = dev" 0o644)]),
      ("build", .dir [("bin", .dir [("myapp", .file "binary" 0o644)])])])]
  names := ["042", "043"]

/-- The world `quietWorld` with a renderer that writes one line, the profile handed to the
template. -/
def lineWorld : World Unit :=
  { quietWorld with
    renderTmpl := fun _ data =>
      .ok ("APP_ENV_PROFILE=" ++ String.mk (lookupField data "AppProfile".data)) }

/-- A run that starts with no call made. -/
def Run.start : Run Unit := ⟨(), []⟩

end Aah

/-! ## Lemmas on the path functions -/

namespace Aah

namespace Filepath

theorem splitSep_ne_nil (p : List Char) : splitSep p ≠ [] := by
  cases p with
  | nil => simp [splitSep]
  | cons c cs =>
    unfold splitSep
    split
    · simp
    · split <;> simp

theorem splitSep_cons_of_ne (c : Char) (cs : List Char) (hc : c ≠ '/') :
    splitSep (c :: cs) =
      match splitSep cs with
      | [] => [[c]]
      | w :: ws => (c :: w) :: ws := by
  simp [splitSep, hc]

theorem splitSep_append_sep (a b : List Char) :
    splitSep (a ++ '/' :: b) = splitSep a ++ splitSep b := by
  induction a with
  | nil => simp [splitSep]
  | cons c cs ih =>
    by_cases hc : c = '/'
    · simp [splitSep, hc, ih]
    · rw [List.cons_append, splitSep_cons_of_ne _ _ hc, splitSep_cons_of_ne _ _ hc, ih]
      cases h : splitSep cs with
      | nil => exact absurd h (splitSep_ne_nil cs)
      | cons w ws => simp

theorem splitSep_of_no_sep (e : List Char) (h : '/' ∉ e) : splitSep e = [e] := by
  induction e with
  | nil => simp [splitSep]
  | cons c cs ih =>
    have hc : c ≠ '/' := fun hc => h (by simp [hc])
    have hcs : '/' ∉ cs := fun hcs => h (by simp [hcs])
    simp [splitSep, hc, ih hcs]

theorem no_sep_of_mem_splitSep (p e : List Char) (h : e ∈ splitSep p) : '/' ∉ e := by
  induction p generalizing e with
  | nil => simp [splitSep] at h; simp [h]
  | cons c cs ih =>
    by_cases hc : c = '/'
    · simp only [splitSep, hc, if_true, List.mem_cons] at h
      rcases h with h | h
      · simp [h]
      · exact ih e h
    · simp only [splitSep, hc, if_false] at h
      cases hs : splitSep cs with
      | nil => exact absurd hs (splitSep_ne_nil cs)
      | cons w ws =>
        rw [hs] at h ih
        simp only [List.mem_cons] at h
        rcases h with h | h
        · have hw := ih w (by simp)
          rw [h]
          intro hmem
          rcases List.mem_cons.1 hmem with h1 | h1
          · exact hc h1.symm
          · exact hw h1
        · exact ih e (by simp [h])

theorem joinSep_append (xs ys : List (List Char)) (hx : xs ≠ []) (hy : ys ≠ []) :
    joinSep (xs ++ ys) = joinSep xs ++ '/' :: joinSep ys := by
  induction xs with
  | nil => exact absurd rfl hx
  | cons x xs ih =>
    cases xs with
    | nil =>
      cases ys with
      | nil => exact absurd rfl hy
      | cons y ys => simp [joinSep]
    | cons x2 xs =>
      have := ih (by simp)
      simp only [List.cons_append] at this
      simp [joinSep, this]

theorem splitSep_joinSep (es : List (List Char)) (hne : es ≠ [])
    (h : ∀ e ∈ es, '/' ∉ e) : splitSep (joinSep es) = es := by
  induction es with
  | nil => exact absurd rfl hne
  | cons x xs ih =>
    cases xs with
    | nil => simpa [joinSep] using splitSep_of_no_sep x (h x (by simp))
    | cons x2 xs =>
      have h1 := ih (by simp) (fun e he => h e (by simp [he]))
      simp only [joinSep, splitSep_append_sep, h1]
      rw [splitSep_of_no_sep x (h x (by simp))]
      simp

theorem cleanStep_plain (rooted : Bool) (kept : List (List Char)) (e : List Char)
    (h1 : e ≠ []) (h2 : e ≠ ['.']) (h3 : e ≠ dotdot) : cleanStep rooted kept e = e :: kept := by
  simp [cleanStep, h1, h2, h3]

theorem foldl_cleanStep_plain (rooted : Bool) (es kept : List (List Char))
    (h : ∀ e ∈ es, Plain e) : es.foldl (cleanStep rooted) kept = es.reverse ++ kept := by
  induction es generalizing kept with
  | nil => simp
  | cons e es ih =>
    have he := h e (by simp)
    rw [List.foldl_cons, cleanStep_plain rooted kept e he.1 he.2.1 he.2.2.1,
      ih _ (fun x hx => h x (by simp [hx]))]
    simp

theorem cleanStep_rooted_plain (kept : List (List Char)) (e : List Char)
    (hk : ∀ k ∈ kept, Plain k) (he : '/' ∉ e) : ∀ k ∈ cleanStep true kept e, Plain k := by
  unfold cleanStep
  split
  · exact hk
  · rename_i h1
    split
    · cases kept with
      | nil => simp
      | cons top rest =>
        have htop := hk top (by simp)
        simp only [htop.2.2.1, if_false]
        exact fun k hkm => hk k (by simp [hkm])
    · rename_i h3
      intro k hkm
      rcases List.mem_cons.1 hkm with h | h
      · rw [h]
        exact ⟨fun h0 => h1 (Or.inl h0), fun h0 => h1 (Or.inr h0), h3, he⟩
      · exact hk k h

theorem foldl_cleanStep_rooted_plain (es kept : List (List Char))
    (hk : ∀ k ∈ kept, Plain k) (he : ∀ e ∈ es, '/' ∉ e) :
    ∀ k ∈ es.foldl (cleanStep true) kept, Plain k := by
  induction es generalizing kept with
  | nil => simpa using hk
  | cons e es ih =>
    rw [List.foldl_cons]
    exact ih _ (cleanStep_rooted_plain kept e hk (he e (by simp)))
      (fun x hx => he x (by simp [hx]))

theorem cleanElems_rooted_plain (p : List Char) : ∀ e ∈ cleanElems true p, Plain e := by
  intro e he
  unfold cleanElems at he
  rw [List.mem_reverse] at he
  exact foldl_cleanStep_rooted_plain (splitSep p) [] (by simp)
    (fun x hx => no_sep_of_mem_splitSep p x hx) e he

theorem cleanChars_rooted (p : List Char) (h : rootedChars p = true) :
    cleanChars p = '/' :: joinSep (cleanElems true p) := by
  have hp : p ≠ [] := by
    intro h0
    simp [h0, rootedChars] at h
  simp [cleanChars, hp, h]

/-- A rooted path in clean form is left as it is by `filepath.Clean`. -/
theorem cleanChars_rooted_form (els : List (List Char)) (h : ∀ e ∈ els, Plain e) :
    cleanChars ('/' :: joinSep els) = '/' :: joinSep els := by
  rw [cleanChars_rooted _ (by simp [rootedChars])]
  congr 1
  by_cases hne : els = []
  · subst hne
    simp [cleanElems, joinSep, splitSep, cleanStep]
  · have hs : splitSep ('/' :: joinSep els) = [] :: els := by
      simp [splitSep, splitSep_joinSep els hne (fun e he => (h e he).2.2.2)]
    simp only [cleanElems, hs, List.foldl_cons]
    have h0 : cleanStep true [] [] = [] := by simp [cleanStep]
    rw [h0, foldl_cleanStep_plain true els [] h]
    simp

/-- A rooted path that `filepath.Clean` leaves as it is consists of plain elements. -/
theorem rooted_form_of_clean (p : List Char) (h : rootedChars p = true)
    (hc : cleanChars p = p) : ∃ els, (∀ e ∈ els, Plain e) ∧ p = '/' :: joinSep els :=
  ⟨cleanElems true p, cleanElems_rooted_plain p, hc.symm.trans (cleanChars_rooted p h)⟩

/-- Plain elements added to a rooted clean path other than the root give a clean path. -/
theorem cleanChars_rooted_append (els ns : List (List Char)) (h : ∀ e ∈ els, Plain e)
    (hn : ∀ e ∈ ns, Plain e) (hne : els ≠ []) (hnn : ns ≠ []) :
    cleanChars (('/' :: joinSep els) ++ '/' :: joinSep ns)
      = ('/' :: joinSep els) ++ '/' :: joinSep ns := by
  have hj : ('/' :: joinSep els) ++ '/' :: joinSep ns = '/' :: joinSep (els ++ ns) := by
    rw [joinSep_append els ns hne hnn]
    simp
  rw [hj]
  apply cleanChars_rooted_form
  intro e he
  rcases List.mem_append.1 he with h1 | h1
  · exact h e h1
  · exact hn e h1

/-- Plain elements added to the root give a clean path. -/
theorem cleanChars_root_append (ns : List (List Char)) (hn : ∀ e ∈ ns, Plain e) :
    cleanChars ('/' :: '/' :: joinSep ns) = '/' :: joinSep ns := by
  rw [cleanChars_rooted _ (by simp [rootedChars])]
  congr 1
  by_cases hne : ns = []
  · subst hne
    simp [cleanElems, joinSep, splitSep, cleanStep]
  · have hs : splitSep ('/' :: '/' :: joinSep ns) = [] :: [] :: ns := by
      simp [splitSep, splitSep_joinSep ns hne (fun e he => (hn e he).2.2.2)]
    simp only [cleanElems, hs, List.foldl_cons]
    have h0 : cleanStep true [] [] = [] := by simp [cleanStep]
    rw [h0, h0, foldl_cleanStep_plain true ns [] hn]
    simp

theorem suffix_of_suffix_append_cons (s x g : List Char) (c : Char) (hc : c ∉ s)
    (h : s <:+ x ++ c :: g) : s <:+ g := by
  have h2 : (c :: g) <:+ x ++ c :: g := List.suffix_append _ _
  rcases List.suffix_or_suffix_of_suffix h h2 with h3 | h3
  · rcases List.suffix_cons_iff.1 h3 with h4 | h4
    · exact absurd (by simp [h4]) hc
    · exact h4
  · obtain ⟨t, ht⟩ := h3
    exact absurd (by simp [← ht]) hc

theorem splitSep_append_no_sep (x s : List Char) (hs : '/' ∉ s) :
    ∃ pre e, splitSep x = pre ++ [e] ∧ splitSep (x ++ s) = pre ++ [e ++ s] := by
  induction x with
  | nil => exact ⟨[], [], by simp [splitSep], by simpa using splitSep_of_no_sep s hs⟩
  | cons c cs ih =>
    obtain ⟨pre, e, h1, h2⟩ := ih
    by_cases hc : c = '/'
    · exact ⟨[] :: pre, e, by simp [splitSep, hc, h1], by simp [splitSep, hc, h2]⟩
    · rw [List.cons_append, splitSep_cons_of_ne _ _ hc, splitSep_cons_of_ne _ _ hc, h1, h2]
      cases pre with
      | nil => exact ⟨[], c :: e, by simp, by simp⟩
      | cons w ws => exact ⟨(c :: w) :: ws, e, by simp, by simp⟩

theorem suffix_joinSep_snoc (ys : List (List Char)) (e : List Char) :
    e <:+ joinSep (ys ++ [e]) := by
  by_cases hy : ys = []
  · subst hy
    simp [joinSep]
  · rw [joinSep_append ys [e] hy (by simp)]
    exact ⟨joinSep ys ++ ['/'], by simp [joinSep]⟩

/-- The function `filepath.Clean` keeps a trailing `.zip`. -/
theorem zipExt_suffix_cleanChars (p : List Char) (h : zipExt <:+ p) :
    zipExt <:+ cleanChars p := by
  obtain ⟨x, hx⟩ := h
  have hp : p ≠ [] := by
    intro h0
    rw [h0] at hx
    simp [zipExt] at hx
  obtain ⟨pre, e, _, h2⟩ := splitSep_append_no_sep x zipExt (by simp [zipExt])
  rw [hx] at h2
  have hlen : 4 ≤ (e ++ zipExt).length := by simp [zipExt]
  have hstep : ∀ r kept, cleanStep r kept (e ++ zipExt) = (e ++ zipExt) :: kept := by
    intro r kept
    apply cleanStep_plain
    · intro h0; rw [h0] at hlen; simp at hlen
    · intro h0; rw [h0] at hlen; simp at hlen
    · intro h0; rw [h0] at hlen; simp [dotdot] at hlen
  have hbody : ∀ r, zipExt <:+ joinSep (cleanElems r p) := by
    intro r
    simp only [cleanElems, h2, List.foldl_append, List.foldl_cons, List.foldl_nil, hstep,
      List.reverse_cons]
    exact List.IsSuffix.trans (List.suffix_append e zipExt) (suffix_joinSep_snoc _ _)
  have hne : ∀ r, joinSep (cleanElems r p) ≠ [] := by
    intro r h0
    have := hbody r
    rw [h0] at this
    simp [zipExt] at this
  simp only [cleanChars, hp, if_false]
  split
  · exact List.IsSuffix.trans (hbody _) (List.suffix_cons _ _)
  · rw [if_neg (hne _)]
    exact hbody _

theorem Join_two (a b : String) (ha : a.data ≠ []) :
    (Join [a, b]).data = cleanChars (a.data ++ '/' :: b.data) := by
  have h : a ≠ "" := fun h0 => ha (by rw [h0])
  simp [Join, List.dropWhile, h, joinSep]

theorem Join_three (a b c : String) (ha : a.data ≠ []) :
    (Join [a, b, c]).data = cleanChars (a.data ++ '/' :: (b.data ++ '/' :: c.data)) := by
  have h : a ≠ "" := fun h0 => ha (by rw [h0])
  simp [Join, List.dropWhile, h, joinSep]

/-- A rooted result of `filepath.Abs` is in clean form. -/
theorem Abs_rooted_form (getwd : Except String String) (path abs : String)
    (hwd : ∀ wd, getwd = .ok wd → IsAbs wd = true) (h : Abs getwd path = .ok abs) :
    ∃ els, (∀ e ∈ els, Plain e) ∧ abs.data = '/' :: joinSep els := by
  unfold Abs at h
  split at h
  · rename_i hp
    injection h with h
    refine ⟨cleanElems true path.data, cleanElems_rooted_plain _, ?_⟩
    rw [← h]
    exact cleanChars_rooted _ hp
  · cases hg : getwd with
    | error err => rw [hg] at h; exact absurd h (by simp)
    | ok wd =>
      rw [hg] at h
      injection h with h
      have hr : rootedChars wd.data = true := hwd wd hg
      have hne : wd.data ≠ [] := by
        intro h0
        simp [h0, rootedChars] at hr
      refine ⟨cleanElems true (wd.data ++ '/' :: path.data), cleanElems_rooted_plain _, ?_⟩
      rw [← h, Join_two wd path hne]
      apply cleanChars_rooted
      cases hd : wd.data with
      | nil => exact absurd hd hne
      | cons c cs =>
        rw [hd] at hr
        simpa [rootedChars] using hr

end Filepath

theorem HasSuffix_zip_iff (s : String) :
    Strings.HasSuffix s ".zip" = true ↔ Filepath.zipExt <:+ s.data := by
  unfold Strings.HasSuffix
  rw [List.isSuffixOf_iff_suffix]
  rfl

theorem IsStrEmpty_of_zip (s : String) (h : Strings.HasSuffix s ".zip" = true) :
    Ess.IsStrEmpty s = false := by
  obtain ⟨t, ht⟩ := (HasSuffix_zip_iff s).1 h
  have hz : 'z' ∈ s.data := by
    rw [← ht]
    simp [Filepath.zipExt]
  unfold Ess.IsStrEmpty
  rw [Bool.eq_false_iff]
  intro hall
  have := List.all_eq_true.1 hall 'z' hz
  revert this
  decide

/-- The canonical name has the form `<x>-<goarch>`. -/
theorem archiveName_data (stripExt : String → String) (version goos goarch appBinary : String) :
    (archiveName stripExt version goos goarch appBinary).data
      = ((stripExt (Filepath.Base appBinary)).data ++ '-' :: version.data ++ '-' :: goos.data)
          ++ '-' :: goarch.data := by
  simp [archiveName, addTargetBuildInfo, String.data_append]

/-- A canonical name without a separator is a plain path element. -/
theorem archiveName_plain (stripExt : String → String) (version goos goarch appBinary : String)
    (hsep : '/' ∉ (archiveName stripExt version goos goarch appBinary).data) :
    Filepath.Plain (archiveName stripExt version goos goarch appBinary).data := by
  have hd : '-' ∈ (archiveName stripExt version goos goarch appBinary).data := by
    rw [archiveName_data]
    simp
  refine ⟨?_, ?_, ?_, hsep⟩
  · intro h0; rw [h0] at hd; simp at hd
  · intro h0; rw [h0] at hd; revert hd; decide
  · intro h0; rw [h0] at hd; revert hd; decide

/-- A path that ends in the canonical name ends in `.zip` only if `goarch` does. -/
theorem archiveName_not_zip (stripExt : String → String) (version goos goarch appBinary : String)
    (x : List Char) (hzip : Strings.HasSuffix goarch ".zip" = false) :
    ¬ Filepath.zipExt <:+ x ++ (archiveName stripExt version goos goarch appBinary).data := by
  intro h
  rw [archiveName_data, ← List.append_assoc] at h
  have := Filepath.suffix_of_suffix_append_cons _ _ _ '-' (by decide) h
  rw [← HasSuffix_zip_iff, hzip] at this
  exact absurd this (by simp)

/-! ## Archive naming -/

/-- C1 (counterexample): with no output flag, binary `myapp`, version `1.0.0-abcdef`,
target `linux`/`amd64.zip` and application directory `/proj`, the canonical name already
ends in `.zip`, so no `.zip` is appended: the result is not `<appBaseDir>/build/<N>.zip`. -/
theorem createZipArchiveName_default_counterexample :
    createZipArchiveName Ess.StripExt (.ok "/cwd") "" "1.0.0-abcdef" "linux" "amd64.zip"
        "/proj" "/proj/build/bin/myapp"
      = .ok "/proj/build/myapp-1.0.0-abcdef-linux-amd64.zip"
    ∧ createZipArchiveName Ess.StripExt (.ok "/cwd") "" "1.0.0-abcdef" "linux" "amd64.zip"
        "/proj" "/proj/build/bin/myapp"
      ≠ .ok ("/proj" ++ "/build/"
          ++ archiveName Ess.StripExt "1.0.0-abcdef" "linux" "amd64.zip" "/proj/build/bin/myapp"
          ++ ".zip") := by
  constructor
  · rfl
  · intro h
    injection h with h
    revert h
    decide

/-- C1 (amended): when no output flag is given (the explicit output is empty), the
application directory is a clean absolute path other than the root, the canonical name
`N = <base name of the binary without extension>-<version>-<goos>-<goarch>` holds no
separator and `goarch` does not end in `.zip`, `createZipArchiveName` returns exactly
`<appBaseDir>/build/<N>.zip`. -/
theorem createZipArchiveName_default (stripExt : String → String)
    (getwd : Except String String)
    (outputFile version goos goarch appBaseDir appBinary : String)
    (hout : Ess.IsStrEmpty outputFile = true)
    (habs : Filepath.IsAbs appBaseDir = true)
    (hclean : Filepath.Clean appBaseDir = appBaseDir)
    (hroot : appBaseDir ≠ "/")
    (hsep : '/' ∉ (archiveName stripExt version goos goarch appBinary).data)
    (hzip : Strings.HasSuffix goarch ".zip" = false) :
    createZipArchiveName stripExt getwd outputFile version goos goarch appBaseDir appBinary
      = .ok (appBaseDir ++ "/build/" ++ stripExt (Filepath.Base appBinary) ++ "-" ++ version
          ++ "-" ++ goos ++ "-" ++ goarch ++ ".zip") := by
  have hname : appBaseDir ++ "/build/" ++ stripExt (Filepath.Base appBinary) ++ "-" ++ version
      ++ "-" ++ goos ++ "-" ++ goarch
      = appBaseDir ++ "/build/" ++ archiveName stripExt version goos goarch appBinary := by
    apply String.ext
    simp [archiveName, addTargetBuildInfo, String.data_append]
  rw [hname]
  obtain ⟨els, hels, hform⟩ := Filepath.rooted_form_of_clean appBaseDir.data habs
    (congrArg String.data hclean)
  have hne : els ≠ [] := by
    intro h0
    apply hroot
    apply String.ext
    rw [hform, h0]
    rfl
  have hplain := archiveName_plain stripExt version goos goarch appBinary hsep
  have hbuild : Filepath.Plain ("build" : String).data := by
    refine ⟨?_, ?_, ?_, ?_⟩ <;> decide
  have hjoin : (Filepath.Join [appBaseDir, "build",
      archiveName stripExt version goos goarch appBinary]).data
      = (appBaseDir ++ "/build/" ++ archiveName stripExt version goos goarch appBinary).data := by
    rw [Filepath.Join_three _ _ _ (by rw [hform]; simp), hform]
    have := Filepath.cleanChars_rooted_append els
      [("build" : String).data, (archiveName stripExt version goos goarch appBinary).data]
      hels (by
        intro e he
        simp only [List.mem_cons, List.mem_singleton, List.not_mem_nil, or_false] at he
        rcases he with h | h
        · rw [h]; exact hbuild
        · rw [h]; exact hplain) hne (by simp)
    simp only [Filepath.joinSep] at this
    rw [this]
    simp [String.data_append, hform]
  have hjoin2 := String.ext hjoin
  have hnz : Strings.HasSuffix
      (appBaseDir ++ "/build/" ++ archiveName stripExt version goos goarch appBinary) ".zip"
      = false := by
    rw [Bool.eq_false_iff, Ne, HasSuffix_zip_iff, String.data_append]
    exact archiveName_not_zip stripExt version goos goarch appBinary _ hzip
  simp [createZipArchiveName, hout, hjoin2, hnz]

/-- C1 (witness): the example of the claim, binary `myapp`, version `1.0.0-abcdef`, target
`linux`/`amd64` and application directory `/proj`. -/
theorem createZipArchiveName_default_witness :
    createZipArchiveName Ess.StripExt (.ok "/cwd") "" "1.0.0-abcdef" "linux" "amd64"
        "/proj" "/proj/build/bin/myapp"
      = .ok "/proj/build/myapp-1.0.0-abcdef-linux-amd64.zip" :=
  createZipArchiveName_default Ess.StripExt (.ok "/cwd") "" "1.0.0-abcdef" "linux" "amd64"
    "/proj" "/proj/build/bin/myapp" (by decide) (by decide) (by decide) (by decide)
    (by decide) (by decide)

/-- C2 (counterexample): the explicit output `/out/custom.zip/` is not empty and does
not end in `.zip`, yet it is not treated as a directory: its absolute form
`/out/custom.zip` ends in `.zip`, and that is what is returned, without the canonical
name. -/
theorem createZipArchiveName_directory_counterexample :
    Ess.IsStrEmpty "/out/custom.zip/" = false
    ∧ Strings.HasSuffix "/out/custom.zip/" ".zip" = false
    ∧ Filepath.Abs (.ok "/cwd") "/out/custom.zip/" = .ok "/out/custom.zip"
    ∧ createZipArchiveName Ess.StripExt (.ok "/cwd") "/out/custom.zip/" "1.0.0-abcdef" "linux"
        "amd64" "/proj" "/proj/build/bin/myapp"
      = .ok "/out/custom.zip"
    ∧ createZipArchiveName Ess.StripExt (.ok "/cwd") "/out/custom.zip/" "1.0.0-abcdef" "linux"
        "amd64" "/proj" "/proj/build/bin/myapp"
      ≠ .ok ("/out/custom.zip" ++ "/"
          ++ archiveName Ess.StripExt "1.0.0-abcdef" "linux" "amd64" "/proj/build/bin/myapp"
          ++ ".zip") := by
  refine ⟨by decide, by decide, rfl, rfl, ?_⟩
  intro h
  injection h with h
  revert h
  decide

/-- C2 (amended): for every non-empty explicit output whose absolute form `abs` (the one
`filepath.Abs` gives, the working directory being absolute) does not end in `.zip` and
is not the root, `createZipArchiveName` treats it as a directory: the result is exactly
`<abs>/<N>.zip`, for a canonical name `N` without separator and a `goarch` that does not
end in `.zip`. The decision is taken on the absolute form, not on the text given. -/
theorem createZipArchiveName_directory (stripExt : String → String)
    (getwd : Except String String)
    (outputFile version goos goarch appBaseDir appBinary abs : String)
    (hout : Ess.IsStrEmpty outputFile = false)
    (hwd : ∀ wd, getwd = .ok wd → Filepath.IsAbs wd = true)
    (habs : Filepath.Abs getwd outputFile = .ok abs)
    (hdir : Strings.HasSuffix abs ".zip" = false)
    (hroot : abs ≠ "/")
    (hsep : '/' ∉ (archiveName stripExt version goos goarch appBinary).data)
    (hzip : Strings.HasSuffix goarch ".zip" = false) :
    createZipArchiveName stripExt getwd outputFile version goos goarch appBaseDir appBinary
      = .ok (abs ++ "/" ++ stripExt (Filepath.Base appBinary) ++ "-" ++ version
          ++ "-" ++ goos ++ "-" ++ goarch ++ ".zip") := by
  have hname : abs ++ "/" ++ stripExt (Filepath.Base appBinary) ++ "-" ++ version
      ++ "-" ++ goos ++ "-" ++ goarch
      = abs ++ "/" ++ archiveName stripExt version goos goarch appBinary := by
    apply String.ext
    simp [archiveName, addTargetBuildInfo, String.data_append]
  rw [hname]
  obtain ⟨els, hels, hform⟩ := Filepath.Abs_rooted_form getwd outputFile abs hwd habs
  have hne : els ≠ [] := by
    intro h0
    apply hroot
    apply String.ext
    rw [hform, h0]
    rfl
  have hplain := archiveName_plain stripExt version goos goarch appBinary hsep
  have hjoin : (Filepath.Join [abs, archiveName stripExt version goos goarch appBinary]).data
      = (abs ++ "/" ++ archiveName stripExt version goos goarch appBinary).data := by
    rw [Filepath.Join_two _ _ (by rw [hform]; simp), hform]
    have := Filepath.cleanChars_rooted_append els
      [(archiveName stripExt version goos goarch appBinary).data]
      hels (by
        intro e he
        simp only [List.mem_singleton] at he
        rw [he]; exact hplain) hne (by simp)
    simp only [Filepath.joinSep] at this
    rw [this]
    simp [String.data_append, hform]
  have hjoin2 := String.ext hjoin
  have hnz : Strings.HasSuffix
      (abs ++ "/" ++ archiveName stripExt version goos goarch appBinary) ".zip" = false := by
    rw [Bool.eq_false_iff, Ne, HasSuffix_zip_iff, String.data_append]
    exact archiveName_not_zip stripExt version goos goarch appBinary _ hzip
  simp [createZipArchiveName, hout, habs, hdir, hjoin2, hnz]

/-- C2 (witness): the example of the claim, the explicit output `/out`. -/
theorem createZipArchiveName_directory_witness :
    createZipArchiveName Ess.StripExt (.ok "/cwd") "/out" "1.0.0-abcdef" "linux" "amd64"
        "/proj" "/proj/build/bin/myapp"
      = .ok "/out/myapp-1.0.0-abcdef-linux-amd64.zip" :=
  createZipArchiveName_directory Ess.StripExt (.ok "/cwd") "/out" "1.0.0-abcdef" "linux"
    "amd64" "/proj" "/proj/build/bin/myapp" "/out" (by decide)
    (by intro wd h; injection h with h; rw [← h]; decide) rfl (by decide) (by decide)
    (by decide) (by decide)

/-- C3: for every explicit output that ends in `.zip`, `createZipArchiveName` gives
exactly what `filepath.Abs` gives for it, whatever the binary, version, `goos` and
`goarch` are: the absolute form of the explicit output, with neither the canonical name
nor a second `.zip` added (and the error that ends the process when there is no
absolute form, the working directory being unknown); the absolute form exists as soon as
the explicit output is absolute or the working directory is known. -/
theorem createZipArchiveName_zip_file (stripExt : String → String)
    (getwd : Except String String)
    (outputFile version goos goarch appBaseDir appBinary : String)
    (hzip : Strings.HasSuffix outputFile ".zip" = true) :
    createZipArchiveName stripExt getwd outputFile version goos goarch appBaseDir appBinary
      = Filepath.Abs getwd outputFile
    ∧ ((Filepath.IsAbs outputFile = true ∨ ∃ wd, getwd = .ok wd) →
        ∃ abs, Filepath.Abs getwd outputFile = .ok abs) := by
  have hout := IsStrEmpty_of_zip outputFile hzip
  have hsuf := (HasSuffix_zip_iff outputFile).1 hzip
  constructor
  · cases habs : Filepath.Abs getwd outputFile with
    | error err => simp [createZipArchiveName, hout, habs]
    | ok abs =>
      have hz : Strings.HasSuffix abs ".zip" = true := by
        rw [HasSuffix_zip_iff]
        unfold Filepath.Abs at habs
        split at habs
        · injection habs with habs
          rw [← habs]
          exact Filepath.zipExt_suffix_cleanChars _ hsuf
        · cases hg : getwd with
          | error err => rw [hg] at habs; exact absurd habs (by simp)
          | ok wd =>
            rw [hg] at habs
            injection habs with habs
            rw [← habs]
            by_cases hw : wd.data = []
            · have hw2 : wd = "" := String.ext hw
              have hne : outputFile ≠ "" := by
                intro h0
                rw [h0] at hsuf
                obtain ⟨t, ht⟩ := hsuf
                simp [Filepath.zipExt] at ht
              simp only [Filepath.Join, hw2, List.dropWhile, decide_True, hne, decide_False]
              simp only [List.map, Filepath.joinSep]
              exact Filepath.zipExt_suffix_cleanChars _ hsuf
            · rw [Filepath.Join_two _ _ hw]
              apply Filepath.zipExt_suffix_cleanChars
              obtain ⟨t, ht⟩ := hsuf
              exact ⟨wd.data ++ '/' :: t, by simp [← ht]⟩
      simp [createZipArchiveName, hout, habs, hz]
  · intro h
    unfold Filepath.Abs
    rcases h with h | ⟨wd, h⟩
    · exact ⟨Filepath.Clean outputFile, by simp [h]⟩
    · by_cases hp : Filepath.IsAbs outputFile = true
      · exact ⟨Filepath.Clean outputFile, by simp [hp]⟩
      · exact ⟨Filepath.Join [wd, outputFile], by simp [hp, h]⟩

/-- C3 (witness): the example of the claim, the explicit output `/out/custom.zip`. -/
theorem createZipArchiveName_zip_file_witness :
    createZipArchiveName Ess.StripExt (.ok "/cwd") "/out/custom.zip" "1.0.0-abcdef" "linux"
        "amd64" "/proj" "/proj/build/bin/myapp"
      = .ok "/out/custom.zip" :=
  (createZipArchiveName_zip_file Ess.StripExt (.ok "/cwd") "/out/custom.zip" "1.0.0-abcdef"
    "linux" "amd64" "/proj" "/proj/build/bin/myapp" (by decide)).1

/-! ## Archiving -/

/-- C10: `createZipArchive(sourceDir, destPath)` first deletes what is at `destPath`, then
creates the parent directory of `destPath`, then writes the zip. If creating the parent
directory fails, that error is returned unchanged and the calls stop there, no zip being
written; otherwise the result is exactly the result of the zip write. -/
theorem createZipArchive_steps {σ : Type} (w : World σ) (sourceDir destPath : String)
    (r : Run σ) :
    (∀ err,
      (w.mkDirAll (Filepath.Dir destPath) permRWXRXRX (w.deleteFiles destPath r.state)).1
        = some err →
      createZipArchive w sourceDir destPath r
        = (some err,
            ⟨(w.mkDirAll (Filepath.Dir destPath) permRWXRXRX
                (w.deleteFiles destPath r.state)).2,
              r.calls ++ [.deleteFiles destPath,
                .mkDirAll (Filepath.Dir destPath) permRWXRXRX]⟩))
    ∧ ((w.mkDirAll (Filepath.Dir destPath) permRWXRXRX (w.deleteFiles destPath r.state)).1
        = none →
      createZipArchive w sourceDir destPath r
        = ((w.zip destPath sourceDir
              (w.mkDirAll (Filepath.Dir destPath) permRWXRXRX
                (w.deleteFiles destPath r.state)).2).1,
            ⟨(w.zip destPath sourceDir
                (w.mkDirAll (Filepath.Dir destPath) permRWXRXRX
                  (w.deleteFiles destPath r.state)).2).2,
              r.calls ++ [.deleteFiles destPath,
                .mkDirAll (Filepath.Dir destPath) permRWXRXRX,
                .zip destPath sourceDir]⟩)) := by
  constructor
  · intro err h
    simp [createZipArchive, Run.record, h]
  · intro h
    simp [createZipArchive, Run.record, h]

/-- C10 (witness): in a world where `/proj/build` cannot be created the error comes back
after two calls; in a world where it can, the zip is written as the third call. -/
theorem createZipArchive_steps_witness :
    createZipArchive noArchiveDirWorld "/tmp/myapp042/myapp" "/proj/build/myapp.zip" Run.start
      = (some "mkdir: read-only file system",
          ⟨(), [.deleteFiles "/proj/build/myapp.zip", .mkDirAll "/proj/build" 0o755]⟩)
    ∧ createZipArchive quietWorld "/tmp/myapp042/myapp" "/proj/build/myapp.zip" Run.start
      = (none,
          ⟨(), [.deleteFiles "/proj/build/myapp.zip", .mkDirAll "/proj/build" 0o755,
            .zip "/proj/build/myapp.zip" "/tmp/myapp042/myapp"]⟩) :=
  ⟨(createZipArchive_steps noArchiveDirWorld "/tmp/myapp042/myapp" "/proj/build/myapp.zip"
      Run.start).1 "mkdir: read-only file system" rfl,
    (createZipArchive_steps quietWorld "/tmp/myapp042/myapp" "/proj/build/myapp.zip"
      Run.start).2 rfl⟩

/-! ## Runs -/

theorem Run.Extends.refl {σ : Type} (P : Call → Prop) (r : Run σ) : Run.Extends P r r :=
  ⟨[], by simp, by simp⟩

theorem Run.Extends.trans {σ : Type} {P : Call → Prop} {r1 r2 r3 : Run σ}
    (h12 : Run.Extends P r1 r2) (h23 : Run.Extends P r2 r3) : Run.Extends P r1 r3 := by
  obtain ⟨n1, e1, p1⟩ := h12
  obtain ⟨n2, e2, p2⟩ := h23
  refine ⟨n1 ++ n2, by rw [e2, e1, List.append_assoc], ?_⟩
  intro c hc
  rcases List.mem_append.1 hc with h | h
  · exact p1 c h
  · exact p2 c h

theorem Run.Extends.log {σ : Type} {P : Call → Prop} {r1 r2 : Run σ} {c : Call}
    (h : Run.Extends P r1 r2) (hc : P c) : Run.Extends P r1 (r2.log c) := by
  obtain ⟨n, e, p⟩ := h
  refine ⟨n ++ [c], by simp [Run.log, e], ?_⟩
  intro x hx
  rcases List.mem_append.1 hx with h | h
  · exact p x h
  · rw [List.mem_singleton.1 h]; exact hc

theorem Run.Extends.record {σ : Type} {P : Call → Prop} {r1 r2 : Run σ} {c : Call}
    (h : Run.Extends P r1 r2) (hc : P c) (s : σ) : Run.Extends P r1 (r2.record c s) := by
  obtain ⟨n, e, p⟩ := h
  refine ⟨n ++ [c], by simp [Run.record, e], ?_⟩
  intro x hx
  rcases List.mem_append.1 hx with h | h
  · exact p x h
  · rw [List.mem_singleton.1 h]; exact hc

theorem Run.Extends.mono {σ : Type} {P Q : Call → Prop} {r1 r2 : Run σ}
    (h : Run.Extends P r1 r2) (hpq : ∀ c, P c → Q c) : Run.Extends Q r1 r2 := by
  obtain ⟨n, e, p⟩ := h
  exact ⟨n, e, fun c hc => hpq c (p c hc)⟩

/-! ## Single binary build -/

/-- Every call of the loop over the custom mounts is a log message or the mount of an
absolute physical path. -/
theorem customMounts_calls {σ : Type} (w : World σ) (cfg : Config) (appBaseDir : String)
    (excludes noGzipList : List String) (P : Call → Prop)
    (hlog : ∀ f a, P (.logErrorf f a)) (hinfo : ∀ f a, P (.infof f a))
    (hfatal : ∀ e, P (.logFatal e))
    (hmount : ∀ v p, Filepath.IsAbs p = true →
      P (.processMount appBaseDir v p excludes noGzipList)) :
    ∀ (keys : List String) (r : Run σ),
      Run.Extends P r (customMounts w cfg appBaseDir excludes noGzipList keys r).2 := by
  intro keys
  induction keys with
  | nil =>
    intro r
    exact Run.Extends.refl P r
  | cons key keys ih =>
    intro r
    unfold customMounts
    simp only []
    split
    · exact Run.Extends.trans ((Run.Extends.refl P r).log (hlog _ _)) (ih _)
    · rename_i habs
      have habs2 : Filepath.IsAbs (physicalPath cfg key) = true := by
        simpa using habs
      split
      · split
        · exact (((Run.Extends.refl P r).log (hinfo _ _)).record (hmount _ _ habs2) _).log
            (hfatal _)
        · exact Run.Extends.trans
            (((Run.Extends.refl P r).log (hinfo _ _)).record (hmount _ _ habs2) _) (ih _)
      · exact ih r

theorem createZipArchive_calls {σ : Type} (w : World σ) (P : Call → Prop)
    (hdel : ∀ p, P (.deleteFiles p)) (hmk : ∀ p m, P (.mkDirAll p m))
    (hzip : ∀ d s, P (.zip d s)) (sourceDir destPath : String) (r : Run σ) :
    Run.Extends P r (createZipArchive w sourceDir destPath r).2 := by
  unfold createZipArchive
  simp only []
  split
  · exact ((Run.Extends.refl P r).record (hdel _) _).record (hmk _ _) _
  · exact (((Run.Extends.refl P r).record (hdel _) _).record (hmk _ _) _).record (hzip _ _) _

theorem archiveSingleBinary_calls {σ : Type} (w : World σ) (P : Call → Prop)
    (hdel : ∀ p, P (.deleteFiles p)) (hmk : ∀ p m, P (.mkDirAll p m))
    (hzip : ∀ d s, P (.zip d s)) (hinfo : ∀ f a, P (.infof f a))
    (hfatal : ∀ e, P (.logFatal e)) (app : App) (outputFile appBinary : String) (r : Run σ) :
    Run.Extends P r (archiveSingleBinary w app outputFile appBinary r).2 := by
  unfold archiveSingleBinary
  split
  · exact (Run.Extends.refl P r).log (hfatal _)
  · rename_i dest _
    have h := createZipArchive_calls w P hdel hmk hzip appBinary dest r
    split
    · rename_i err r1 heq
      rw [heq] at h
      exact h.log (hfatal _)
    · rename_i r1 heq
      rw [heq] at h
      exact (h.log (hinfo _ _)).log (hinfo _ _)

/-- The calls of the body of `buildSingleBinary` after the default mount: log messages,
mounts of absolute physical paths, the compile step and the archive step. -/
theorem buildSingleBinaryBody_calls {σ : Type} (w : World σ) (cfg : Config) (app : App)
    (outputFile : String) (P : Call → Prop)
    (hdel : ∀ p, P (.deleteFiles p)) (hmk : ∀ p m, P (.mkDirAll p m))
    (hzip : ∀ d s, P (.zip d s)) (hinfo : ∀ f a, P (.infof f a))
    (hlog : ∀ f a, P (.logErrorf f a)) (hfatal : ∀ e, P (.logFatal e))
    (hcompile : ∀ a, P (.compileApp a))
    (hmount : ∀ v p, Filepath.IsAbs p = true →
      P (.processMount app.baseDir v p (cfg.stringList "build.excludes").1
        (cfg.stringList "vfs.no_gzip").1))
    (r : Run σ) :
    Run.Extends P
      (r.record (.processMount app.baseDir "/app" app.baseDir
          (cfg.stringList "build.excludes").1 (cfg.stringList "vfs.no_gzip").1)
        (w.processMount app.baseDir "/app" app.baseDir (cfg.stringList "build.excludes").1
          (cfg.stringList "vfs.no_gzip").1 r.state).2)
      (buildSingleBinaryBody w cfg app outputFile r).2 := by
  unfold buildSingleBinaryBody
  simp only []
  split
  · exact (Run.Extends.refl P _).log (hfatal _)
  · have hloop := customMounts_calls w cfg app.baseDir (cfg.stringList "build.excludes").1
      (cfg.stringList "vfs.no_gzip").1 P hlog hinfo hfatal hmount (cfg.keysByPath "vfs.mount")
      (r.record (.processMount app.baseDir "/app" app.baseDir
          (cfg.stringList "build.excludes").1 (cfg.stringList "vfs.no_gzip").1)
        (w.processMount app.baseDir "/app" app.baseDir (cfg.stringList "build.excludes").1
          (cfg.stringList "vfs.no_gzip").1 r.state).2)
    split
    · rename_i r2 heq
      rw [heq] at hloop
      exact hloop
    · rename_i u r2 heq
      rw [heq] at hloop
      split
      · exact ((hloop.log (hinfo _ _)).record (hcompile _) _).log (hfatal _)
      · exact Run.Extends.trans ((hloop.log (hinfo _ _)).record (hcompile _) _)
          (archiveSingleBinary_calls w P hdel hmk hzip hinfo hfatal app outputFile _ _)

theorem customMounts_skip_relative {σ : Type} (w : World σ) (cfg : Config)
    (appBaseDir : String) (excludes noGzipList : List String) (key : String)
    (keys : List String) (r : Run σ)
    (h : Filepath.IsAbs (physicalPath cfg key) = false) :
    customMounts w cfg appBaseDir excludes noGzipList (key :: keys) r
      = customMounts w cfg appBaseDir excludes noGzipList keys
          (r.log (.logErrorf "vfs %s: physical_path is not absolute path, skip mount: %s"
            [physicalPath cfg key, mountPath cfg key])) := by
  conv => lhs; unfold customMounts
  simp [h]

theorem customMounts_skip_empty {σ : Type} (w : World σ) (cfg : Config)
    (appBaseDir : String) (excludes noGzipList : List String) (key : String)
    (keys : List String) (r : Run σ)
    (h : Filepath.IsAbs (physicalPath cfg key) = true)
    (he : (!Ess.IsStrEmpty (mountPath cfg key) && !Ess.IsStrEmpty (physicalPath cfg key))
      = false) :
    customMounts w cfg appBaseDir excludes noGzipList (key :: keys) r
      = customMounts w cfg appBaseDir excludes noGzipList keys r := by
  conv => lhs; unfold customMounts
  simp only [h, Bool.not_true, Bool.false_eq_true, if_false, he]

theorem customMounts_fail {σ : Type} (w : World σ) (cfg : Config)
    (appBaseDir : String) (excludes noGzipList : List String) (key : String)
    (keys : List String) (r : Run σ) (err : String)
    (h : Filepath.IsAbs (physicalPath cfg key) = true)
    (he : (!Ess.IsStrEmpty (mountPath cfg key) && !Ess.IsStrEmpty (physicalPath cfg key))
      = true)
    (hfail : (w.processMount appBaseDir (mountPath cfg key) (physicalPath cfg key) excludes
      noGzipList r.state).1 = some err) :
    customMounts w cfg appBaseDir excludes noGzipList (key :: keys) r
      = (.fatal,
          ⟨(w.processMount appBaseDir (mountPath cfg key) (physicalPath cfg key) excludes
              noGzipList r.state).2,
            r.calls ++ [.infof "|--- Processing mount: '%s' <== '%s'"
                [mountPath cfg key, physicalPath cfg key],
              .processMount appBaseDir (mountPath cfg key) (physicalPath cfg key) excludes
                noGzipList,
              .logFatal err]⟩) := by
  conv => lhs; unfold customMounts
  simp only [h, Bool.not_true, Bool.false_eq_true, if_false, he, if_true, Run.log, hfail,
    logFatal, Run.record, List.append_assoc, List.singleton_append]
  rfl

theorem customMounts_ok {σ : Type} (w : World σ) (cfg : Config)
    (appBaseDir : String) (excludes noGzipList : List String) (key : String)
    (keys : List String) (r : Run σ)
    (h : Filepath.IsAbs (physicalPath cfg key) = true)
    (he : (!Ess.IsStrEmpty (mountPath cfg key) && !Ess.IsStrEmpty (physicalPath cfg key))
      = true)
    (hok : (w.processMount appBaseDir (mountPath cfg key) (physicalPath cfg key) excludes
      noGzipList r.state).1 = none) :
    customMounts w cfg appBaseDir excludes noGzipList (key :: keys) r
      = customMounts w cfg appBaseDir excludes noGzipList keys
          ⟨(w.processMount appBaseDir (mountPath cfg key) (physicalPath cfg key) excludes
              noGzipList r.state).2,
            r.calls ++ [.infof "|--- Processing mount: '%s' <== '%s'"
                [mountPath cfg key, physicalPath cfg key],
              .processMount appBaseDir (mountPath cfg key) (physicalPath cfg key) excludes
                noGzipList]⟩ := by
  conv => lhs; unfold customMounts
  simp only [h, Bool.not_true, Bool.false_eq_true, if_false, he, if_true, Run.log, hok,
    Run.record, List.append_assoc, List.singleton_append]

theorem customMounts_append {σ : Type} (w : World σ) (cfg : Config) (appBaseDir : String)
    (excludes noGzipList : List String) (pre rest : List String) :
    ∀ (r r1 : Run σ),
      customMounts w cfg appBaseDir excludes noGzipList pre r = (.done (), r1) →
      customMounts w cfg appBaseDir excludes noGzipList (pre ++ rest) r
        = customMounts w cfg appBaseDir excludes noGzipList rest r1 := by
  induction pre with
  | nil =>
    intro r r1 h
    simp only [customMounts, Prod.mk.injEq, true_and] at h
    simp [h]
  | cons key keys ih =>
    intro r r1 h
    rw [List.cons_append]
    cases habs : Filepath.IsAbs (physicalPath cfg key) with
    | false =>
      rw [customMounts_skip_relative _ _ _ _ _ _ _ _ habs] at h ⊢
      exact ih _ _ h
    | true =>
      cases he : (!Ess.IsStrEmpty (mountPath cfg key)
          && !Ess.IsStrEmpty (physicalPath cfg key)) with
      | false =>
        rw [customMounts_skip_empty _ _ _ _ _ _ _ _ habs he] at h ⊢
        exact ih _ _ h
      | true =>
        cases hm : (w.processMount appBaseDir (mountPath cfg key) (physicalPath cfg key)
            excludes noGzipList r.state).1 with
        | some err =>
          rw [customMounts_fail _ _ _ _ _ _ _ _ _ habs he hm] at h
          simp at h
        | none =>
          rw [customMounts_ok _ _ _ _ _ _ _ _ habs he hm] at h ⊢
          exact ih _ _ h

/-- The run of `buildSingleBinary` continues the run made of the opening message and the
default mount. -/
theorem buildSingleBinary_calls {σ : Type} (w : World σ) (cfg : Config) (app : App)
    (outputFile : String) (P : Call → Prop)
    (hdel : ∀ p, P (.deleteFiles p)) (hmk : ∀ p m, P (.mkDirAll p m))
    (hzip : ∀ d s, P (.zip d s)) (hinfo : ∀ f a, P (.infof f a))
    (hlog : ∀ f a, P (.logErrorf f a)) (hfatal : ∀ e, P (.logFatal e))
    (hcompile : ∀ a, P (.compileApp a)) (hclean : ∀ d, P (.cleanupAutoGenVFSFiles d))
    (hmount : ∀ v p, Filepath.IsAbs p = true →
      P (.processMount app.baseDir v p (cfg.stringList "build.excludes").1
        (cfg.stringList "vfs.no_gzip").1))
    (r : Run σ) :
    Run.Extends P
      ⟨(w.processMount app.baseDir "/app" app.baseDir (cfg.stringList "build.excludes").1
          (cfg.stringList "vfs.no_gzip").1 r.state).2,
        r.calls ++ [.infof "Embed starts for '%s' [%s]" [app.name, app.importPath],
          .processMount app.baseDir "/app" app.baseDir (cfg.stringList "build.excludes").1
            (cfg.stringList "vfs.no_gzip").1]⟩
      (buildSingleBinary w cfg app outputFile r).2 := by
  have hbody := buildSingleBinaryBody_calls w cfg app outputFile P hdel hmk hzip hinfo hlog
    hfatal hcompile hmount
    (r.log (.infof "Embed starts for '%s' [%s]" [app.name, app.importPath]))
  have hstart : (r.log (.infof "Embed starts for '%s' [%s]" [app.name, app.importPath])).record
      (.processMount app.baseDir "/app" app.baseDir (cfg.stringList "build.excludes").1
        (cfg.stringList "vfs.no_gzip").1)
      (w.processMount app.baseDir "/app" app.baseDir (cfg.stringList "build.excludes").1
        (cfg.stringList "vfs.no_gzip").1
        (r.log (.infof "Embed starts for '%s' [%s]" [app.name, app.importPath])).state).2
      = ⟨(w.processMount app.baseDir "/app" app.baseDir (cfg.stringList "build.excludes").1
          (cfg.stringList "vfs.no_gzip").1 r.state).2,
        r.calls ++ [.infof "Embed starts for '%s' [%s]" [app.name, app.importPath],
          .processMount app.baseDir "/app" app.baseDir (cfg.stringList "build.excludes").1
            (cfg.stringList "vfs.no_gzip").1]⟩ := by
    simp [Run.record, Run.log]
  rw [hstart] at hbody
  unfold buildSingleBinary
  simp only []
  split
  · rename_i r1 heq
    rw [heq] at hbody
    exact hbody
  · rename_i u r1 heq
    rw [heq] at hbody
    exact hbody.record (hclean _) _

/-- C9: in `buildSingleBinary`, after the message that opens the embedding and the mount
of the default mount point `/app`, every call of `processMount` has an absolute physical
path: no custom mount whose `physical_path` is not absolute (an empty one included) is
ever handed to `processMount`. Such a mount is reported by `logErrorf` and skipped, and
the loop goes on with the remaining keys in their order. -/
theorem buildSingleBinary_skips_relative_mounts {σ : Type} (w : World σ) (cfg : Config)
    (app : App) (outputFile : String) (r : Run σ) :
    (∃ rest, (buildSingleBinary w cfg app outputFile r).2.calls
        = r.calls ++ [.infof "Embed starts for '%s' [%s]" [app.name, app.importPath],
            .processMount app.baseDir "/app" app.baseDir (cfg.stringList "build.excludes").1
              (cfg.stringList "vfs.no_gzip").1] ++ rest
      ∧ ∀ a v p e n, Call.processMount a v p e n ∈ rest → Filepath.IsAbs p = true)
    ∧ Filepath.IsAbs "" = false
    ∧ ∀ (key : String) (keys : List String) (r1 : Run σ),
        Filepath.IsAbs (physicalPath cfg key) = false →
        customMounts w cfg app.baseDir (cfg.stringList "build.excludes").1
            (cfg.stringList "vfs.no_gzip").1 (key :: keys) r1
          = customMounts w cfg app.baseDir (cfg.stringList "build.excludes").1
              (cfg.stringList "vfs.no_gzip").1 keys
              (r1.log (.logErrorf "vfs %s: physical_path is not absolute path, skip mount: %s"
                [physicalPath cfg key, mountPath cfg key])) := by
  refine ⟨?_, by decide, ?_⟩
  · obtain ⟨new, h1, h2⟩ := buildSingleBinary_calls w cfg app outputFile
      (fun c => ∀ a v p e n, c = Call.processMount a v p e n → Filepath.IsAbs p = true)
      (by intro _ _ _ _ _ _ h; cases h) (by intro _ _ _ _ _ _ _ h; cases h)
      (by intro _ _ _ _ _ _ _ h; cases h) (by intro _ _ _ _ _ _ _ h; cases h)
      (by intro _ _ _ _ _ _ _ h; cases h) (by intro _ _ _ _ _ _ h; cases h)
      (by intro _ _ _ _ _ _ h; cases h) (by intro _ _ _ _ _ _ h; cases h)
      (by
        intro v p hp a v2 p2 e n h
        injection h with _ _ h3 _ _
        rw [← h3]; exact hp) r
    exact ⟨new, h1, fun a v p e n hmem => h2 _ hmem a v p e n rfl⟩
  · intro key keys r1 h
    exact customMounts_skip_relative _ _ _ _ _ _ _ _ h

/-- C9 (example): with the sample configuration the mounts `assets` (relative physical
path) and `docs` (no physical path) are reported and skipped, and the mounts `shared` and
`extra` that follow them are processed, in that order. -/
theorem buildSingleBinary_skips_relative_mounts_example :
    (buildSingleBinary quietWorld sampleConfig sampleApp "" Run.start).2.calls.take 8
      = [.infof "Embed starts for '%s' [%s]" ["myapp", "github.com/user/myapp"],
          .processMount "/proj" "/app" "/proj" ["*.bak", "vendor"] [],
          .logErrorf "vfs %s: physical_path is not absolute path, skip mount: %s"
            ["assets", "/assets"],
          .logErrorf "vfs %s: physical_path is not absolute path, skip mount: %s"
            ["", "/docs"],
          .infof "|--- Processing mount: '%s' <== '%s'" ["/shared", "/data/shared"],
          .processMount "/proj" "/shared" "/data/shared" ["*.bak", "vendor"] [],
          .infof "|--- Processing mount: '%s' <== '%s'" ["/extra", "/data/extra"],
          .processMount "/proj" "/extra" "/data/extra" ["*.bak", "vendor"] []] := by
  rfl

theorem buildSingleBinary_default_mount_fatal {σ : Type} (w : World σ) (cfg : Config)
    (app : App) (outputFile : String) (r : Run σ) (err : String)
    (h : (w.processMount app.baseDir "/app" app.baseDir (cfg.stringList "build.excludes").1
      (cfg.stringList "vfs.no_gzip").1 r.state).1 = some err) :
    buildSingleBinary w cfg app outputFile r
      = (.fatal,
          ⟨(w.processMount app.baseDir "/app" app.baseDir (cfg.stringList "build.excludes").1
              (cfg.stringList "vfs.no_gzip").1 r.state).2,
            r.calls ++ [.infof "Embed starts for '%s' [%s]" [app.name, app.importPath],
              .processMount app.baseDir "/app" app.baseDir
                (cfg.stringList "build.excludes").1 (cfg.stringList "vfs.no_gzip").1,
              .logFatal err]⟩) := by
  simp [buildSingleBinary, buildSingleBinaryBody, Run.log, Run.record, h, logFatal]

theorem buildSingleBinary_custom_mounts_fatal {σ : Type} (w : World σ) (cfg : Config)
    (app : App) (outputFile : String) (r r2 : Run σ)
    (h : (w.processMount app.baseDir "/app" app.baseDir (cfg.stringList "build.excludes").1
      (cfg.stringList "vfs.no_gzip").1 r.state).1 = none)
    (hloop : customMounts w cfg app.baseDir (cfg.stringList "build.excludes").1
      (cfg.stringList "vfs.no_gzip").1 (cfg.keysByPath "vfs.mount")
      ⟨(w.processMount app.baseDir "/app" app.baseDir (cfg.stringList "build.excludes").1
          (cfg.stringList "vfs.no_gzip").1 r.state).2,
        r.calls ++ [.infof "Embed starts for '%s' [%s]" [app.name, app.importPath],
          .processMount app.baseDir "/app" app.baseDir (cfg.stringList "build.excludes").1
            (cfg.stringList "vfs.no_gzip").1]⟩ = (.fatal, r2)) :
    buildSingleBinary w cfg app outputFile r = (.fatal, r2) := by
  simp only [buildSingleBinary, buildSingleBinaryBody, Run.log, Run.record, h,
    List.append_assoc, List.singleton_append]
  have hl : [Call.infof "Embed starts for '%s' [%s]" [app.name, app.importPath]] ++
      [Call.processMount app.baseDir "/app" app.baseDir (cfg.stringList "build.excludes").1
        (cfg.stringList "vfs.no_gzip").1]
      = [Call.infof "Embed starts for '%s' [%s]" [app.name, app.importPath],
        Call.processMount app.baseDir "/app" app.baseDir (cfg.stringList "build.excludes").1
          (cfg.stringList "vfs.no_gzip").1] := rfl
  simp only [hl, hloop]

/-- C7 (counterexample): the custom mount `shared` has the absolute physical path
`/data/shared`, which does not exist, so `processMount` fails for it. The build does not
continue: the process is ended by `logFatal`, the mount `extra` that follows is never
processed and the compile step never runs. -/
theorem buildSingleBinary_mount_failure_counterexample :
    (buildSingleBinary badMountWorld sampleConfig sampleApp "" Run.start).1 = .fatal
    ∧ (buildSingleBinary badMountWorld sampleConfig sampleApp "" Run.start).2.calls.getLast?
      = some (.logFatal "path does not exist: /data/shared")
    ∧ Call.processMount "/proj" "/extra" "/data/extra" ["*.bak", "vendor"] []
      ∉ (buildSingleBinary badMountWorld sampleConfig sampleApp "" Run.start).2.calls
    ∧ Call.compileApp { Cmd := "BuildCmd", AppPack := true, AppEmbed := true }
      ∉ (buildSingleBinary badMountWorld sampleConfig sampleApp "" Run.start).2.calls := by
  refine ⟨rfl, rfl, ?_, ?_⟩ <;> decide

/-- C7 (amended): in single-binary mode an error of `processMount` is fatal for every
mount. If the default mount `/app` fails, or if a custom mount with an absolute physical
path fails after the custom mounts before it went through, `logFatal` ends the process
right after the failed call: the remaining custom mounts, the compile step and the
archive step do not run. What is logged and skipped, the build continuing with the
remaining mounts, is a custom mount whose physical path is missing or not absolute. -/
theorem buildSingleBinary_mount_failure_fatal {σ : Type} (w : World σ) (cfg : Config)
    (app : App) (outputFile : String) (r : Run σ) :
    (∀ err,
      (w.processMount app.baseDir "/app" app.baseDir (cfg.stringList "build.excludes").1
        (cfg.stringList "vfs.no_gzip").1 r.state).1 = some err →
      buildSingleBinary w cfg app outputFile r
        = (.fatal,
            ⟨(w.processMount app.baseDir "/app" app.baseDir
                (cfg.stringList "build.excludes").1 (cfg.stringList "vfs.no_gzip").1
                r.state).2,
              r.calls ++ [.infof "Embed starts for '%s' [%s]" [app.name, app.importPath],
                .processMount app.baseDir "/app" app.baseDir
                  (cfg.stringList "build.excludes").1 (cfg.stringList "vfs.no_gzip").1,
                .logFatal err]⟩))
    ∧ (∀ (pre : List String) (key : String) (post : List String) (r1 : Run σ) (err : String),
      cfg.keysByPath "vfs.mount" = pre ++ key :: post →
      (w.processMount app.baseDir "/app" app.baseDir (cfg.stringList "build.excludes").1
        (cfg.stringList "vfs.no_gzip").1 r.state).1 = none →
      customMounts w cfg app.baseDir (cfg.stringList "build.excludes").1
        (cfg.stringList "vfs.no_gzip").1 pre
        ⟨(w.processMount app.baseDir "/app" app.baseDir (cfg.stringList "build.excludes").1
            (cfg.stringList "vfs.no_gzip").1 r.state).2,
          r.calls ++ [.infof "Embed starts for '%s' [%s]" [app.name, app.importPath],
            .processMount app.baseDir "/app" app.baseDir (cfg.stringList "build.excludes").1
              (cfg.stringList "vfs.no_gzip").1]⟩ = (.done (), r1) →
      Filepath.IsAbs (physicalPath cfg key) = true →
      Ess.IsStrEmpty (mountPath cfg key) = false →
      Ess.IsStrEmpty (physicalPath cfg key) = false →
      (w.processMount app.baseDir (mountPath cfg key) (physicalPath cfg key)
        (cfg.stringList "build.excludes").1 (cfg.stringList "vfs.no_gzip").1 r1.state).1
        = some err →
      buildSingleBinary w cfg app outputFile r
        = (.fatal,
            ⟨(w.processMount app.baseDir (mountPath cfg key) (physicalPath cfg key)
                (cfg.stringList "build.excludes").1 (cfg.stringList "vfs.no_gzip").1
                r1.state).2,
              r1.calls ++ [.infof "|--- Processing mount: '%s' <== '%s'"
                  [mountPath cfg key, physicalPath cfg key],
                .processMount app.baseDir (mountPath cfg key) (physicalPath cfg key)
                  (cfg.stringList "build.excludes").1 (cfg.stringList "vfs.no_gzip").1,
                .logFatal err]⟩))
    ∧ (∀ (key : String) (keys : List String) (r1 : Run σ),
      Filepath.IsAbs (physicalPath cfg key) = false →
      customMounts w cfg app.baseDir (cfg.stringList "build.excludes").1
          (cfg.stringList "vfs.no_gzip").1 (key :: keys) r1
        = customMounts w cfg app.baseDir (cfg.stringList "build.excludes").1
            (cfg.stringList "vfs.no_gzip").1 keys
            (r1.log (.logErrorf "vfs %s: physical_path is not absolute path, skip mount: %s"
              [physicalPath cfg key, mountPath cfg key]))) := by
  refine ⟨fun err h => buildSingleBinary_default_mount_fatal w cfg app outputFile r err h,
    ?_, fun key keys r1 h => customMounts_skip_relative _ _ _ _ _ _ _ _ h⟩
  intro pre key post r1 err hkeys hdefault hpre habs hv hp hfail
  apply buildSingleBinary_custom_mounts_fatal w cfg app outputFile r _ hdefault
  rw [hkeys, customMounts_append _ _ _ _ _ pre (key :: post) _ r1 hpre]
  exact customMounts_fail _ _ _ _ _ _ _ _ _ habs (by simp [hv, hp]) hfail

/-- C7 (witness): the sample configuration in the world where the mount of `/data/shared`
fails: the default mount goes through, `assets` and `docs` are skipped, `shared` fails
and the process ends. -/
theorem buildSingleBinary_mount_failure_fatal_witness :
    buildSingleBinary badMountWorld sampleConfig sampleApp "" Run.start
      = (.fatal,
          ⟨(), [.infof "Embed starts for '%s' [%s]" ["myapp", "github.com/user/myapp"],
            .processMount "/proj" "/app" "/proj" ["*.bak", "vendor"] [],
            .logErrorf "vfs %s: physical_path is not absolute path, skip mount: %s"
              ["assets", "/assets"],
            .logErrorf "vfs %s: physical_path is not absolute path, skip mount: %s"
              ["", "/docs"],
            .infof "|--- Processing mount: '%s' <== '%s'" ["/shared", "/data/shared"],
            .processMount "/proj" "/shared" "/data/shared" ["*.bak", "vendor"] [],
            .logFatal "path does not exist: /data/shared"]⟩) :=
  (buildSingleBinary_mount_failure_fatal badMountWorld sampleConfig sampleApp "" Run.start).2.1
    ["assets", "docs"] "shared" ["extra"]
    ⟨(), [.infof "Embed starts for '%s' [%s]" ["myapp", "github.com/user/myapp"],
      .processMount "/proj" "/app" "/proj" ["*.bak", "vendor"] [],
      .logErrorf "vfs %s: physical_path is not absolute path, skip mount: %s"
        ["assets", "/assets"],
      .logErrorf "vfs %s: physical_path is not absolute path, skip mount: %s"
        ["", "/docs"]]⟩
    "path does not exist: /data/shared" rfl rfl rfl (by decide) (by decide) (by decide) rfl

/-- When `logFatal` ends `buildSingleBinary`, none of the calls it made is the cleanup of
the generated files. -/
theorem buildSingleBinary_fatal_no_cleanup {σ : Type} (w : World σ) (cfg : Config)
    (app : App) (outputFile : String) (r : Run σ)
    (h : (buildSingleBinary w cfg app outputFile r).1 = .fatal) :
    Run.Extends (fun c => ∀ d, c ≠ Call.cleanupAutoGenVFSFiles d) r
      (buildSingleBinary w cfg app outputFile r).2 := by
  have hbody := buildSingleBinaryBody_calls w cfg app outputFile
    (fun c => ∀ d, c ≠ Call.cleanupAutoGenVFSFiles d)
    (by intro _ _ h; cases h) (by intro _ _ _ h; cases h) (by intro _ _ _ h; cases h)
    (by intro _ _ _ h; cases h) (by intro _ _ _ h; cases h) (by intro _ _ h; cases h)
    (by intro _ _ h; cases h) (by intro _ _ _ _ h; cases h)
    (r.log (.infof "Embed starts for '%s' [%s]" [app.name, app.importPath]))
  have hstart : Run.Extends (fun c => ∀ d, c ≠ Call.cleanupAutoGenVFSFiles d) r
      ((r.log (.infof "Embed starts for '%s' [%s]" [app.name, app.importPath])).record
        (.processMount app.baseDir "/app" app.baseDir (cfg.stringList "build.excludes").1
          (cfg.stringList "vfs.no_gzip").1)
        (w.processMount app.baseDir "/app" app.baseDir (cfg.stringList "build.excludes").1
          (cfg.stringList "vfs.no_gzip").1
          (r.log (.infof "Embed starts for '%s' [%s]" [app.name, app.importPath])).state).2) :=
    ((Run.Extends.refl _ r).log (by intro _ h; cases h)).record (by intro _ h; cases h) _
  have hall := hstart.trans hbody
  unfold buildSingleBinary at h ⊢
  simp only [] at h ⊢
  split
  · rename_i r1 heq
    rw [heq] at hall
    exact hall
  · rename_i u r1 heq
    rw [heq] at h
    simp at h

/-- C8 (failing input): the application does not compile. `compileApp` returns its error,
`logFatal` ends the process, and `cleanupAutoGenVFSFiles` is never called: the deferred
call is lost with the process. In the world where the build goes through, the cleanup is
the last call. -/
theorem buildSingleBinary_compile_error_no_cleanup :
    buildSingleBinary noCompileWorld sampleConfig sampleApp "" Run.start
      = (.fatal,
          ⟨(), [.infof "Embed starts for '%s' [%s]" ["myapp", "github.com/user/myapp"],
            .processMount "/proj" "/app" "/proj" ["*.bak", "vendor"] [],
            .logErrorf "vfs %s: physical_path is not absolute path, skip mount: %s"
              ["assets", "/assets"],
            .logErrorf "vfs %s: physical_path is not absolute path, skip mount: %s"
              ["", "/docs"],
            .infof "|--- Processing mount: '%s' <== '%s'" ["/shared", "/data/shared"],
            .processMount "/proj" "/shared" "/data/shared" ["*.bak", "vendor"] [],
            .infof "|--- Processing mount: '%s' <== '%s'" ["/extra", "/data/extra"],
            .processMount "/proj" "/extra" "/data/extra" ["*.bak", "vendor"] [],
            .infof "Embed successful for '%s' [%s]" ["myapp", "github.com/user/myapp"],
            .compileApp { Cmd := "BuildCmd", AppPack := true, AppEmbed := true },
            .logFatal "compile failed"]⟩)
    ∧ Call.cleanupAutoGenVFSFiles "/proj"
      ∉ (buildSingleBinary noCompileWorld sampleConfig sampleApp "" Run.start).2.calls
    ∧ (buildSingleBinary quietWorld sampleConfig sampleApp "" Run.start).2.calls.getLast?
      = some (.cleanupAutoGenVFSFiles "/proj") := by
  refine ⟨rfl, ?_, rfl⟩
  decide

/-! ## Startup scripts -/

theorem aahBashStartupTemplate_checked :
    templateChecked aahBashStartupTemplate "\nAPP_ENV_PROFILE=\"" "\"\n" = true := by
  decide!

theorem aahCmdStartupTemplate_checked :
    templateChecked aahCmdStartupTemplate "\nSET APP_ENV_PROFILE=" "\n" = true := by
  decide!

/-- What the evaluation of a template's parse establishes. -/
theorem templateChecked_spec (text before after : String)
    (h : templateChecked text before after = true) :
    (∀ data, renderTmpl text data = .ok ⟨((tmplSegs text).map (Seg.exec data)).flatten⟩)
    ∧ (∀ seg ∈ tmplSegs text, seg.wellFormed = true)
    ∧ ((tmplSegs text).map Seg.source).flatten = text.data
    ∧ hasProfileSlot before.data after.data (tmplSegs text) = true := by
  unfold templateChecked at h
  cases hp : parseTmplAux (text.data.length + 1) text.data with
  | error err => rw [hp] at h; exact absurd h (by simp)
  | ok segs =>
    rw [hp] at h
    simp only [Bool.and_eq_true, List.all_eq_true, beq_iff_eq] at h
    have hs : tmplSegs text = segs := by
      unfold tmplSegs
      rw [hp]
    rw [hs]
    refine ⟨?_, h.1.1, h.1.2, h.2⟩
    intro data
    unfold renderTmpl
    rw [hp]

/-- The field `AppProfile` of the rendered text stands where its slot is. -/
theorem hasProfileSlot_spec (before after : List Char) (data : List (String × String)) :
    ∀ segs, hasProfileSlot before after segs = true →
      ∃ pre post, (segs.map (Seg.exec data)).flatten
        = pre ++ (before ++ lookupField data "AppProfile".data ++ after) ++ post := by
  intro segs
  induction segs with
  | nil => intro h; simp [hasProfileSlot] at h
  | cons seg rest ih =>
    intro h
    unfold hasProfileSlot at h
    rw [Bool.or_eq_true] at h
    rcases h with h | h
    · split at h
      · rename_i t1 name t2 tail
        simp only [Bool.and_eq_true, beq_iff_eq, List.isSuffixOf_iff_suffix,
          List.isPrefixOf_iff_prefix] at h
        obtain ⟨⟨⟨a, ha⟩, hname⟩, ⟨b, hb⟩⟩ := h
        refine ⟨a, b ++ (tail.map (Seg.exec data)).flatten, ?_⟩
        simp [Seg.exec, ← ha, ← hb, hname]
      · exact absurd h (by simp)
    · obtain ⟨pre, post, hpp⟩ := ih h
      refine ⟨seg.exec data ++ pre, post, ?_⟩
      simp [hpp]

/-- Executing a piece of a startup template with the data of `copyFilesToWorkingDir`
replaces each of the three fields by its value. -/
theorem exec_startupData {σ : Type} (w : World σ) (appBinary appProfile : String) (seg : Seg) :
    seg.exec (startupData w appBinary appProfile)
      = seg.substituted (w.stripExt (Filepath.Base appBinary)) appProfile := by
  cases seg with
  | lit text => rfl
  | field name =>
    simp only [Seg.exec, Seg.substituted, lookupField, startupData]
    by_cases h1 : name = "AppName".data
    · subst h1
      rfl
    · by_cases h2 : name = "AppProfile".data
      · subst h2
        rfl
      · by_cases h3 : name = "Backtick".data
        · subst h3
          rfl
        · have e1 : ("AppName" : String).data ≠ name := fun h => h1 h.symm
          have e2 : ("AppProfile" : String).data ≠ name := fun h => h2 h.symm
          have e3 : ("Backtick" : String).data ≠ name := fun h => h3 h.symm
          simp [List.find?, h1, h2, h3, e1, e2, e3]

/-! ## Staging -/

theorem writeStartupFiles_calls {σ : Type} (w : World σ)
    (buildBaseDir appBinary appProfile : String) (P : Call → Prop)
    (hsh : ∀ sh,
      w.renderTmpl aahBashStartupTemplate (startupData w appBinary appProfile) = .ok sh →
      P (.writeFile (Filepath.Join [buildBaseDir, "aah.sh"]) sh permRWXRXRX))
    (hcmd : ∀ cmd,
      w.renderTmpl aahCmdStartupTemplate (startupData w appBinary appProfile) = .ok cmd →
      P (.writeFile (Filepath.Join [buildBaseDir, "aah.cmd"]) cmd permRWXRXRX))
    (r : Run σ) :
    Run.Extends P r (writeStartupFiles w buildBaseDir appBinary appProfile r).2 := by
  unfold writeStartupFiles
  simp only []
  split
  · exact Run.Extends.refl P r
  · rename_i sh hrsh
    split
    · exact (Run.Extends.refl P r).record (hsh sh hrsh) _
    · split
      · exact (Run.Extends.refl P r).record (hsh sh hrsh) _
      · rename_i cmd hrcmd
        exact ((Run.Extends.refl P r).record (hsh sh hrsh) _).record (hcmd cmd hrcmd) _

theorem copyBinary_calls {σ : Type} (w : World σ) (buildBaseDir appBinary : String)
    (P : Call → Prop) (hmk : ∀ p m, P (.mkDirAll p m)) (hcp : ∀ d s, P (.copyFile d s))
    (hmode : ∀ p m, P (.applyFileMode p m)) (hlog : ∀ e, P (.logError e)) (r : Run σ) :
    Run.Extends P r (copyBinary w buildBaseDir appBinary r) := by
  unfold copyBinary
  simp only []
  split
  · exact ((((Run.Extends.refl P r).record (hmk _ _) _).record (hcp _ _) _).record
      (hmode _ _) _).log (hlog _)
  · exact (((Run.Extends.refl P r).record (hmk _ _) _).record (hcp _ _) _).record
      (hmode _ _) _

theorem copyAppDirs_calls {σ : Type} (w : World σ) (buildBaseDir : String)
    (excludes subTreeExcludes : List String) (P : Call → Prop)
    (hexists : ∀ p, P (.isFileExists p))
    (hcopy : ∀ src, Ess.ExcludesMatch w excludes (Filepath.Base src) = false →
      P (.copyDir buildBaseDir src subTreeExcludes)) :
    ∀ (dirs : List String) (r : Run σ),
      Run.Extends P r (copyAppDirs w buildBaseDir excludes subTreeExcludes dirs r).2 := by
  intro dirs
  induction dirs with
  | nil => intro r; exact Run.Extends.refl P r
  | cons srcdir rest ih =>
    intro r
    unfold copyAppDirs
    split
    · exact ih r
    · rename_i hm
      have hm2 : Ess.ExcludesMatch w excludes (Filepath.Base srcdir) = false := by
        simpa using hm
      simp only []
      split
      · split
        · exact ((Run.Extends.refl P r).log (hexists _)).record (hcopy _ hm2) _
        · exact Run.Extends.trans
            (((Run.Extends.refl P r).log (hexists _)).record (hcopy _ hm2) _) (ih _)
      · exact Run.Extends.trans ((Run.Extends.refl P r).log (hexists _)) (ih _)

theorem copyAppFiles_calls {σ : Type} (w : World σ) (cfg : Config)
    (appBaseDir appBinary appProfile buildBaseDir : String) (P : Call → Prop)
    (hval : ∀ p, P (.validate p)) (hdirs : ∀ p b, P (.dirsPath p b))
    (hexists : ∀ p, P (.isFileExists p))
    (hcopy : ∀ src,
      Ess.ExcludesMatch w (cfg.stringList "build.excludes").1 (Filepath.Base src) = false →
      P (.copyDir buildBaseDir src
        (excludeAndCreateSlice (cfg.stringList "build.excludes").1 "app")))
    (hsh : ∀ sh,
      w.renderTmpl aahBashStartupTemplate (startupData w appBinary appProfile) = .ok sh →
      P (.writeFile (Filepath.Join [buildBaseDir, "aah.sh"]) sh permRWXRXRX))
    (hcmd : ∀ cmd,
      w.renderTmpl aahCmdStartupTemplate (startupData w appBinary appProfile) = .ok cmd →
      P (.writeFile (Filepath.Join [buildBaseDir, "aah.cmd"]) cmd permRWXRXRX))
    (r : Run σ) :
    Run.Extends P r
      (copyAppFiles w cfg appBaseDir appBinary appProfile buildBaseDir r).2 := by
  unfold copyAppFiles
  simp only []
  split
  · exact (Run.Extends.refl P r).log (hval _)
  · have hloop := copyAppDirs_calls w buildBaseDir (cfg.stringList "build.excludes").1
      (excludeAndCreateSlice (cfg.stringList "build.excludes").1 "app") P hexists hcopy
      (w.dirsPath appBaseDir false (r.log (.validate (cfg.stringList "build.excludes").1)).state).1
      ((r.log (.validate (cfg.stringList "build.excludes").1)).log (.dirsPath appBaseDir false))
    have hpre : Run.Extends P r
        ((r.log (.validate (cfg.stringList "build.excludes").1)).log
          (.dirsPath appBaseDir false)) :=
      ((Run.Extends.refl P r).log (hval _)).log (hdirs _ _)
    split
    · rename_i err r3 heq
      rw [heq] at hloop
      exact hpre.trans hloop
    · rename_i r3 heq
      rw [heq] at hloop
      exact (hpre.trans hloop).trans
        (writeStartupFiles_calls w buildBaseDir appBinary appProfile P hsh hcmd r3)

/-- Every call of `copyFilesToWorkingDir`: the directory of a subtree copy is not
excluded and is copied with the subtree excludes, and what is written is a rendered
startup template, with the mode `permRWXRXRX`. -/
theorem copyFilesToWorkingDir_calls {σ : Type} (w : World σ) (cfg : Config)
    (appBaseDir appBinary appProfile : String) (P : Call → Prop)
    (htmp : ∀ d p, P (.tempDir d p)) (hdel : ∀ p, P (.deleteFiles p))
    (hmk : ∀ p m, P (.mkDirAll p m)) (hcp : ∀ d s, P (.copyFile d s))
    (hmode : ∀ p m, P (.applyFileMode p m)) (hlog : ∀ e, P (.logError e))
    (hval : ∀ p, P (.validate p)) (hdirs : ∀ p b, P (.dirsPath p b))
    (hexists : ∀ p, P (.isFileExists p))
    (hcopy : ∀ root src,
      Ess.ExcludesMatch w (cfg.stringList "build.excludes").1 (Filepath.Base src) = false →
      P (.copyDir root src (excludeAndCreateSlice (cfg.stringList "build.excludes").1 "app")))
    (hsh : ∀ root sh,
      w.renderTmpl aahBashStartupTemplate (startupData w appBinary appProfile) = .ok sh →
      P (.writeFile (Filepath.Join [root, "aah.sh"]) sh permRWXRXRX))
    (hcmd : ∀ root cmd,
      w.renderTmpl aahCmdStartupTemplate (startupData w appBinary appProfile) = .ok cmd →
      P (.writeFile (Filepath.Join [root, "aah.cmd"]) cmd permRWXRXRX))
    (r : Run σ) :
    Run.Extends P r (copyFilesToWorkingDir w cfg appBaseDir appBinary appProfile r).2 := by
  unfold copyFilesToWorkingDir
  simp only []
  split
  · exact (Run.Extends.refl P r).record (htmp _ _) _
  · split
    · exact (((Run.Extends.refl P r).record (htmp _ _) _).record (hdel _) _).record
        (hmk _ _) _
    · exact Run.Extends.trans
        (Run.Extends.trans
          ((((Run.Extends.refl P r).record (htmp _ _) _).record (hdel _) _).record
            (hmk _ _) _)
          (copyBinary_calls w _ appBinary P hmk hcp hmode hlog _))
        (copyAppFiles_calls w cfg appBaseDir appBinary appProfile _ P hval hdirs hexists
          (hcopy _) (hsh _) (hcmd _) _)

/-! ## Subtree excludes -/

theorem ExcludesMatch_append {σ : Type} (w : World σ) (xs ys : List String) (name : String) :
    Ess.ExcludesMatch w (xs ++ ys) name
      = (Ess.ExcludesMatch w xs name || Ess.ExcludesMatch w ys name) := by
  simp [Ess.ExcludesMatch, List.any_append]

/-! ## Errors of the staging assembler -/

theorem copyFilesToWorkingDir_tempDir_error {σ : Type} (w : World σ) (cfg : Config)
    (appBaseDir appBinary appProfile : String) (r : Run σ) (err : String)
    (h : (w.tempDir "" (Filepath.Base appBinary) r.state).1 = .error err) :
    copyFilesToWorkingDir w cfg appBaseDir appBinary appProfile r
      = (("", some ("unable to get temp directory: " ++ err)),
          ⟨(w.tempDir "" (Filepath.Base appBinary) r.state).2,
            r.calls ++ [.tempDir "" (Filepath.Base appBinary)]⟩) := by
  simp [copyFilesToWorkingDir, h, Run.record]

theorem copyFilesToWorkingDir_root_error {σ : Type} (w : World σ) (cfg : Config)
    (appBaseDir appBinary appProfile : String) (r : Run σ) (tmpDir err : String)
    (h : (w.tempDir "" (Filepath.Base appBinary) r.state).1 = .ok tmpDir)
    (hmk : (w.mkDirAll (Filepath.Join [tmpDir, w.stripExt (Filepath.Base appBinary)])
      permRWXRXRX
      (w.deleteFiles (Filepath.Join [tmpDir, w.stripExt (Filepath.Base appBinary)])
        (w.tempDir "" (Filepath.Base appBinary) r.state).2)).1 = some err) :
    copyFilesToWorkingDir w cfg appBaseDir appBinary appProfile r
      = (("", some err),
          ⟨(w.mkDirAll (Filepath.Join [tmpDir, w.stripExt (Filepath.Base appBinary)])
              permRWXRXRX
              (w.deleteFiles (Filepath.Join [tmpDir, w.stripExt (Filepath.Base appBinary)])
                (w.tempDir "" (Filepath.Base appBinary) r.state).2)).2,
            r.calls ++ [.tempDir "" (Filepath.Base appBinary),
              .deleteFiles (Filepath.Join [tmpDir, w.stripExt (Filepath.Base appBinary)]),
              .mkDirAll (Filepath.Join [tmpDir, w.stripExt (Filepath.Base appBinary)])
                permRWXRXRX]⟩) := by
  simp [copyFilesToWorkingDir, h, hmk, Run.record]

theorem copyFilesToWorkingDir_root_ok {σ : Type} (w : World σ) (cfg : Config)
    (appBaseDir appBinary appProfile : String) (r : Run σ) (tmpDir : String)
    (h : (w.tempDir "" (Filepath.Base appBinary) r.state).1 = .ok tmpDir)
    (hmk : (w.mkDirAll (Filepath.Join [tmpDir, w.stripExt (Filepath.Base appBinary)])
      permRWXRXRX
      (w.deleteFiles (Filepath.Join [tmpDir, w.stripExt (Filepath.Base appBinary)])
        (w.tempDir "" (Filepath.Base appBinary) r.state).2)).1 = none) :
    copyFilesToWorkingDir w cfg appBaseDir appBinary appProfile r
      = copyAppFiles w cfg appBaseDir appBinary appProfile
          (Filepath.Join [tmpDir, w.stripExt (Filepath.Base appBinary)])
          (copyBinary w (Filepath.Join [tmpDir, w.stripExt (Filepath.Base appBinary)])
            appBinary
            ⟨(w.mkDirAll (Filepath.Join [tmpDir, w.stripExt (Filepath.Base appBinary)])
                permRWXRXRX
                (w.deleteFiles (Filepath.Join [tmpDir, w.stripExt (Filepath.Base appBinary)])
                  (w.tempDir "" (Filepath.Base appBinary) r.state).2)).2,
              r.calls ++ [.tempDir "" (Filepath.Base appBinary),
                .deleteFiles (Filepath.Join [tmpDir, w.stripExt (Filepath.Base appBinary)]),
                .mkDirAll (Filepath.Join [tmpDir, w.stripExt (Filepath.Base appBinary)])
                  permRWXRXRX]⟩) := by
  simp [copyFilesToWorkingDir, h, hmk, Run.record]

theorem copyBinary_eq {σ : Type} (w : World σ) (buildBaseDir appBinary : String)
    (r : Run σ) :
    ∃ logged, (copyBinary w buildBaseDir appBinary r).calls
        = r.calls ++ [.mkDirAll (Filepath.Join [buildBaseDir, "bin"]) permRWXRXRX,
            .copyFile (Filepath.Join [buildBaseDir, "bin"]) appBinary,
            .applyFileMode
              (Filepath.Join [Filepath.Join [buildBaseDir, "bin"], Filepath.Base appBinary])
              permRWXRXRX] ++ logged
      ∧ (logged = [] ∨ ∃ err, logged = [.logError err]) := by
  unfold copyBinary
  simp only []
  split
  · rename_i err _
    exact ⟨[.logError err], by simp [Run.record, Run.log], Or.inr ⟨err, rfl⟩⟩
  · exact ⟨[], by simp [Run.record], Or.inl rfl⟩

theorem copyAppFiles_validate_error {σ : Type} (w : World σ) (cfg : Config)
    (appBaseDir appBinary appProfile buildBaseDir : String) (r : Run σ) (err : String)
    (h : w.validate (cfg.stringList "build.excludes").1 = some err) :
    copyAppFiles w cfg appBaseDir appBinary appProfile buildBaseDir r
      = (("", some err),
          ⟨r.state, r.calls ++ [.validate (cfg.stringList "build.excludes").1]⟩) := by
  simp [copyAppFiles, h, Run.log]

theorem copyAppFiles_copy_error {σ : Type} (w : World σ) (cfg : Config)
    (appBaseDir appBinary appProfile buildBaseDir : String) (r r3 : Run σ) (err : String)
    (h : w.validate (cfg.stringList "build.excludes").1 = none)
    (hcopy : copyAppDirs w buildBaseDir (cfg.stringList "build.excludes").1
      (excludeAndCreateSlice (cfg.stringList "build.excludes").1 "app")
      (w.dirsPath appBaseDir false r.state).1
      ⟨r.state, r.calls ++ [.validate (cfg.stringList "build.excludes").1,
        .dirsPath appBaseDir false]⟩ = (some err, r3)) :
    copyAppFiles w cfg appBaseDir appBinary appProfile buildBaseDir r
      = (("", some err), r3) := by
  simp only [copyAppFiles, h, Run.log, List.append_assoc, List.singleton_append]
  have hl : [Call.validate (cfg.stringList "build.excludes").1] ++
      [Call.dirsPath appBaseDir false]
      = [Call.validate (cfg.stringList "build.excludes").1,
        Call.dirsPath appBaseDir false] := rfl
  simp only [hl, hcopy]

theorem copyAppFiles_copy_ok {σ : Type} (w : World σ) (cfg : Config)
    (appBaseDir appBinary appProfile buildBaseDir : String) (r r3 : Run σ)
    (h : w.validate (cfg.stringList "build.excludes").1 = none)
    (hcopy : copyAppDirs w buildBaseDir (cfg.stringList "build.excludes").1
      (excludeAndCreateSlice (cfg.stringList "build.excludes").1 "app")
      (w.dirsPath appBaseDir false r.state).1
      ⟨r.state, r.calls ++ [.validate (cfg.stringList "build.excludes").1,
        .dirsPath appBaseDir false]⟩ = (none, r3)) :
    copyAppFiles w cfg appBaseDir appBinary appProfile buildBaseDir r
      = writeStartupFiles w buildBaseDir appBinary appProfile r3 := by
  simp only [copyAppFiles, h, Run.log, List.append_assoc, List.singleton_append]
  have hl : [Call.validate (cfg.stringList "build.excludes").1] ++
      [Call.dirsPath appBaseDir false]
      = [Call.validate (cfg.stringList "build.excludes").1,
        Call.dirsPath appBaseDir false] := rfl
  simp only [hl, hcopy]

theorem copyAppDirs_copy_error {σ : Type} (w : World σ) (buildBaseDir : String)
    (excludes subTreeExcludes : List String) (srcdir : String) (rest : List String)
    (r : Run σ) (err : String)
    (hm : Ess.ExcludesMatch w excludes (Filepath.Base srcdir) = false)
    (he : w.isFileExists srcdir r.state = true)
    (hc : (w.copyDir buildBaseDir srcdir subTreeExcludes r.state).1 = some err) :
    copyAppDirs w buildBaseDir excludes subTreeExcludes (srcdir :: rest) r
      = (some err,
          ⟨(w.copyDir buildBaseDir srcdir subTreeExcludes r.state).2,
            r.calls ++ [.isFileExists srcdir,
              .copyDir buildBaseDir srcdir subTreeExcludes]⟩) := by
  conv => lhs; unfold copyAppDirs
  simp [hm, he, hc, Run.log, Run.record]

theorem copyAppDirs_excluded {σ : Type} (w : World σ) (buildBaseDir : String)
    (excludes subTreeExcludes : List String) (srcdir : String) (rest : List String)
    (r : Run σ)
    (hm : Ess.ExcludesMatch w excludes (Filepath.Base srcdir) = true) :
    copyAppDirs w buildBaseDir excludes subTreeExcludes (srcdir :: rest) r
      = copyAppDirs w buildBaseDir excludes subTreeExcludes rest r := by
  conv => lhs; unfold copyAppDirs
  simp [hm]

theorem copyAppDirs_copy_ok {σ : Type} (w : World σ) (buildBaseDir : String)
    (excludes subTreeExcludes : List String) (srcdir : String) (rest : List String)
    (r : Run σ)
    (hm : Ess.ExcludesMatch w excludes (Filepath.Base srcdir) = false)
    (he : w.isFileExists srcdir r.state = true)
    (hc : (w.copyDir buildBaseDir srcdir subTreeExcludes r.state).1 = none) :
    copyAppDirs w buildBaseDir excludes subTreeExcludes (srcdir :: rest) r
      = copyAppDirs w buildBaseDir excludes subTreeExcludes rest
          ⟨(w.copyDir buildBaseDir srcdir subTreeExcludes r.state).2,
            r.calls ++ [.isFileExists srcdir,
              .copyDir buildBaseDir srcdir subTreeExcludes]⟩ := by
  conv => lhs; unfold copyAppDirs
  simp [hm, he, hc, Run.log, Run.record]

theorem writeStartupFiles_sh_render_error {σ : Type} (w : World σ)
    (buildBaseDir appBinary appProfile : String) (r : Run σ) (err : String)
    (h : w.renderTmpl aahBashStartupTemplate (startupData w appBinary appProfile)
      = .error err) :
    writeStartupFiles w buildBaseDir appBinary appProfile r = (("", some err), r) := by
  simp only [writeStartupFiles, h]

theorem writeStartupFiles_sh_write_error {σ : Type} (w : World σ)
    (buildBaseDir appBinary appProfile : String) (r : Run σ) (sh err : String)
    (h : w.renderTmpl aahBashStartupTemplate (startupData w appBinary appProfile) = .ok sh)
    (hw : (w.writeFile (Filepath.Join [buildBaseDir, "aah.sh"]) sh permRWXRXRX r.state).1
      = some err) :
    writeStartupFiles w buildBaseDir appBinary appProfile r
      = (("", some err),
          ⟨(w.writeFile (Filepath.Join [buildBaseDir, "aah.sh"]) sh permRWXRXRX r.state).2,
            r.calls ++ [.writeFile (Filepath.Join [buildBaseDir, "aah.sh"]) sh
              permRWXRXRX]⟩) := by
  simp only [writeStartupFiles, h, hw, Run.record]

theorem writeStartupFiles_cmd_render_error {σ : Type} (w : World σ)
    (buildBaseDir appBinary appProfile : String) (r : Run σ) (sh err : String)
    (h : w.renderTmpl aahBashStartupTemplate (startupData w appBinary appProfile) = .ok sh)
    (hw : (w.writeFile (Filepath.Join [buildBaseDir, "aah.sh"]) sh permRWXRXRX r.state).1
      = none)
    (hc : w.renderTmpl aahCmdStartupTemplate (startupData w appBinary appProfile)
      = .error err) :
    writeStartupFiles w buildBaseDir appBinary appProfile r
      = (("", some err),
          ⟨(w.writeFile (Filepath.Join [buildBaseDir, "aah.sh"]) sh permRWXRXRX r.state).2,
            r.calls ++ [.writeFile (Filepath.Join [buildBaseDir, "aah.sh"]) sh
              permRWXRXRX]⟩) := by
  simp only [writeStartupFiles, h, hw, hc, Run.record]

theorem writeStartupFiles_written {σ : Type} (w : World σ)
    (buildBaseDir appBinary appProfile : String) (r : Run σ) (sh cmd : String)
    (h : w.renderTmpl aahBashStartupTemplate (startupData w appBinary appProfile) = .ok sh)
    (hw : (w.writeFile (Filepath.Join [buildBaseDir, "aah.sh"]) sh permRWXRXRX r.state).1
      = none)
    (hc : w.renderTmpl aahCmdStartupTemplate (startupData w appBinary appProfile) = .ok cmd) :
    writeStartupFiles w buildBaseDir appBinary appProfile r
      = ((buildBaseDir,
            (w.writeFile (Filepath.Join [buildBaseDir, "aah.cmd"]) cmd permRWXRXRX
              (w.writeFile (Filepath.Join [buildBaseDir, "aah.sh"]) sh permRWXRXRX
                r.state).2).1),
          ⟨(w.writeFile (Filepath.Join [buildBaseDir, "aah.cmd"]) cmd permRWXRXRX
              (w.writeFile (Filepath.Join [buildBaseDir, "aah.sh"]) sh permRWXRXRX
                r.state).2).2,
            r.calls ++ [.writeFile (Filepath.Join [buildBaseDir, "aah.sh"]) sh permRWXRXRX,
              .writeFile (Filepath.Join [buildBaseDir, "aah.cmd"]) cmd permRWXRXRX]⟩) := by
  simp only [writeStartupFiles, h, hw, hc, Run.record, List.append_assoc,
    List.singleton_append]

theorem copyAppDirs_ok {σ : Type} (w : World σ) (buildBaseDir : String)
    (excludes subTreeExcludes : List String)
    (hcopy : ∀ dest src ex s, (w.copyDir dest src ex s).1 = none) :
    ∀ (dirs : List String) (r : Run σ),
      (copyAppDirs w buildBaseDir excludes subTreeExcludes dirs r).1 = none := by
  intro dirs
  induction dirs with
  | nil => intro r; rfl
  | cons srcdir rest ih =>
    intro r
    unfold copyAppDirs
    split
    · exact ih r
    · simp only []
      split
      · rw [hcopy]
        exact ih _
      · exact ih _

/-- The assembly goes through whatever the three calls of the binary block answer. -/
theorem copyFilesToWorkingDir_succeeds {σ : Type} (w : World σ) (cfg : Config)
    (appBaseDir appBinary appProfile : String) (r : Run σ) (tmpDir sh cmd : String)
    (htmp : (w.tempDir "" (Filepath.Base appBinary) r.state).1 = .ok tmpDir)
    (hroot : ∀ s, (w.mkDirAll (Filepath.Join [tmpDir, w.stripExt (Filepath.Base appBinary)])
      permRWXRXRX s).1 = none)
    (hval : w.validate (cfg.stringList "build.excludes").1 = none)
    (hcopy : ∀ dest src ex s, (w.copyDir dest src ex s).1 = none)
    (hsh : w.renderTmpl aahBashStartupTemplate (startupData w appBinary appProfile) = .ok sh)
    (hcmd : w.renderTmpl aahCmdStartupTemplate (startupData w appBinary appProfile)
      = .ok cmd)
    (hwrite : ∀ path data s, (w.writeFile path data permRWXRXRX s).1 = none) :
    (copyFilesToWorkingDir w cfg appBaseDir appBinary appProfile r).1
      = (Filepath.Join [tmpDir, w.stripExt (Filepath.Base appBinary)], none) := by
  rw [copyFilesToWorkingDir_root_ok w cfg appBaseDir appBinary appProfile r tmpDir htmp
    (hroot _)]
  generalize copyBinary w (Filepath.Join [tmpDir, w.stripExt (Filepath.Base appBinary)])
    appBinary _ = rb
  have hloop := copyAppDirs_ok w (Filepath.Join [tmpDir, w.stripExt (Filepath.Base appBinary)])
    (cfg.stringList "build.excludes").1
    (excludeAndCreateSlice (cfg.stringList "build.excludes").1 "app") hcopy
    (w.dirsPath appBaseDir false rb.state).1
    ⟨rb.state, rb.calls ++ [.validate (cfg.stringList "build.excludes").1,
      .dirsPath appBaseDir false]⟩
  cases hc : copyAppDirs w (Filepath.Join [tmpDir, w.stripExt (Filepath.Base appBinary)])
    (cfg.stringList "build.excludes").1
    (excludeAndCreateSlice (cfg.stringList "build.excludes").1 "app")
    (w.dirsPath appBaseDir false rb.state).1
    ⟨rb.state, rb.calls ++ [.validate (cfg.stringList "build.excludes").1,
      .dirsPath appBaseDir false]⟩ with
  | mk res r3 =>
    rw [hc] at hloop
    simp only at hloop
    subst hloop
    rw [copyAppFiles_copy_ok w cfg appBaseDir appBinary appProfile _ rb r3 hval hc,
      writeStartupFiles_written w _ appBinary appProfile r3 sh cmd hsh (hwrite _ _ _) hcmd,
      hwrite]

/-- The calls of `copyFilesToWorkingDir` once the staging root is made: the three calls of
the binary block come next, whatever they answer. -/
theorem copyFilesToWorkingDir_binary_calls {σ : Type} (w : World σ) (cfg : Config)
    (appBaseDir appBinary appProfile : String) (r : Run σ) (tmpDir : String)
    (h : (w.tempDir "" (Filepath.Base appBinary) r.state).1 = .ok tmpDir)
    (hmk : (w.mkDirAll (Filepath.Join [tmpDir, w.stripExt (Filepath.Base appBinary)])
      permRWXRXRX
      (w.deleteFiles (Filepath.Join [tmpDir, w.stripExt (Filepath.Base appBinary)])
        (w.tempDir "" (Filepath.Base appBinary) r.state).2)).1 = none) :
    ∃ rest, (copyFilesToWorkingDir w cfg appBaseDir appBinary appProfile r).2.calls
      = r.calls ++ [.tempDir "" (Filepath.Base appBinary),
          .deleteFiles (Filepath.Join [tmpDir, w.stripExt (Filepath.Base appBinary)]),
          .mkDirAll (Filepath.Join [tmpDir, w.stripExt (Filepath.Base appBinary)])
            permRWXRXRX,
          .mkDirAll (Filepath.Join [Filepath.Join [tmpDir,
            w.stripExt (Filepath.Base appBinary)], "bin"]) permRWXRXRX,
          .copyFile (Filepath.Join [Filepath.Join [tmpDir,
            w.stripExt (Filepath.Base appBinary)], "bin"]) appBinary,
          .applyFileMode (Filepath.Join [Filepath.Join [Filepath.Join [tmpDir,
            w.stripExt (Filepath.Base appBinary)], "bin"], Filepath.Base appBinary])
            permRWXRXRX] ++ rest := by
  rw [copyFilesToWorkingDir_root_ok w cfg appBaseDir appBinary appProfile r tmpDir h hmk]
  obtain ⟨logged, hb, _⟩ := copyBinary_eq w
    (Filepath.Join [tmpDir, w.stripExt (Filepath.Base appBinary)]) appBinary
    ⟨(w.mkDirAll (Filepath.Join [tmpDir, w.stripExt (Filepath.Base appBinary)])
        permRWXRXRX
        (w.deleteFiles (Filepath.Join [tmpDir, w.stripExt (Filepath.Base appBinary)])
          (w.tempDir "" (Filepath.Base appBinary) r.state).2)).2,
      r.calls ++ [.tempDir "" (Filepath.Base appBinary),
        .deleteFiles (Filepath.Join [tmpDir, w.stripExt (Filepath.Base appBinary)]),
        .mkDirAll (Filepath.Join [tmpDir, w.stripExt (Filepath.Base appBinary)])
          permRWXRXRX]⟩
  obtain ⟨new, hn, _⟩ := copyAppFiles_calls w cfg appBaseDir appBinary appProfile
    (Filepath.Join [tmpDir, w.stripExt (Filepath.Base appBinary)]) (fun _ => True)
    (fun _ => trivial) (fun _ _ => trivial) (fun _ => trivial) (fun _ _ => trivial)
    (fun _ _ => trivial) (fun _ _ => trivial)
    (copyBinary w (Filepath.Join [tmpDir, w.stripExt (Filepath.Base appBinary)]) appBinary
      ⟨(w.mkDirAll (Filepath.Join [tmpDir, w.stripExt (Filepath.Base appBinary)])
          permRWXRXRX
          (w.deleteFiles (Filepath.Join [tmpDir, w.stripExt (Filepath.Base appBinary)])
            (w.tempDir "" (Filepath.Base appBinary) r.state).2)).2,
        r.calls ++ [.tempDir "" (Filepath.Base appBinary),
          .deleteFiles (Filepath.Join [tmpDir, w.stripExt (Filepath.Base appBinary)]),
          .mkDirAll (Filepath.Join [tmpDir, w.stripExt (Filepath.Base appBinary)])
            permRWXRXRX]⟩)
  refine ⟨logged ++ new, ?_⟩
  rw [hn, hb]
  simp

theorem writeStartupFiles_no_error {σ : Type} (w : World σ)
    (buildBaseDir appBinary appProfile : String) (r : Run σ)
    (h : (writeStartupFiles w buildBaseDir appBinary appProfile r).1.2 = none) :
    ∃ sh cmd, (writeStartupFiles w buildBaseDir appBinary appProfile r).1.1 = buildBaseDir
      ∧ (writeStartupFiles w buildBaseDir appBinary appProfile r).2.calls
        = r.calls ++ [.writeFile (Filepath.Join [buildBaseDir, "aah.sh"]) sh permRWXRXRX,
            .writeFile (Filepath.Join [buildBaseDir, "aah.cmd"]) cmd permRWXRXRX] := by
  cases hsh : w.renderTmpl aahBashStartupTemplate (startupData w appBinary appProfile) with
  | error err =>
    rw [writeStartupFiles_sh_render_error w _ _ _ r err hsh] at h
    exact absurd h (by simp)
  | ok sh =>
    cases hw : (w.writeFile (Filepath.Join [buildBaseDir, "aah.sh"]) sh permRWXRXRX
        r.state).1 with
    | some err =>
      rw [writeStartupFiles_sh_write_error w _ _ _ r sh err hsh hw] at h
      exact absurd h (by simp)
    | none =>
      cases hc : w.renderTmpl aahCmdStartupTemplate (startupData w appBinary appProfile) with
      | error err =>
        rw [writeStartupFiles_cmd_render_error w _ _ _ r sh err hsh hw hc] at h
        exact absurd h (by simp)
      | ok cmd =>
        rw [writeStartupFiles_written w _ _ _ r sh cmd hsh hw hc]
        exact ⟨sh, cmd, rfl, rfl⟩

theorem copyAppFiles_no_error {σ : Type} (w : World σ) (cfg : Config)
    (appBaseDir appBinary appProfile buildBaseDir : String) (r : Run σ)
    (h : (copyAppFiles w cfg appBaseDir appBinary appProfile buildBaseDir r).1.2 = none) :
    ∃ r3, Run.Extends (fun _ => True) r r3
      ∧ copyAppFiles w cfg appBaseDir appBinary appProfile buildBaseDir r
        = writeStartupFiles w buildBaseDir appBinary appProfile r3 := by
  cases hv : w.validate (cfg.stringList "build.excludes").1 with
  | some err =>
    rw [copyAppFiles_validate_error w cfg _ _ _ _ r err hv] at h
    exact absurd h (by simp)
  | none =>
    have hloop := copyAppDirs_calls w buildBaseDir (cfg.stringList "build.excludes").1
      (excludeAndCreateSlice (cfg.stringList "build.excludes").1 "app") (fun _ => True)
      (fun _ => trivial) (fun _ _ => trivial) (w.dirsPath appBaseDir false r.state).1
      ⟨r.state, r.calls ++ [.validate (cfg.stringList "build.excludes").1,
        .dirsPath appBaseDir false]⟩
    have hpre : Run.Extends (fun _ => True) r
        (⟨r.state, r.calls ++ [.validate (cfg.stringList "build.excludes").1,
          .dirsPath appBaseDir false]⟩ : Run σ) :=
      ⟨_, rfl, fun _ _ => trivial⟩
    cases hc : copyAppDirs w buildBaseDir (cfg.stringList "build.excludes").1
      (excludeAndCreateSlice (cfg.stringList "build.excludes").1 "app")
      (w.dirsPath appBaseDir false r.state).1
      ⟨r.state, r.calls ++ [.validate (cfg.stringList "build.excludes").1,
        .dirsPath appBaseDir false]⟩ with
    | mk res r3 =>
      rw [hc] at hloop
      cases res with
      | some err =>
        rw [copyAppFiles_copy_error w cfg _ _ _ _ r r3 err hv hc] at h
        exact absurd h (by simp)
      | none =>
        exact ⟨r3, hpre.trans hloop, copyAppFiles_copy_ok w cfg _ _ _ _ r r3 hv hc⟩

theorem copyFilesToWorkingDir_no_error {σ : Type} (w : World σ) (cfg : Config)
    (appBaseDir appBinary appProfile : String) (r : Run σ)
    (h : (copyFilesToWorkingDir w cfg appBaseDir appBinary appProfile r).1.2 = none) :
    ∃ buildBaseDir r3, Run.Extends (fun _ => True) r r3
      ∧ copyFilesToWorkingDir w cfg appBaseDir appBinary appProfile r
        = writeStartupFiles w buildBaseDir appBinary appProfile r3 := by
  cases htmp : (w.tempDir "" (Filepath.Base appBinary) r.state).1 with
  | error err =>
    rw [copyFilesToWorkingDir_tempDir_error w cfg _ _ _ r err htmp] at h
    exact absurd h (by simp)
  | ok tmpDir =>
    cases hmk : (w.mkDirAll (Filepath.Join [tmpDir, w.stripExt (Filepath.Base appBinary)])
        permRWXRXRX
        (w.deleteFiles (Filepath.Join [tmpDir, w.stripExt (Filepath.Base appBinary)])
          (w.tempDir "" (Filepath.Base appBinary) r.state).2)).1 with
    | some err =>
      rw [copyFilesToWorkingDir_root_error w cfg _ _ _ r tmpDir err htmp hmk] at h
      exact absurd h (by simp)
    | none =>
      rw [copyFilesToWorkingDir_root_ok w cfg _ _ _ r tmpDir htmp hmk] at h ⊢
      obtain ⟨r3, hext, heq⟩ := copyAppFiles_no_error w cfg _ _ _ _ _ h
      refine ⟨_, r3, ?_, heq⟩
      refine Run.Extends.trans (Run.Extends.trans ?_
        (copyBinary_calls w _ appBinary (fun _ => True) (fun _ _ => trivial)
          (fun _ _ => trivial) (fun _ _ => trivial) (fun _ => trivial) _)) hext
      exact ⟨_, rfl, fun _ _ => trivial⟩

/-- When `copyFilesToWorkingDir` returns no error, its last two calls are the writing of
`aah.sh` and of `aah.cmd` in the staging root it returns. -/
theorem copyFilesToWorkingDir_no_error_writes {σ : Type} (w : World σ) (cfg : Config)
    (appBaseDir appBinary appProfile : String) (r : Run σ)
    (h : (copyFilesToWorkingDir w cfg appBaseDir appBinary appProfile r).1.2 = none) :
    ∃ mid sh cmd, (copyFilesToWorkingDir w cfg appBaseDir appBinary appProfile r).2.calls
      = r.calls ++ mid ++
        [.writeFile (Filepath.Join
            [(copyFilesToWorkingDir w cfg appBaseDir appBinary appProfile r).1.1, "aah.sh"])
            sh permRWXRXRX,
          .writeFile (Filepath.Join
            [(copyFilesToWorkingDir w cfg appBaseDir appBinary appProfile r).1.1, "aah.cmd"])
            cmd permRWXRXRX] := by
  obtain ⟨root, r3, ⟨mid, hmid, _⟩, heq⟩ :=
    copyFilesToWorkingDir_no_error w cfg appBaseDir appBinary appProfile r h
  rw [heq] at h ⊢
  obtain ⟨sh, cmd, hroot, hcalls⟩ := writeStartupFiles_no_error w root appBinary appProfile
    r3 h
  exact ⟨mid, sh, cmd, by rw [hcalls, hmid, hroot]⟩

theorem noBinaryWorld_renders :
    (noBinaryWorld.renderTmpl aahBashStartupTemplate
        (startupData noBinaryWorld "/proj/build/bin/myapp" "qa")
      = .ok ⟨((tmplSegs aahBashStartupTemplate).map
          (Seg.exec (startupData noBinaryWorld "/proj/build/bin/myapp" "qa"))).flatten⟩)
    ∧ (noBinaryWorld.renderTmpl aahCmdStartupTemplate
        (startupData noBinaryWorld "/proj/build/bin/myapp" "qa")
      = .ok ⟨((tmplSegs aahCmdStartupTemplate).map
          (Seg.exec (startupData noBinaryWorld "/proj/build/bin/myapp" "qa"))).flatten⟩) := by
  have e : noBinaryWorld.renderTmpl = renderTmpl := rfl
  rw [e]
  exact ⟨(templateChecked_spec _ _ _ aahBashStartupTemplate_checked).1 _,
    (templateChecked_spec _ _ _ aahCmdStartupTemplate_checked).1 _⟩

/-- C5 (counterexample): in a world where creating `<root>/bin`, copying the binary into
it and setting the mode of the binary all fail, `copyFilesToWorkingDir` makes these three
calls, goes on, and returns the staging root with no error. -/
theorem copyFilesToWorkingDir_errors_counterexample :
    (noBinaryWorld.mkDirAll "/tmp/myapp042/myapp/bin" permRWXRXRX ()).1
      = some "mkdir: permission denied"
    ∧ (noBinaryWorld.copyFile "/tmp/myapp042/myapp/bin" "/proj/build/bin/myapp" ()).1
      = some "copy: no such file or directory"
    ∧ (noBinaryWorld.applyFileMode "/tmp/myapp042/myapp/bin/myapp" permRWXRXRX ()).1
      = some "chmod: no such file or directory"
    ∧ (∃ rest, (copyFilesToWorkingDir noBinaryWorld sampleConfig "/proj"
          "/proj/build/bin/myapp" "qa" Run.start).2.calls
        = [.tempDir "" "myapp", .deleteFiles "/tmp/myapp042/myapp",
            .mkDirAll "/tmp/myapp042/myapp" permRWXRXRX,
            .mkDirAll "/tmp/myapp042/myapp/bin" permRWXRXRX,
            .copyFile "/tmp/myapp042/myapp/bin" "/proj/build/bin/myapp",
            .applyFileMode "/tmp/myapp042/myapp/bin/myapp" permRWXRXRX] ++ rest)
    ∧ (∃ mid sh cmd, (copyFilesToWorkingDir noBinaryWorld sampleConfig "/proj"
          "/proj/build/bin/myapp" "qa" Run.start).2.calls
        = mid ++ [.writeFile "/tmp/myapp042/myapp/aah.sh" sh permRWXRXRX,
            .writeFile "/tmp/myapp042/myapp/aah.cmd" cmd permRWXRXRX])
    ∧ (copyFilesToWorkingDir noBinaryWorld sampleConfig "/proj" "/proj/build/bin/myapp" "qa"
          Run.start).1
      = ("/tmp/myapp042/myapp", none) := by
  have hres : (copyFilesToWorkingDir noBinaryWorld sampleConfig "/proj"
      "/proj/build/bin/myapp" "qa" Run.start).1 = ("/tmp/myapp042/myapp", none) :=
    copyFilesToWorkingDir_succeeds noBinaryWorld sampleConfig "/proj" "/proj/build/bin/myapp"
      "qa" Run.start "/tmp/myapp042" _ _ rfl (fun _ => rfl) rfl (fun _ _ _ _ => rfl)
      noBinaryWorld_renders.1 noBinaryWorld_renders.2 (fun _ _ _ => rfl)
  refine ⟨rfl, rfl, rfl,
    copyFilesToWorkingDir_binary_calls noBinaryWorld sampleConfig "/proj"
      "/proj/build/bin/myapp" "qa" Run.start "/tmp/myapp042" rfl rfl, ?_, hres⟩
  obtain ⟨mid, sh, cmd, hcalls⟩ := copyFilesToWorkingDir_no_error_writes noBinaryWorld
    sampleConfig "/proj" "/proj/build/bin/myapp" "qa" Run.start (by rw [hres])
  refine ⟨mid, sh, cmd, ?_⟩
  rw [hcalls, hres]
  rfl

/-- C5 (amended): which failures abort `copyFilesToWorkingDir`. A failure to make the
temporary directory is returned, wrapped in `unable to get temp directory: `, with an
empty path, after that one call. A failure to create the staging root is returned as it
is with an empty path, and no later step runs. Once the root is made the binary block
always runs its three calls and the assembly goes on with the validation of the
excludes: a failure to create `<root>/bin` or to copy the binary is discarded, a failure
to set the mode is logged, and when every other step succeeds the staging root is
returned without an error. A failure of the validation, of a subtree copy (the first
one that fails ends the loop), of a rendering or of the writing of `aah.sh` is returned as
it is with an empty path and ends the calls. What the writing of `aah.cmd` answers is
returned together with the staging root. -/
theorem copyFilesToWorkingDir_errors {σ : Type} (w : World σ) (cfg : Config)
    (appBaseDir appBinary appProfile : String) (r : Run σ) :
    (∀ err, (w.tempDir "" (Filepath.Base appBinary) r.state).1 = .error err →
      copyFilesToWorkingDir w cfg appBaseDir appBinary appProfile r
        = (("", some ("unable to get temp directory: " ++ err)),
            ⟨(w.tempDir "" (Filepath.Base appBinary) r.state).2, r.calls ++ [.tempDir "" (Filepath.Base appBinary)]⟩))
    ∧ (∀ tmpDir err, (w.tempDir "" (Filepath.Base appBinary) r.state).1 = .ok tmpDir →
        (w.mkDirAll (Filepath.Join [tmpDir, w.stripExt (Filepath.Base appBinary)]) permRWXRXRX
          (w.deleteFiles (Filepath.Join [tmpDir, w.stripExt (Filepath.Base appBinary)]) (w.tempDir "" (Filepath.Base appBinary) r.state).2)).1 = some err →
      copyFilesToWorkingDir w cfg appBaseDir appBinary appProfile r
        = (("", some err), ⟨(w.mkDirAll (Filepath.Join [tmpDir, w.stripExt (Filepath.Base appBinary)]) permRWXRXRX
          (w.deleteFiles (Filepath.Join [tmpDir, w.stripExt (Filepath.Base appBinary)]) (w.tempDir "" (Filepath.Base appBinary) r.state).2)).2,
          r.calls ++ [.tempDir "" (Filepath.Base appBinary), .deleteFiles (Filepath.Join [tmpDir, w.stripExt (Filepath.Base appBinary)]),
            .mkDirAll (Filepath.Join [tmpDir, w.stripExt (Filepath.Base appBinary)]) permRWXRXRX]⟩))
    ∧ (∀ tmpDir, (w.tempDir "" (Filepath.Base appBinary) r.state).1 = .ok tmpDir →
        (w.mkDirAll (Filepath.Join [tmpDir, w.stripExt (Filepath.Base appBinary)]) permRWXRXRX
          (w.deleteFiles (Filepath.Join [tmpDir, w.stripExt (Filepath.Base appBinary)]) (w.tempDir "" (Filepath.Base appBinary) r.state).2)).1 = none →
      copyFilesToWorkingDir w cfg appBaseDir appBinary appProfile r
        = copyAppFiles w cfg appBaseDir appBinary appProfile (Filepath.Join [tmpDir, w.stripExt (Filepath.Base appBinary)])
            (copyBinary w (Filepath.Join [tmpDir, w.stripExt (Filepath.Base appBinary)]) appBinary
              ⟨(w.mkDirAll (Filepath.Join [tmpDir, w.stripExt (Filepath.Base appBinary)]) permRWXRXRX
          (w.deleteFiles (Filepath.Join [tmpDir, w.stripExt (Filepath.Base appBinary)]) (w.tempDir "" (Filepath.Base appBinary) r.state).2)).2,
          r.calls ++ [.tempDir "" (Filepath.Base appBinary), .deleteFiles (Filepath.Join [tmpDir, w.stripExt (Filepath.Base appBinary)]),
            .mkDirAll (Filepath.Join [tmpDir, w.stripExt (Filepath.Base appBinary)]) permRWXRXRX]⟩))
    ∧ (∀ buildBaseDir (r1 : Run σ), ∃ logged,
        (copyBinary w buildBaseDir appBinary r1).calls
          = r1.calls ++ [.mkDirAll (Filepath.Join [buildBaseDir, "bin"]) permRWXRXRX,
              .copyFile (Filepath.Join [buildBaseDir, "bin"]) appBinary,
              .applyFileMode
                (Filepath.Join [Filepath.Join [buildBaseDir, "bin"], Filepath.Base appBinary])
                permRWXRXRX] ++ logged
        ∧ (logged = [] ∨ ∃ err, logged = [.logError err]))
    ∧ (∀ tmpDir sh cmd, (w.tempDir "" (Filepath.Base appBinary) r.state).1 = .ok tmpDir →
        (∀ s, (w.mkDirAll (Filepath.Join [tmpDir, w.stripExt (Filepath.Base appBinary)]) permRWXRXRX s).1 = none) →
        w.validate (cfg.stringList "build.excludes").1 = none →
        (∀ dest src ex s, (w.copyDir dest src ex s).1 = none) →
        w.renderTmpl aahBashStartupTemplate (startupData w appBinary appProfile) = .ok sh →
        w.renderTmpl aahCmdStartupTemplate (startupData w appBinary appProfile) = .ok cmd →
        (∀ path data s, (w.writeFile path data permRWXRXRX s).1 = none) →
      (copyFilesToWorkingDir w cfg appBaseDir appBinary appProfile r).1
        = ((Filepath.Join [tmpDir, w.stripExt (Filepath.Base appBinary)]), none))
    ∧ (∀ buildBaseDir (r1 : Run σ) err,
        w.validate (cfg.stringList "build.excludes").1 = some err →
      copyAppFiles w cfg appBaseDir appBinary appProfile buildBaseDir r1
        = (("", some err),
            ⟨r1.state, r1.calls ++ [.validate (cfg.stringList "build.excludes").1]⟩))
    ∧ (∀ buildBaseDir (r1 r3 : Run σ) err,
        w.validate (cfg.stringList "build.excludes").1 = none →
        copyAppDirs w buildBaseDir (cfg.stringList "build.excludes").1
          (excludeAndCreateSlice (cfg.stringList "build.excludes").1 "app")
          (w.dirsPath appBaseDir false r1.state).1
          ⟨r1.state, r1.calls ++ [.validate (cfg.stringList "build.excludes").1,
            .dirsPath appBaseDir false]⟩ = (some err, r3) →
      copyAppFiles w cfg appBaseDir appBinary appProfile buildBaseDir r1
        = (("", some err), r3))
    ∧ (∀ buildBaseDir excludes subTreeExcludes srcdir rest (r1 : Run σ) err,
        Ess.ExcludesMatch w excludes (Filepath.Base srcdir) = false →
        w.isFileExists srcdir r1.state = true →
        (w.copyDir buildBaseDir srcdir subTreeExcludes r1.state).1 = some err →
      copyAppDirs w buildBaseDir excludes subTreeExcludes (srcdir :: rest) r1
        = (some err,
            ⟨(w.copyDir buildBaseDir srcdir subTreeExcludes r1.state).2,
              r1.calls ++ [.isFileExists srcdir,
                .copyDir buildBaseDir srcdir subTreeExcludes]⟩))
    ∧ (∀ buildBaseDir (r1 : Run σ) err,
        w.renderTmpl aahBashStartupTemplate (startupData w appBinary appProfile)
          = .error err →
      writeStartupFiles w buildBaseDir appBinary appProfile r1 = (("", some err), r1))
    ∧ (∀ buildBaseDir (r1 : Run σ) sh err,
        w.renderTmpl aahBashStartupTemplate (startupData w appBinary appProfile) = .ok sh →
        (w.writeFile (Filepath.Join [buildBaseDir, "aah.sh"]) sh permRWXRXRX r1.state).1
          = some err →
      writeStartupFiles w buildBaseDir appBinary appProfile r1
        = (("", some err),
            ⟨(w.writeFile (Filepath.Join [buildBaseDir, "aah.sh"]) sh permRWXRXRX
                r1.state).2,
              r1.calls ++ [.writeFile (Filepath.Join [buildBaseDir, "aah.sh"]) sh
                permRWXRXRX]⟩))
    ∧ (∀ buildBaseDir (r1 : Run σ) sh err,
        w.renderTmpl aahBashStartupTemplate (startupData w appBinary appProfile) = .ok sh →
        (w.writeFile (Filepath.Join [buildBaseDir, "aah.sh"]) sh permRWXRXRX r1.state).1
          = none →
        w.renderTmpl aahCmdStartupTemplate (startupData w appBinary appProfile)
          = .error err →
      writeStartupFiles w buildBaseDir appBinary appProfile r1
        = (("", some err),
            ⟨(w.writeFile (Filepath.Join [buildBaseDir, "aah.sh"]) sh permRWXRXRX
                r1.state).2,
              r1.calls ++ [.writeFile (Filepath.Join [buildBaseDir, "aah.sh"]) sh
                permRWXRXRX]⟩))
    ∧ (∀ buildBaseDir (r1 : Run σ) sh cmd,
        w.renderTmpl aahBashStartupTemplate (startupData w appBinary appProfile) = .ok sh →
        (w.writeFile (Filepath.Join [buildBaseDir, "aah.sh"]) sh permRWXRXRX r1.state).1
          = none →
        w.renderTmpl aahCmdStartupTemplate (startupData w appBinary appProfile) = .ok cmd →
      writeStartupFiles w buildBaseDir appBinary appProfile r1
        = ((buildBaseDir,
              (w.writeFile (Filepath.Join [buildBaseDir, "aah.cmd"]) cmd permRWXRXRX
                (w.writeFile (Filepath.Join [buildBaseDir, "aah.sh"]) sh permRWXRXRX
                  r1.state).2).1),
            ⟨(w.writeFile (Filepath.Join [buildBaseDir, "aah.cmd"]) cmd permRWXRXRX
                (w.writeFile (Filepath.Join [buildBaseDir, "aah.sh"]) sh permRWXRXRX
                  r1.state).2).2,
              r1.calls ++ [.writeFile (Filepath.Join [buildBaseDir, "aah.sh"]) sh
                  permRWXRXRX,
                .writeFile (Filepath.Join [buildBaseDir, "aah.cmd"]) cmd permRWXRXRX]⟩)) :=
  ⟨fun err h => copyFilesToWorkingDir_tempDir_error w cfg appBaseDir appBinary appProfile r
      err h,
    fun tmpDir err h hmk => copyFilesToWorkingDir_root_error w cfg appBaseDir appBinary
      appProfile r tmpDir err h hmk,
    fun tmpDir h hmk => copyFilesToWorkingDir_root_ok w cfg appBaseDir appBinary appProfile r
      tmpDir h hmk,
    fun buildBaseDir r1 => copyBinary_eq w buildBaseDir appBinary r1,
    fun tmpDir sh cmd htmp hroot hval hcopy hsh hcmd hwrite =>
      copyFilesToWorkingDir_succeeds w cfg appBaseDir appBinary appProfile r tmpDir sh cmd
        htmp hroot hval hcopy hsh hcmd hwrite,
    fun buildBaseDir r1 err h => copyAppFiles_validate_error w cfg appBaseDir appBinary
      appProfile buildBaseDir r1 err h,
    fun buildBaseDir r1 r3 err h hc => copyAppFiles_copy_error w cfg appBaseDir appBinary
      appProfile buildBaseDir r1 r3 err h hc,
    fun buildBaseDir excludes subTreeExcludes srcdir rest r1 err hm he hc =>
      copyAppDirs_copy_error w buildBaseDir excludes subTreeExcludes srcdir rest r1 err hm he
        hc,
    fun buildBaseDir r1 err h => writeStartupFiles_sh_render_error w buildBaseDir appBinary
      appProfile r1 err h,
    fun buildBaseDir r1 sh err h hw => writeStartupFiles_sh_write_error w buildBaseDir
      appBinary appProfile r1 sh err h hw,
    fun buildBaseDir r1 sh err h hw hc => writeStartupFiles_cmd_render_error w buildBaseDir
      appBinary appProfile r1 sh err h hw hc,
    fun buildBaseDir r1 sh cmd h hw hc => writeStartupFiles_written w buildBaseDir appBinary
      appProfile r1 sh cmd h hw hc⟩

/-- C5 (witness): where no temporary directory can be made, the wrapped error comes back
after the one call; where the validation of the excludes fails, its error comes back
and the validation is the last call. -/
theorem copyFilesToWorkingDir_errors_witness :
    copyFilesToWorkingDir noTempWorld sampleConfig "/proj" "/proj/build/bin/myapp" "qa"
        Run.start
      = (("", some "unable to get temp directory: no space left on device"),
          ⟨(), [.tempDir "" "myapp"]⟩)
    ∧ copyAppFiles badExcludesWorld sampleConfig "/proj" "/proj/build/bin/myapp" "qa"
        "/tmp/myapp042/myapp" Run.start
      = (("", some "syntax error in pattern"), ⟨(), [.validate ["*.bak", "vendor"]]⟩) :=
  ⟨(copyFilesToWorkingDir_errors noTempWorld sampleConfig "/proj" "/proj/build/bin/myapp"
      "qa" Run.start).1 "no space left on device" rfl,
    (copyFilesToWorkingDir_errors badExcludesWorld sampleConfig "/proj"
      "/proj/build/bin/myapp" "qa" Run.start).2.2.2.2.2.1 "/tmp/myapp042/myapp" Run.start
      "syntax error in pattern" rfl⟩

/-! ## What the startup scripts hold -/

theorem lookupField_AppProfile {σ : Type} (w : World σ) (appBinary appProfile : String) :
    lookupField (startupData w appBinary appProfile) "AppProfile".data = appProfile.data := by
  have h := exec_startupData w appBinary appProfile (.field "AppProfile".data)
  simp only [Seg.exec, Seg.substituted] at h
  rw [h]
  rfl

/-- What a world that renders as `text/template` does writes for a checked template. -/
theorem rendered_spec {σ : Type} (w : World σ) (text before after : String)
    (appBinary appProfile sh : String)
    (hrender : ∀ t data, w.renderTmpl t data = renderTmpl t data)
    (hchecked : templateChecked text before after = true)
    (h : w.renderTmpl text (startupData w appBinary appProfile) = .ok sh) :
    sh.data = ((tmplSegs text).map
        (Seg.substituted (w.stripExt (Filepath.Base appBinary)) appProfile)).flatten
    ∧ ∃ pre post, sh.data = pre ++ (before ++ appProfile ++ after).data ++ post := by
  obtain ⟨h1, _, _, h4⟩ := templateChecked_spec text before after hchecked
  rw [hrender, h1] at h
  injection h with h
  have hdata : sh.data = ((tmplSegs text).map
      (Seg.exec (startupData w appBinary appProfile))).flatten := by
    rw [← h]
  constructor
  · rw [hdata]
    congr 1
    exact List.map_congr_left (fun seg _ => exec_startupData w appBinary appProfile seg)
  · obtain ⟨pre, post, hpp⟩ := hasProfileSlot_spec before.data after.data
      (startupData w appBinary appProfile) (tmplSegs text) h4
    refine ⟨pre, post, ?_⟩
    rw [hdata, hpp, lookupField_AppProfile]
    simp [String.data_append]

/-- C6: for every binary and profile, in a world whose `renderTmpl` renders as
`text/template` does, every file `copyFilesToWorkingDir` writes is `aah.sh` or `aah.cmd`
in a directory, with the mode 0755, and holds the pieces of its startup template with
every `{{ .AppName }}` replaced by the base name of the binary without its extension,
every `{{ .AppProfile }}` by the profile and every `{{ .Backtick }}` by a backtick (the
source text of the pieces is the template, and no literal piece holds an action); so
`aah.sh` holds the line `APP_ENV_PROFILE="p"` and `aah.cmd` the line
`SET APP_ENV_PROFILE=p`. When no error is returned, the last two calls are the writing
of `aah.sh` and of `aah.cmd` in the staging root that is returned. -/
theorem copyFilesToWorkingDir_startup_scripts {σ : Type} (w : World σ) (cfg : Config)
    (appBaseDir appBinary appProfile : String) (r : Run σ)
    (hrender : ∀ text data, w.renderTmpl text data = renderTmpl text data) :
    ((tmplSegs aahBashStartupTemplate).map Seg.source).flatten = aahBashStartupTemplate.data
    ∧ (∀ text, Seg.lit text ∈ tmplSegs aahBashStartupTemplate → hasAction text = false)
    ∧ ((tmplSegs aahCmdStartupTemplate).map Seg.source).flatten = aahCmdStartupTemplate.data
    ∧ (∀ text, Seg.lit text ∈ tmplSegs aahCmdStartupTemplate → hasAction text = false)
    ∧ ∃ new, (copyFilesToWorkingDir w cfg appBaseDir appBinary appProfile r).2.calls
        = r.calls ++ new
      ∧ (∀ path data perm, Call.writeFile path data perm ∈ new →
          perm = 0o755
          ∧ (((∃ root, path = Filepath.Join [root, "aah.sh"])
              ∧ data.data = ((tmplSegs aahBashStartupTemplate).map
                  (Seg.substituted (w.stripExt (Filepath.Base appBinary)) appProfile)).flatten
              ∧ ∃ pre post, data.data
                  = pre ++ ("\nAPP_ENV_PROFILE=\"" ++ appProfile ++ "\"\n").data ++ post)
            ∨ ((∃ root, path = Filepath.Join [root, "aah.cmd"])
              ∧ data.data = ((tmplSegs aahCmdStartupTemplate).map
                  (Seg.substituted (w.stripExt (Filepath.Base appBinary)) appProfile)).flatten
              ∧ ∃ pre post, data.data
                  = pre ++ ("\nSET APP_ENV_PROFILE=" ++ appProfile ++ "\n").data ++ post)))
      ∧ ((copyFilesToWorkingDir w cfg appBaseDir appBinary appProfile r).1.2 = none →
          ∃ mid sh cmd, new = mid ++
            [.writeFile (Filepath.Join
                [(copyFilesToWorkingDir w cfg appBaseDir appBinary appProfile r).1.1,
                  "aah.sh"]) sh 0o755,
              .writeFile (Filepath.Join
                [(copyFilesToWorkingDir w cfg appBaseDir appBinary appProfile r).1.1,
                  "aah.cmd"]) cmd 0o755]) := by
  obtain ⟨_, hb2, hb3, _⟩ := templateChecked_spec _ _ _ aahBashStartupTemplate_checked
  obtain ⟨_, hc2, hc3, _⟩ := templateChecked_spec _ _ _ aahCmdStartupTemplate_checked
  refine ⟨hb3, ?_, hc3, ?_, ?_⟩
  · intro text ht
    simpa [Seg.wellFormed] using hb2 _ ht
  · intro text ht
    simpa [Seg.wellFormed] using hc2 _ ht
  · obtain ⟨new, h1, h2⟩ := copyFilesToWorkingDir_calls w cfg appBaseDir appBinary appProfile
      (fun c => ∀ path data perm, c = Call.writeFile path data perm →
        perm = 0o755
        ∧ (((∃ root, path = Filepath.Join [root, "aah.sh"])
            ∧ data.data = ((tmplSegs aahBashStartupTemplate).map
                (Seg.substituted (w.stripExt (Filepath.Base appBinary)) appProfile)).flatten
            ∧ ∃ pre post, data.data
                = pre ++ ("\nAPP_ENV_PROFILE=\"" ++ appProfile ++ "\"\n").data ++ post)
          ∨ ((∃ root, path = Filepath.Join [root, "aah.cmd"])
            ∧ data.data = ((tmplSegs aahCmdStartupTemplate).map
                (Seg.substituted (w.stripExt (Filepath.Base appBinary)) appProfile)).flatten
            ∧ ∃ pre post, data.data
                = pre ++ ("\nSET APP_ENV_PROFILE=" ++ appProfile ++ "\n").data ++ post)))
      (by intro _ _ _ _ _ h; cases h) (by intro _ _ _ _ h; cases h)
      (by intro _ _ _ _ _ h; cases h) (by intro _ _ _ _ _ h; cases h)
      (by intro _ _ _ _ _ h; cases h) (by intro _ _ _ _ h; cases h)
      (by intro _ _ _ _ h; cases h) (by intro _ _ _ _ _ h; cases h)
      (by intro _ _ _ _ h; cases h) (by intro _ _ _ _ _ _ h; cases h)
      (by
        intro root sh hsh path data perm h
        injection h with hp hd hm
        subst hp hd hm
        obtain ⟨e1, e2⟩ := rendered_spec w _ _ _ appBinary appProfile sh hrender
          aahBashStartupTemplate_checked hsh
        exact ⟨rfl, Or.inl ⟨⟨root, rfl⟩, e1, e2⟩⟩)
      (by
        intro root cmd hcmd path data perm h
        injection h with hp hd hm
        subst hp hd hm
        obtain ⟨e1, e2⟩ := rendered_spec w _ _ _ appBinary appProfile cmd hrender
          aahCmdStartupTemplate_checked hcmd
        exact ⟨rfl, Or.inr ⟨⟨root, rfl⟩, e1, e2⟩⟩) r
    refine ⟨new, h1, fun path data perm hmem => h2 _ hmem path data perm rfl, ?_⟩
    intro hnone
    obtain ⟨mid, sh, cmd, hcalls⟩ :=
      copyFilesToWorkingDir_no_error_writes w cfg appBaseDir appBinary appProfile r hnone
    refine ⟨mid, sh, cmd, ?_⟩
    rw [hcalls, List.append_assoc] at h1
    exact (List.append_cancel_left h1).symm

/-- C6 (witness): the binary `myapp` and the profile `qa` in the sample world, which
renders as `text/template` does. -/
theorem copyFilesToWorkingDir_startup_scripts_witness :
    ∃ new, (copyFilesToWorkingDir quietWorld sampleConfig "/proj" "/proj/build/bin/myapp" "qa"
          Run.start).2.calls = Run.start.calls ++ new
      ∧ ∀ path data perm, Call.writeFile path data perm ∈ new →
          perm = 0o755
          ∧ (((∃ root, path = Filepath.Join [root, "aah.sh"])
              ∧ ∃ pre post, data.data = pre ++ "\nAPP_ENV_PROFILE=\"qa\"\n".data ++ post)
            ∨ ((∃ root, path = Filepath.Join [root, "aah.cmd"])
              ∧ ∃ pre post, data.data = pre ++ "\nSET APP_ENV_PROFILE=qa\n".data ++ post)) := by
  obtain ⟨new, h1, h2, _⟩ := (copyFilesToWorkingDir_startup_scripts quietWorld sampleConfig
    "/proj" "/proj/build/bin/myapp" "qa" Run.start (fun _ _ => rfl)).2.2.2.2
  refine ⟨new, h1, ?_⟩
  intro path data perm hmem
  obtain ⟨hp, hcases⟩ := h2 path data perm hmem
  refine ⟨hp, ?_⟩
  rcases hcases with ⟨hr, _, hline⟩ | ⟨hr, _, hline⟩
  · exact Or.inl ⟨hr, hline⟩
  · exact Or.inr ⟨hr, hline⟩

/-! ## The stages of a build -/

theorem pushStage_idem (s : Stage) (l : List Stage) :
    pushStage s (pushStage s l) = pushStage s l := by
  cases l with
  | nil => simp [pushStage]
  | cons t ts =>
    by_cases h : s = t
    · simp [pushStage, h]
    · simp [pushStage, h]

theorem stagesOf_append (a b : List Call) :
    stagesOf (a ++ b) = a.foldr (fun c acc => match c.stage with
      | none => acc
      | some s => pushStage s acc) (stagesOf b) := by
  simp [stagesOf, List.foldr_append]

theorem stagesOf_cons_none (c : Call) (l : List Call) (h : c.stage = none) :
    stagesOf (c :: l) = stagesOf l := by
  simp [stagesOf, h]

theorem stagesOf_cons_some (c : Call) (l : List Call) (s : Stage) (h : c.stage = some s) :
    stagesOf (c :: l) = pushStage s (stagesOf l) := by
  simp [stagesOf, h]

/-- Calls that tell no stage add nothing to the stages. -/
theorem stagesOf_append_none (a b : List Call) (h : ∀ c ∈ a, c.stage = none) :
    stagesOf (a ++ b) = stagesOf b := by
  induction a with
  | nil => rfl
  | cons c cs ih =>
    rw [List.cons_append, stagesOf_cons_none _ _ (h c (by simp))]
    exact ih (fun x hx => h x (by simp [hx]))

/-- Calls of one stage, with calls that tell none among them, add that stage at most. -/
theorem stagesOf_append_within (s : Stage) (a b : List Call)
    (h : ∀ c ∈ a, c.stage = none ∨ c.stage = some s) :
    stagesOf (a ++ b) = stagesOf b ∨ stagesOf (a ++ b) = pushStage s (stagesOf b) := by
  induction a with
  | nil => exact Or.inl rfl
  | cons c cs ih =>
    have ih2 := ih (fun x hx => h x (by simp [hx]))
    rw [List.cons_append]
    rcases h c (by simp) with hc | hc
    · rw [stagesOf_cons_none _ _ hc]
      exact ih2
    · rw [stagesOf_cons_some _ _ s hc]
      rcases ih2 with h2 | h2
      · exact Or.inr (by rw [h2])
      · exact Or.inr (by rw [h2, pushStage_idem])

/-- Calls of one stage that start with a call of that stage add the stage once. -/
theorem stagesOf_append_stage (s : Stage) (c : Call) (a b : List Call)
    (hc : c.stage = some s) (h : ∀ x ∈ a, x.stage = none ∨ x.stage = some s) :
    stagesOf (c :: a ++ b) = pushStage s (stagesOf b) := by
  rw [List.cons_append, stagesOf_cons_some _ _ s hc]
  rcases stagesOf_append_within s a b h with h2 | h2
  · rw [h2]
  · rw [h2, pushStage_idem]

/-- The calls of `copyFilesToWorkingDir` start with `ioutil.TempDir`, and all of them are
calls of the staging or calls that tell no stage. -/
theorem copyFilesToWorkingDir_staging_calls {σ : Type} (w : World σ) (cfg : Config)
    (appBaseDir appBinary appProfile : String) (r : Run σ) :
    ∃ rest, (copyFilesToWorkingDir w cfg appBaseDir appBinary appProfile r).2.calls
        = r.calls ++ .tempDir "" (Filepath.Base appBinary) :: rest
      ∧ ∀ c ∈ rest, c.stage = none ∨ c.stage = some .staging := by
  have key : Run.Extends (fun c => c.stage = none ∨ c.stage = some .staging)
      (r.record (.tempDir "" (Filepath.Base appBinary))
        (w.tempDir "" (Filepath.Base appBinary) r.state).2)
      (copyFilesToWorkingDir w cfg appBaseDir appBinary appProfile r).2 := by
    unfold copyFilesToWorkingDir
    simp only []
    split
    · exact Run.Extends.refl _ _
    · split
      · exact ((Run.Extends.refl _ _).record (Or.inl rfl) _).record (Or.inl rfl) _
      · exact Run.Extends.trans
          (Run.Extends.trans
            (((Run.Extends.refl _ _).record (Or.inl rfl) _).record (Or.inl rfl) _)
            (copyBinary_calls w _ appBinary _ (fun _ _ => Or.inl rfl) (fun _ _ => Or.inr rfl)
              (fun _ _ => Or.inr rfl) (fun _ => Or.inl rfl) _))
          (copyAppFiles_calls w cfg appBaseDir appBinary appProfile _ _
            (fun _ => Or.inr rfl) (fun _ _ => Or.inr rfl) (fun _ => Or.inr rfl)
            (fun _ _ => Or.inr rfl) (fun _ _ => Or.inr rfl) (fun _ _ => Or.inr rfl) _)
  obtain ⟨new, h1, h2⟩ := key
  exact ⟨new, by rw [h1]; simp [Run.record], h2⟩

/-- The calls of `createZipArchive`: the stale archive is deleted and the parent directory
made; the archive is written when the directory could be made, and only then. -/
theorem createZipArchive_shape {σ : Type} (w : World σ) (buildBaseDir destArchiveFile : String)
    (r : Run σ) :
    ((createZipArchive w buildBaseDir destArchiveFile r).2.calls
        = r.calls ++ [.deleteFiles destArchiveFile,
            .mkDirAll (Filepath.Dir destArchiveFile) permRWXRXRX]
      ∧ (createZipArchive w buildBaseDir destArchiveFile r).1 ≠ none)
    ∨ (createZipArchive w buildBaseDir destArchiveFile r).2.calls
        = r.calls ++ [.deleteFiles destArchiveFile,
            .mkDirAll (Filepath.Dir destArchiveFile) permRWXRXRX,
            .zip destArchiveFile buildBaseDir] := by
  unfold createZipArchive
  simp only []
  split
  · exact Or.inl ⟨by simp [Run.record], by simp⟩
  · exact Or.inr (by simp [Run.record])

theorem archiveSingleBinary_eq {σ : Type} (w : World σ) (app : App)
    (outputFile appBinary : String) (r : Run σ) :
    archiveSingleBinary w app outputFile appBinary r
      = archiveStagingRoot w app outputFile appBinary appBinary r := rfl

/-- The calls of the naming and archive steps: when they end well the archive has been
written, and nothing but the archive is written in any case. -/
theorem archiveStagingRoot_stages {σ : Type} (w : World σ) (app : App)
    (outputFile appBinary buildBaseDir : String) (r : Run σ) :
    ∃ tail, (archiveStagingRoot w app outputFile appBinary buildBaseDir r).2.calls
        = r.calls ++ tail
      ∧ (stagesOf tail = [] ∨ stagesOf tail = [.archiving])
      ∧ ((archiveStagingRoot w app outputFile appBinary buildBaseDir r).1 = .done () →
          stagesOf tail = [.archiving]) := by
  unfold archiveStagingRoot
  split
  · rename_i err _
    exact ⟨[.logFatal err], by simp [logFatal, Run.log], Or.inl rfl, by simp [logFatal]⟩
  · rename_i dest _
    have hshape := createZipArchive_shape w buildBaseDir dest r
    split
    · rename_i err r1 heq
      rw [heq] at hshape
      simp only at hshape
      rcases hshape with ⟨h, _⟩ | h
      · exact ⟨[.deleteFiles dest, .mkDirAll (Filepath.Dir dest) permRWXRXRX, .logFatal err],
          by simp [logFatal, Run.log, h], Or.inl rfl, by simp [logFatal]⟩
      · exact ⟨[.deleteFiles dest, .mkDirAll (Filepath.Dir dest) permRWXRXRX,
            .zip dest buildBaseDir, .logFatal err],
          by simp [logFatal, Run.log, h], Or.inr rfl, by simp [logFatal]⟩
    · rename_i r1 heq
      rw [heq] at hshape
      simp only at hshape
      rcases hshape with ⟨_, h⟩ | h
      · exact absurd rfl h
      · exact ⟨[.deleteFiles dest, .mkDirAll (Filepath.Dir dest) permRWXRXRX,
            .zip dest buildBaseDir,
            .infof "Build successful for '%s' [%s]" [app.name, app.importPath],
            .infof "Application artifact is here: %s\n" [dest]],
          by simp [Run.log, h], Or.inr rfl, fun _ => rfl⟩

/-! ## Multi-file build -/

theorem buildBinary_compile_error {σ : Type} (t : Tool σ) (w : World σ) (c : Context)
    (cfg : Config) (app : App) (r : Run σ) (err : String)
    (h : (w.compileApp ⟨"BuildCmd", true, false⟩
      (w.cleanupAutoGenVFSFiles app.baseDir r.state)).1 = .error err) :
    buildBinary t w c cfg app r
      = (.fatal,
          ⟨(w.compileApp ⟨"BuildCmd", true, false⟩
              (w.cleanupAutoGenVFSFiles app.baseDir r.state)).2,
            r.calls ++ [.cleanupAutoGenVFSFiles app.baseDir,
              .compileApp ⟨"BuildCmd", true, false⟩, .logFatal err]⟩) := by
  simp [buildBinary, Run.record, Run.log, logFatal, h]

theorem buildBinary_compiled {σ : Type} (t : Tool σ) (w : World σ) (c : Context)
    (cfg : Config) (app : App) (r : Run σ) (appBinary : String)
    (h : (w.compileApp ⟨"BuildCmd", true, false⟩
      (w.cleanupAutoGenVFSFiles app.baseDir r.state)).1 = .ok appBinary) :
    buildBinary t w c cfg app r
      = match copyFilesToWorkingDir w cfg app.baseDir appBinary
          (t.firstNonEmpty [c.value "e", c.value "envprofile", "prod"])
          ⟨(w.compileApp ⟨"BuildCmd", true, false⟩
              (w.cleanupAutoGenVFSFiles app.baseDir r.state)).2,
            r.calls ++ [.cleanupAutoGenVFSFiles app.baseDir,
              .compileApp ⟨"BuildCmd", true, false⟩]⟩ with
        | ((_, some err), r3) => logFatal err r3
        | ((buildBaseDir, none), r3) =>
          archiveStagingRoot w app (t.firstNonEmpty [c.value "o", c.value "output"]) appBinary
            buildBaseDir r3 := by
  simp [buildBinary, Run.record, h]

theorem buildBinary_staging_error {σ : Type} (t : Tool σ) (w : World σ) (c : Context)
    (cfg : Config) (app : App) (r r3 : Run σ) (appBinary root err : String)
    (h : (w.compileApp ⟨"BuildCmd", true, false⟩
      (w.cleanupAutoGenVFSFiles app.baseDir r.state)).1 = .ok appBinary)
    (hs : copyFilesToWorkingDir w cfg app.baseDir appBinary
        (t.firstNonEmpty [c.value "e", c.value "envprofile", "prod"])
        ⟨(w.compileApp ⟨"BuildCmd", true, false⟩
            (w.cleanupAutoGenVFSFiles app.baseDir r.state)).2,
          r.calls ++ [.cleanupAutoGenVFSFiles app.baseDir,
            .compileApp ⟨"BuildCmd", true, false⟩]⟩ = ((root, some err), r3)) :
    buildBinary t w c cfg app r = (.fatal, ⟨r3.state, r3.calls ++ [.logFatal err]⟩) := by
  rw [buildBinary_compiled t w c cfg app r appBinary h, hs]
  rfl

theorem buildBinary_staged {σ : Type} (t : Tool σ) (w : World σ) (c : Context)
    (cfg : Config) (app : App) (r r3 : Run σ) (appBinary root : String)
    (h : (w.compileApp ⟨"BuildCmd", true, false⟩
      (w.cleanupAutoGenVFSFiles app.baseDir r.state)).1 = .ok appBinary)
    (hs : copyFilesToWorkingDir w cfg app.baseDir appBinary
        (t.firstNonEmpty [c.value "e", c.value "envprofile", "prod"])
        ⟨(w.compileApp ⟨"BuildCmd", true, false⟩
            (w.cleanupAutoGenVFSFiles app.baseDir r.state)).2,
          r.calls ++ [.cleanupAutoGenVFSFiles app.baseDir,
            .compileApp ⟨"BuildCmd", true, false⟩]⟩ = ((root, none), r3)) :
    buildBinary t w c cfg app r
      = archiveStagingRoot w app (t.firstNonEmpty [c.value "o", c.value "output"]) appBinary
          root r3 := by
  rw [buildBinary_compiled t w c cfg app r appBinary h, hs]

theorem archiveStagingRoot_name_error {σ : Type} (w : World σ) (app : App)
    (outputFile appBinary buildBaseDir : String) (r : Run σ) (err : String)
    (h : createZipArchiveName w.stripExt (w.getwd r.state) outputFile
      (w.appVersion app.baseDir r.state) w.goos w.goarch app.baseDir appBinary = .error err) :
    archiveStagingRoot w app outputFile appBinary buildBaseDir r
      = (.fatal, ⟨r.state, r.calls ++ [.logFatal err]⟩) := by
  simp only [archiveStagingRoot, h]
  rfl

theorem archiveStagingRoot_archive_error {σ : Type} (w : World σ) (app : App)
    (outputFile appBinary buildBaseDir : String) (r r1 : Run σ) (dest err : String)
    (h : createZipArchiveName w.stripExt (w.getwd r.state) outputFile
      (w.appVersion app.baseDir r.state) w.goos w.goarch app.baseDir appBinary = .ok dest)
    (ha : createZipArchive w buildBaseDir dest r = (some err, r1)) :
    archiveStagingRoot w app outputFile appBinary buildBaseDir r
      = (.fatal, ⟨r1.state, r1.calls ++ [.logFatal err]⟩) := by
  simp only [archiveStagingRoot, h, ha]
  rfl

theorem archiveStagingRoot_done {σ : Type} (w : World σ) (app : App)
    (outputFile appBinary buildBaseDir : String) (r r1 : Run σ) (dest : String)
    (h : createZipArchiveName w.stripExt (w.getwd r.state) outputFile
      (w.appVersion app.baseDir r.state) w.goos w.goarch app.baseDir appBinary = .ok dest)
    (ha : createZipArchive w buildBaseDir dest r = (none, r1)) :
    archiveStagingRoot w app outputFile appBinary buildBaseDir r
      = (.done (),
          ⟨r1.state, r1.calls ++ [.infof "Build successful for '%s' [%s]"
              [app.name, app.importPath],
            .infof "Application artifact is here: %s\n" [dest]]⟩) := by
  simp only [archiveStagingRoot, h, ha, Run.log, List.append_assoc, List.singleton_append]

/-- The stages of `buildBinary`: the compile step, the staging, the writing of the
archive, in this order and as far as the build gets; all three when it ends well. -/
theorem buildBinary_stages {σ : Type} (t : Tool σ) (w : World σ) (c : Context)
    (cfg : Config) (app : App) (r : Run σ) :
    ∃ new, (buildBinary t w c cfg app r).2.calls = r.calls ++ new
      ∧ stagesOf new <+: [.compiling, .staging, .archiving]
      ∧ ((buildBinary t w c cfg app r).1 = .done () →
          stagesOf new = [.compiling, .staging, .archiving]) := by
  cases hc : (w.compileApp ⟨"BuildCmd", true, false⟩
      (w.cleanupAutoGenVFSFiles app.baseDir r.state)).1 with
  | error err =>
    rw [buildBinary_compile_error t w c cfg app r err hc]
    exact ⟨_, rfl, ⟨[.staging, .archiving], rfl⟩, by simp⟩
  | ok appBinary =>
    obtain ⟨rest, hrest, hstage⟩ := copyFilesToWorkingDir_staging_calls w cfg app.baseDir
      appBinary (t.firstNonEmpty [c.value "e", c.value "envprofile", "prod"])
      ⟨(w.compileApp ⟨"BuildCmd", true, false⟩
          (w.cleanupAutoGenVFSFiles app.baseDir r.state)).2,
        r.calls ++ [.cleanupAutoGenVFSFiles app.baseDir,
          .compileApp ⟨"BuildCmd", true, false⟩]⟩
    cases hs : copyFilesToWorkingDir w cfg app.baseDir appBinary
        (t.firstNonEmpty [c.value "e", c.value "envprofile", "prod"])
        ⟨(w.compileApp ⟨"BuildCmd", true, false⟩
            (w.cleanupAutoGenVFSFiles app.baseDir r.state)).2,
          r.calls ++ [.cleanupAutoGenVFSFiles app.baseDir,
            .compileApp ⟨"BuildCmd", true, false⟩]⟩ with
    | mk res r3 =>
      obtain ⟨root, e⟩ := res
      rw [hs] at hrest
      simp only at hrest
      have hsplit : ∀ tail : List Call,
          stagesOf ([.cleanupAutoGenVFSFiles app.baseDir,
            .compileApp ⟨"BuildCmd", true, false⟩]
            ++ (.tempDir "" (Filepath.Base appBinary) :: rest ++ tail))
          = pushStage .compiling (pushStage .staging (stagesOf tail)) := by
        intro tail
        simp only [List.cons_append, List.nil_append]
        rw [stagesOf_cons_none (.cleanupAutoGenVFSFiles app.baseDir) _ rfl,
          stagesOf_cons_some (.compileApp ⟨"BuildCmd", true, false⟩) _ .compiling rfl,
          ← List.cons_append,
          stagesOf_append_stage .staging (.tempDir "" (Filepath.Base appBinary)) rest tail rfl
            hstage]
      cases e with
      | some err =>
        rw [buildBinary_staging_error t w c cfg app r r3 appBinary root err hc hs]
        refine ⟨[.cleanupAutoGenVFSFiles app.baseDir, .compileApp ⟨"BuildCmd", true, false⟩]
          ++ (.tempDir "" (Filepath.Base appBinary) :: rest ++ [.logFatal err]), ?_, ?_, ?_⟩
        · simp [hrest]
        · rw [hsplit]
          exact ⟨[.archiving], rfl⟩
        · simp
      | none =>
        rw [buildBinary_staged t w c cfg app r r3 appBinary root hc hs]
        obtain ⟨tail, htail, hst, hdone⟩ := archiveStagingRoot_stages w app
          (t.firstNonEmpty [c.value "o", c.value "output"]) appBinary root r3
        refine ⟨[.cleanupAutoGenVFSFiles app.baseDir, .compileApp ⟨"BuildCmd", true, false⟩]
          ++ (.tempDir "" (Filepath.Base appBinary) :: rest ++ tail), ?_, ?_, ?_⟩
        · rw [htail, hrest]
          simp
        · rw [hsplit]
          rcases hst with h0 | h0
          · rw [h0]
            exact ⟨[.archiving], rfl⟩
          · rw [h0]
            exact ⟨[], rfl⟩
        · intro hd
          rw [hsplit, hdone hd]
          rfl

/-! ## Single binary build, stage by stage -/

theorem buildSingleBinary_embedded {σ : Type} (w : World σ) (cfg : Config)
    (app : App) (outputFile : String) (r r2 : Run σ)
    (h : (w.processMount app.baseDir "/app" app.baseDir (cfg.stringList "build.excludes").1
      (cfg.stringList "vfs.no_gzip").1 r.state).1 = none)
    (hloop : customMounts w cfg app.baseDir (cfg.stringList "build.excludes").1
      (cfg.stringList "vfs.no_gzip").1 (cfg.keysByPath "vfs.mount")
      ⟨(w.processMount app.baseDir "/app" app.baseDir (cfg.stringList "build.excludes").1
          (cfg.stringList "vfs.no_gzip").1 r.state).2,
        r.calls ++ [.infof "Embed starts for '%s' [%s]" [app.name, app.importPath],
          .processMount app.baseDir "/app" app.baseDir (cfg.stringList "build.excludes").1
            (cfg.stringList "vfs.no_gzip").1]⟩ = (.done (), r2)) :
    buildSingleBinary w cfg app outputFile r
      = match (w.compileApp ⟨"BuildCmd", true, true⟩ r2.state).1 with
        | .error err =>
          (.fatal,
            ⟨(w.compileApp ⟨"BuildCmd", true, true⟩ r2.state).2,
              r2.calls ++ [.infof "Embed successful for '%s' [%s]" [app.name, app.importPath],
                .compileApp ⟨"BuildCmd", true, true⟩, .logFatal err]⟩)
        | .ok appBinary =>
          match archiveStagingRoot w app outputFile appBinary appBinary
              ⟨(w.compileApp ⟨"BuildCmd", true, true⟩ r2.state).2,
                r2.calls ++ [.infof "Embed successful for '%s' [%s]"
                    [app.name, app.importPath],
                  .compileApp ⟨"BuildCmd", true, true⟩]⟩ with
          | (.fatal, r5) => (.fatal, r5)
          | (.done u, r5) =>
            (.done u,
              ⟨w.cleanupAutoGenVFSFiles app.baseDir r5.state,
                r5.calls ++ [.cleanupAutoGenVFSFiles app.baseDir]⟩) := by
  simp only [buildSingleBinary, buildSingleBinaryBody, Run.log, Run.record, h,
    List.append_assoc, List.singleton_append]
  have hl : [Call.infof "Embed starts for '%s' [%s]" [app.name, app.importPath]] ++
      [Call.processMount app.baseDir "/app" app.baseDir (cfg.stringList "build.excludes").1
        (cfg.stringList "vfs.no_gzip").1]
      = [Call.infof "Embed starts for '%s' [%s]" [app.name, app.importPath],
        Call.processMount app.baseDir "/app" app.baseDir (cfg.stringList "build.excludes").1
          (cfg.stringList "vfs.no_gzip").1] := rfl
  simp only [hl, hloop]
  cases hc : (w.compileApp ⟨"BuildCmd", true, true⟩ r2.state).1 with
  | error err => simp [logFatal, Run.log]
  | ok appBinary =>
    simp only [archiveSingleBinary_eq]

theorem stagesOf_append_none_right (a b : List Call) (h : ∀ c ∈ b, c.stage = none) :
    stagesOf (a ++ b) = stagesOf a := by
  have hb : stagesOf b = [] := by
    have := stagesOf_append_none b [] h
    simpa using this
  rw [stagesOf_append, hb]
  rfl

/-- The stages of `buildSingleBinary`: the embedding, the compile step, the writing of the
archive, in this order and as far as the build gets; all three when it ends well. -/
theorem buildSingleBinary_stages {σ : Type} (w : World σ) (cfg : Config) (app : App)
    (outputFile : String) (r : Run σ) :
    ∃ new, (buildSingleBinary w cfg app outputFile r).2.calls = r.calls ++ new
      ∧ stagesOf new <+: [.embedding, .compiling, .archiving]
      ∧ ((buildSingleBinary w cfg app outputFile r).1 = .done () →
          stagesOf new = [.embedding, .compiling, .archiving]) := by
  cases hd : (w.processMount app.baseDir "/app" app.baseDir
      (cfg.stringList "build.excludes").1 (cfg.stringList "vfs.no_gzip").1 r.state).1 with
  | some err =>
    rw [buildSingleBinary_default_mount_fatal w cfg app outputFile r err hd]
    exact ⟨_, rfl, ⟨[.compiling, .archiving], rfl⟩, by simp⟩
  | none =>
    obtain ⟨cm, hcm, hstage⟩ := customMounts_calls w cfg app.baseDir
      (cfg.stringList "build.excludes").1 (cfg.stringList "vfs.no_gzip").1
      (fun c => c.stage = none ∨ c.stage = some .embedding)
      (fun _ _ => Or.inl rfl) (fun _ _ => Or.inl rfl) (fun _ => Or.inl rfl)
      (fun _ _ _ => Or.inr rfl) (cfg.keysByPath "vfs.mount")
      ⟨(w.processMount app.baseDir "/app" app.baseDir (cfg.stringList "build.excludes").1
          (cfg.stringList "vfs.no_gzip").1 r.state).2,
        r.calls ++ [.infof "Embed starts for '%s' [%s]" [app.name, app.importPath],
          .processMount app.baseDir "/app" app.baseDir (cfg.stringList "build.excludes").1
            (cfg.stringList "vfs.no_gzip").1]⟩
    have hsplit : ∀ tail : List Call,
        stagesOf ([.infof "Embed starts for '%s' [%s]" [app.name, app.importPath],
          .processMount app.baseDir "/app" app.baseDir (cfg.stringList "build.excludes").1
            (cfg.stringList "vfs.no_gzip").1] ++ cm ++ tail)
        = pushStage .embedding (stagesOf tail) := by
      intro tail
      simp only [List.cons_append, List.nil_append]
      rw [stagesOf_cons_none (.infof "Embed starts for '%s' [%s]" [app.name, app.importPath])
          _ rfl, ← List.cons_append,
        stagesOf_append_stage .embedding
          (.processMount app.baseDir "/app" app.baseDir (cfg.stringList "build.excludes").1
            (cfg.stringList "vfs.no_gzip").1) cm tail rfl hstage]
    cases hl : customMounts w cfg app.baseDir (cfg.stringList "build.excludes").1
        (cfg.stringList "vfs.no_gzip").1 (cfg.keysByPath "vfs.mount")
        ⟨(w.processMount app.baseDir "/app" app.baseDir (cfg.stringList "build.excludes").1
            (cfg.stringList "vfs.no_gzip").1 r.state).2,
          r.calls ++ [.infof "Embed starts for '%s' [%s]" [app.name, app.importPath],
            .processMount app.baseDir "/app" app.baseDir (cfg.stringList "build.excludes").1
              (cfg.stringList "vfs.no_gzip").1]⟩ with
    | mk o r2 =>
      rw [hl] at hcm
      simp only at hcm
      cases o with
      | fatal =>
        rw [buildSingleBinary_custom_mounts_fatal w cfg app outputFile r r2 hd hl]
        refine ⟨[.infof "Embed starts for '%s' [%s]" [app.name, app.importPath],
          .processMount app.baseDir "/app" app.baseDir (cfg.stringList "build.excludes").1
            (cfg.stringList "vfs.no_gzip").1] ++ cm ++ [], ?_, ?_, ?_⟩
        · simp [hcm]
        · rw [hsplit]
          exact ⟨[.compiling, .archiving], rfl⟩
        · simp
      | done u =>
        cases hc : (w.compileApp ⟨"BuildCmd", true, true⟩ r2.state).1 with
        | error err =>
          rw [buildSingleBinary_embedded w cfg app outputFile r r2 hd hl, hc]
          refine ⟨[.infof "Embed starts for '%s' [%s]" [app.name, app.importPath],
            .processMount app.baseDir "/app" app.baseDir (cfg.stringList "build.excludes").1
              (cfg.stringList "vfs.no_gzip").1] ++ cm
            ++ [.infof "Embed successful for '%s' [%s]" [app.name, app.importPath],
              .compileApp ⟨"BuildCmd", true, true⟩, .logFatal err], ?_, ?_, ?_⟩
          · simp [hcm]
          · rw [hsplit]
            exact ⟨[.archiving], rfl⟩
          · simp
        | ok appBinary =>
          obtain ⟨tail, htail, hst, hdone⟩ := archiveStagingRoot_stages w app outputFile
            appBinary appBinary
            ⟨(w.compileApp ⟨"BuildCmd", true, true⟩ r2.state).2,
              r2.calls ++ [.infof "Embed successful for '%s' [%s]"
                  [app.name, app.importPath],
                .compileApp ⟨"BuildCmd", true, true⟩]⟩
          have hmid : ∀ post : List Call, (∀ x ∈ post, x.stage = none) →
              stagesOf ([.infof "Embed successful for '%s' [%s]" [app.name, app.importPath],
                .compileApp ⟨"BuildCmd", true, true⟩] ++ tail ++ post)
              = pushStage .compiling (stagesOf tail) := by
            intro post hpost
            rw [stagesOf_append_none_right _ post hpost]
            simp only [List.cons_append, List.nil_append]
            rw [stagesOf_cons_none
                (.infof "Embed successful for '%s' [%s]" [app.name, app.importPath]) _ rfl,
              stagesOf_cons_some (.compileApp ⟨"BuildCmd", true, true⟩) _ .compiling rfl]
          cases ha : archiveStagingRoot w app outputFile appBinary appBinary
              ⟨(w.compileApp ⟨"BuildCmd", true, true⟩ r2.state).2,
                r2.calls ++ [.infof "Embed successful for '%s' [%s]"
                    [app.name, app.importPath],
                  .compileApp ⟨"BuildCmd", true, true⟩]⟩ with
          | mk o5 r5 =>
            rw [ha] at htail hdone
            simp only at htail hdone
            rw [buildSingleBinary_embedded w cfg app outputFile r r2 hd hl, hc]
            simp only []
            rw [ha]
            cases o5 with
            | fatal =>
              refine ⟨[.infof "Embed starts for '%s' [%s]" [app.name, app.importPath],
                .processMount app.baseDir "/app" app.baseDir
                  (cfg.stringList "build.excludes").1 (cfg.stringList "vfs.no_gzip").1] ++ cm
                ++ ([.infof "Embed successful for '%s' [%s]" [app.name, app.importPath],
                  .compileApp ⟨"BuildCmd", true, true⟩] ++ tail ++ []), ?_, ?_, ?_⟩
              · simp [htail, hcm]
              · rw [hsplit, hmid [] (by simp)]
                rcases hst with h0 | h0
                · rw [h0]
                  exact ⟨[.archiving], rfl⟩
                · rw [h0]
                  exact ⟨[], rfl⟩
              · simp
            | done u5 =>
              refine ⟨[.infof "Embed starts for '%s' [%s]" [app.name, app.importPath],
                .processMount app.baseDir "/app" app.baseDir
                  (cfg.stringList "build.excludes").1 (cfg.stringList "vfs.no_gzip").1] ++ cm
                ++ ([.infof "Embed successful for '%s' [%s]" [app.name, app.importPath],
                  .compileApp ⟨"BuildCmd", true, true⟩] ++ tail
                  ++ [.cleanupAutoGenVFSFiles app.baseDir]), ?_, ?_, ?_⟩
              · simp [htail, hcm]
              · rw [hsplit, hmid _ (by simp [Call.stage]), hdone rfl]
                exact ⟨[], rfl⟩
              · intro _
                rw [hsplit, hmid _ (by simp [Call.stage]), hdone rfl]
                rfl

/-! ## The two modes of `buildAction` -/

theorem buildAction_init_error {σ : Type} (t : Tool σ) (w : World σ) (c : Context)
    (r : Run σ) (err : String)
    (h : (t.aahInit (t.appImportPath c) r.state).1 = some err) :
    buildAction t w c r
      = (.fatal,
          ⟨(t.aahInit (t.appImportPath c) r.state).2,
            r.calls ++ [.aahInit (t.appImportPath c), .logFatal err]⟩) := by
  simp [buildAction, Run.record, Run.log, logFatal, h]

theorem buildAction_single {σ : Type} (t : Tool σ) (w : World σ) (c : Context)
    (r : Run σ) (h : (t.aahInit (t.appImportPath c) r.state).1 = none)
    (hflag : (c.flag "s" || c.flag "single") = true) :
    buildAction t w c r
      = match buildSingleBinary w
          (t.aahProjectCfg (t.app (buildStart t c r).state).baseDir (buildStart t c r).state)
          (t.app (buildStart t c r).state)
          (t.firstNonEmpty [c.value "o", c.value "output"]) (buildStart t c r) with
        | (.fatal, r3) => (.fatal, r3)
        | (.done _, r3) => (.done none, r3) := by
  simp only [buildAction, h, hflag, if_true, Run.record, Run.log, List.append_assoc,
    List.singleton_append, buildStart]
  rfl

theorem buildAction_multi {σ : Type} (t : Tool σ) (w : World σ) (c : Context)
    (r : Run σ) (h : (t.aahInit (t.appImportPath c) r.state).1 = none)
    (hflag : (c.flag "s" || c.flag "single") = false) :
    buildAction t w c r
      = match buildBinary t w c
          (t.aahProjectCfg (t.app (buildStart t c r).state).baseDir (buildStart t c r).state)
          (t.app (buildStart t c r).state) (buildStart t c r) with
        | (.fatal, r3) => (.fatal, r3)
        | (.done _, r3) => (.done none, r3) := by
  simp only [buildAction, h, hflag, Run.record, Run.log, List.append_assoc,
    List.singleton_append, buildStart]
  rfl

/-- C11: `buildAction` runs one of two stage sequences, chosen by the single flag
(`c.Bool("s") || c.Bool("single")`), once `aah.Init` has succeeded (when it fails,
`logFatal` ends the process before any stage). Without the flag it is `buildBinary`:
the application is compiled with the package flag and without the embed flag, the
staging root is assembled by `copyFilesToWorkingDir`, the archive is named (in the state
the staging left) and the staging root is archived. With the flag it is
`buildSingleBinary`: the default mount `/app` is embedded first, then the custom mounts,
the application is compiled with the package and embed flags, the archive is named and
the compiled binary itself is archived; no call of the staging is ever made in this mode.
In both modes an error that a stage returns ends the process by `logFatal` in the run
where the stage failed, so that no later stage runs, and the stages that the calls of a
build go through are an initial part of the sequence of its mode, all of it when the build
ends well. -/
theorem buildAction_stage_sequences {σ : Type} (t : Tool σ) (w : World σ) (c : Context)
    (r : Run σ) :
    (∀ err, (t.aahInit (t.appImportPath c) r.state).1 = some err →
      buildAction t w c r
        = (.fatal,
            ⟨(t.aahInit (t.appImportPath c) r.state).2,
              r.calls ++ [.aahInit (t.appImportPath c), .logFatal err]⟩))
    ∧ ((t.aahInit (t.appImportPath c) r.state).1 = none →
      (c.flag "s" || c.flag "single") = false →
      buildAction t w c r
        = match buildBinary t w c
            (t.aahProjectCfg (t.app (buildStart t c r).state).baseDir (buildStart t c r).state)
            (t.app (buildStart t c r).state) (buildStart t c r) with
          | (.fatal, r3) => (.fatal, r3)
          | (.done _, r3) => (.done none, r3))
    ∧ ((t.aahInit (t.appImportPath c) r.state).1 = none →
      (c.flag "s" || c.flag "single") = true →
      buildAction t w c r
        = match buildSingleBinary w
            (t.aahProjectCfg (t.app (buildStart t c r).state).baseDir (buildStart t c r).state)
            (t.app (buildStart t c r).state)
            (t.firstNonEmpty [c.value "o", c.value "output"]) (buildStart t c r) with
          | (.fatal, r3) => (.fatal, r3)
          | (.done _, r3) => (.done none, r3))
    ∧ (∀ (cfg : Config) (app : App) (r0 : Run σ),
      (compiledRun w app r0).calls
        = r0.calls ++ [.cleanupAutoGenVFSFiles app.baseDir,
            .compileApp ⟨"BuildCmd", true, false⟩]
      ∧ (∀ err,
        (w.compileApp ⟨"BuildCmd", true, false⟩
          (w.cleanupAutoGenVFSFiles app.baseDir r0.state)).1 = .error err →
        buildBinary t w c cfg app r0 = (.fatal, (compiledRun w app r0).log (.logFatal err)))
      ∧ (∀ appBinary root r3,
        (w.compileApp ⟨"BuildCmd", true, false⟩
          (w.cleanupAutoGenVFSFiles app.baseDir r0.state)).1 = .ok appBinary →
        (∀ err,
          copyFilesToWorkingDir w cfg app.baseDir appBinary
            (t.firstNonEmpty [c.value "e", c.value "envprofile", "prod"])
            (compiledRun w app r0) = ((root, some err), r3) →
          buildBinary t w c cfg app r0 = (.fatal, r3.log (.logFatal err)))
        ∧ (copyFilesToWorkingDir w cfg app.baseDir appBinary
            (t.firstNonEmpty [c.value "e", c.value "envprofile", "prod"])
            (compiledRun w app r0) = ((root, none), r3) →
          (∀ err,
            createZipArchiveName w.stripExt (w.getwd r3.state)
              (t.firstNonEmpty [c.value "o", c.value "output"])
              (w.appVersion app.baseDir r3.state) w.goos w.goarch app.baseDir appBinary
              = .error err →
            buildBinary t w c cfg app r0 = (.fatal, r3.log (.logFatal err)))
          ∧ (∀ dest r4,
            createZipArchiveName w.stripExt (w.getwd r3.state)
              (t.firstNonEmpty [c.value "o", c.value "output"])
              (w.appVersion app.baseDir r3.state) w.goos w.goarch app.baseDir appBinary
              = .ok dest →
            (∀ err, createZipArchive w root dest r3 = (some err, r4) →
              buildBinary t w c cfg app r0 = (.fatal, r4.log (.logFatal err)))
            ∧ (createZipArchive w root dest r3 = (none, r4) →
              buildBinary t w c cfg app r0
                = (.done (),
                    (r4.log (.infof "Build successful for '%s' [%s]"
                      [app.name, app.importPath])).log
                      (.infof "Application artifact is here: %s\n" [dest]))))))
      ∧ (∃ new, (buildBinary t w c cfg app r0).2.calls = r0.calls ++ new
        ∧ stagesOf new <+: [.compiling, .staging, .archiving]
        ∧ ((buildBinary t w c cfg app r0).1 = .done () →
            stagesOf new = [.compiling, .staging, .archiving])))
    ∧ (∀ (cfg : Config) (app : App) (outputFile : String) (r0 : Run σ),
      (mountedRun w cfg app r0).calls
        = r0.calls ++ [.infof "Embed starts for '%s' [%s]" [app.name, app.importPath],
            .processMount app.baseDir "/app" app.baseDir (cfg.stringList "build.excludes").1
              (cfg.stringList "vfs.no_gzip").1]
      ∧ (∀ err,
        (w.processMount app.baseDir "/app" app.baseDir (cfg.stringList "build.excludes").1
          (cfg.stringList "vfs.no_gzip").1 r0.state).1 = some err →
        buildSingleBinary w cfg app outputFile r0
          = (.fatal, (mountedRun w cfg app r0).log (.logFatal err)))
      ∧ (∀ r2,
        (w.processMount app.baseDir "/app" app.baseDir (cfg.stringList "build.excludes").1
          (cfg.stringList "vfs.no_gzip").1 r0.state).1 = none →
        (customMounts w cfg app.baseDir (cfg.stringList "build.excludes").1
            (cfg.stringList "vfs.no_gzip").1 (cfg.keysByPath "vfs.mount")
            (mountedRun w cfg app r0) = (.fatal, r2) →
          buildSingleBinary w cfg app outputFile r0 = (.fatal, r2))
        ∧ (customMounts w cfg app.baseDir (cfg.stringList "build.excludes").1
            (cfg.stringList "vfs.no_gzip").1 (cfg.keysByPath "vfs.mount")
            (mountedRun w cfg app r0) = (.done (), r2) →
          (embeddedRun w app r2).calls
            = r2.calls ++ [.infof "Embed successful for '%s' [%s]"
                [app.name, app.importPath], .compileApp ⟨"BuildCmd", true, true⟩]
          ∧ (∀ err, (w.compileApp ⟨"BuildCmd", true, true⟩ r2.state).1 = .error err →
            buildSingleBinary w cfg app outputFile r0
              = (.fatal, (embeddedRun w app r2).log (.logFatal err)))
          ∧ (∀ appBinary,
            (w.compileApp ⟨"BuildCmd", true, true⟩ r2.state).1 = .ok appBinary →
            (∀ err,
              createZipArchiveName w.stripExt (w.getwd (embeddedRun w app r2).state)
                outputFile (w.appVersion app.baseDir (embeddedRun w app r2).state) w.goos
                w.goarch app.baseDir appBinary = .error err →
              buildSingleBinary w cfg app outputFile r0
                = (.fatal, (embeddedRun w app r2).log (.logFatal err)))
            ∧ (∀ dest r5,
              createZipArchiveName w.stripExt (w.getwd (embeddedRun w app r2).state)
                outputFile (w.appVersion app.baseDir (embeddedRun w app r2).state) w.goos
                w.goarch app.baseDir appBinary = .ok dest →
              (∀ err,
                createZipArchive w appBinary dest (embeddedRun w app r2) = (some err, r5) →
                buildSingleBinary w cfg app outputFile r0
                  = (.fatal, r5.log (.logFatal err)))
              ∧ (createZipArchive w appBinary dest (embeddedRun w app r2) = (none, r5) →
                buildSingleBinary w cfg app outputFile r0
                  = (.done (),
                      ((r5.log (.infof "Build successful for '%s' [%s]"
                        [app.name, app.importPath])).log
                        (.infof "Application artifact is here: %s\n" [dest])).record
                        (.cleanupAutoGenVFSFiles app.baseDir)
                        (w.cleanupAutoGenVFSFiles app.baseDir r5.state)))))))
      ∧ (∃ new, (buildSingleBinary w cfg app outputFile r0).2.calls = r0.calls ++ new
        ∧ stagesOf new <+: [.embedding, .compiling, .archiving]
        ∧ ((buildSingleBinary w cfg app outputFile r0).1 = .done () →
            stagesOf new = [.embedding, .compiling, .archiving])
        ∧ ∀ x ∈ new, x.stage ≠ some .staging)) := by
  refine ⟨fun err h => buildAction_init_error t w c r err h,
    fun h hflag => buildAction_multi t w c r h hflag,
    fun h hflag => buildAction_single t w c r h hflag, ?_, ?_⟩
  · intro cfg app r0
    refine ⟨rfl, fun err h => (buildBinary_compile_error t w c cfg app r0 err h).trans
      (by simp [compiledRun, Run.log]), ?_, buildBinary_stages t w c cfg app r0⟩
    intro appBinary root r3 hc
    refine ⟨fun err hs => buildBinary_staging_error t w c cfg app r0 r3 appBinary root err hc hs,
      ?_⟩
    intro hs
    rw [buildBinary_staged t w c cfg app r0 r3 appBinary root hc hs]
    refine ⟨fun err hn => archiveStagingRoot_name_error w app _ appBinary root r3 err hn, ?_⟩
    intro dest r4 hn
    exact ⟨fun err ha => archiveStagingRoot_archive_error w app _ appBinary root r3 r4 dest
        err hn ha,
      fun ha => (archiveStagingRoot_done w app _ appBinary root r3 r4 dest hn ha).trans
        (by simp [Run.log])⟩
  · intro cfg app outputFile r0
    refine ⟨rfl, fun err h => (buildSingleBinary_default_mount_fatal w cfg app outputFile r0
      err h).trans (by simp [mountedRun, Run.log]), ?_, ?_⟩
    · intro r2 hd
      refine ⟨fun hl => buildSingleBinary_custom_mounts_fatal w cfg app outputFile r0 r2 hd hl,
        ?_⟩
      intro hl
      refine ⟨rfl, ?_, ?_⟩
      · intro err hc
        rw [buildSingleBinary_embedded w cfg app outputFile r0 r2 hd hl, hc]
        simp [embeddedRun, Run.log]
      · intro appBinary hc
        rw [buildSingleBinary_embedded w cfg app outputFile r0 r2 hd hl, hc]
        refine ⟨?_, ?_⟩
        · intro err hn
          have := archiveStagingRoot_name_error w app outputFile appBinary appBinary
            (embeddedRun w app r2) err hn
          simp only [embeddedRun] at this
          simp only [this]
          simp [embeddedRun, Run.log]
        · intro dest r5 hn
          refine ⟨?_, ?_⟩
          · intro err ha
            have := archiveStagingRoot_archive_error w app outputFile appBinary appBinary
              (embeddedRun w app r2) r5 dest err hn ha
            simp only [embeddedRun] at this
            simp only [this]
            simp [Run.log]
          · intro ha
            have := archiveStagingRoot_done w app outputFile appBinary appBinary
              (embeddedRun w app r2) r5 dest hn ha
            simp only [embeddedRun] at this
            simp only [this]
            simp [Run.log, Run.record]
    · obtain ⟨new, h1, h2, h3⟩ := buildSingleBinary_stages w cfg app outputFile r0
      refine ⟨new, h1, h2, h3, ?_⟩
      intro x hx hst
      have hmem : Stage.staging ∈ stagesOf new := by
        clear h1 h2 h3
        induction new with
        | nil => simp at hx
        | cons y ys ih =>
          rcases List.mem_cons.1 hx with h | h
          · subst h
            rw [stagesOf_cons_some _ _ _ hst]
            cases hs : stagesOf ys with
            | nil => simp [pushStage]
            | cons a as =>
              by_cases ha : Stage.staging = a
              · simp [pushStage, ha]
              · simp [pushStage, ha]
          · have := ih h
            cases hy : y.stage with
            | none => rw [stagesOf_cons_none _ _ hy]; exact this
            | some s =>
              rw [stagesOf_cons_some _ _ s hy]
              cases hs : stagesOf ys with
              | nil => rw [hs] at this; simp at this
              | cons a as =>
                rw [hs] at this
                by_cases ha : s = a
                · simp only [pushStage, ha, if_true]; exact this
                · simp only [pushStage, ha, if_false]; exact List.mem_cons_of_mem _ this
      have hsub := h2.subset hmem
      revert hsub
      decide

theorem quietWorld_renders (data : List (String × String)) :
    (quietWorld.renderTmpl aahBashStartupTemplate data
      = .ok ⟨((tmplSegs aahBashStartupTemplate).map (Seg.exec data)).flatten⟩)
    ∧ (quietWorld.renderTmpl aahCmdStartupTemplate data
      = .ok ⟨((tmplSegs aahCmdStartupTemplate).map (Seg.exec data)).flatten⟩) := by
  have e : quietWorld.renderTmpl = renderTmpl := rfl
  rw [e]
  exact ⟨(templateChecked_spec _ _ _ aahBashStartupTemplate_checked).1 _,
    (templateChecked_spec _ _ _ aahCmdStartupTemplate_checked).1 _⟩

/-- In the world where every call succeeds the multi-file build of the sample application
ends well. -/
theorem buildBinary_quietWorld_done :
    (buildBinary sampleTool quietWorld plainBuild sampleConfig sampleApp Run.start).1
      = .done () := by
  have hc : (quietWorld.compileApp ⟨"BuildCmd", true, false⟩
      (quietWorld.cleanupAutoGenVFSFiles sampleApp.baseDir Run.start.state)).1
      = .ok "/proj/build/bin/myapp" := rfl
  have hres := copyFilesToWorkingDir_succeeds quietWorld sampleConfig sampleApp.baseDir
    "/proj/build/bin/myapp"
    (sampleTool.firstNonEmpty [plainBuild.value "e", plainBuild.value "envprofile", "prod"])
    ⟨(quietWorld.compileApp ⟨"BuildCmd", true, false⟩
        (quietWorld.cleanupAutoGenVFSFiles sampleApp.baseDir Run.start.state)).2,
      Run.start.calls ++ [.cleanupAutoGenVFSFiles sampleApp.baseDir,
        .compileApp ⟨"BuildCmd", true, false⟩]⟩
    "/tmp/myapp042" _ _ rfl (fun _ => rfl) rfl (fun _ _ _ _ => rfl)
    (quietWorld_renders _).1 (quietWorld_renders _).2 (fun _ _ _ => rfl)
  cases hs : copyFilesToWorkingDir quietWorld sampleConfig sampleApp.baseDir
      "/proj/build/bin/myapp"
      (sampleTool.firstNonEmpty [plainBuild.value "e", plainBuild.value "envprofile", "prod"])
      ⟨(quietWorld.compileApp ⟨"BuildCmd", true, false⟩
          (quietWorld.cleanupAutoGenVFSFiles sampleApp.baseDir Run.start.state)).2,
        Run.start.calls ++ [.cleanupAutoGenVFSFiles sampleApp.baseDir,
          .compileApp ⟨"BuildCmd", true, false⟩]⟩ with
  | mk res r3 =>
    rw [hs] at hres
    simp only at hres
    subst hres
    rw [buildBinary_staged sampleTool quietWorld plainBuild sampleConfig sampleApp Run.start r3
      "/proj/build/bin/myapp" _ hc hs]
    rw [archiveStagingRoot_done quietWorld sampleApp
      (sampleTool.firstNonEmpty [plainBuild.value "o", plainBuild.value "output"])
      "/proj/build/bin/myapp"
      (Filepath.Join ["/tmp/myapp042", quietWorld.stripExt
        (Filepath.Base "/proj/build/bin/myapp")]) r3
      (createZipArchive quietWorld
        (Filepath.Join ["/tmp/myapp042", quietWorld.stripExt
          (Filepath.Base "/proj/build/bin/myapp")])
        "/proj/build/myapp-1.0.0-abcdef-linux-amd64.zip" r3).2
      "/proj/build/myapp-1.0.0-abcdef-linux-amd64.zip" rfl (Prod.ext rfl rfl)]

/-- C11 (examples): the sample application. With `--single` the build ends well and its
calls go through the embedding, the compile step and the archive; without the flag, in a
world where every call succeeds, they go through the compile step, the staging and the
archive; and when the application does not compile, the multi-file build ends after the
compile step, before any call of the staging. -/
theorem buildAction_stage_sequences_witness :
    (buildAction sampleTool quietWorld singleBuild Run.start).1 = .done none
    ∧ (∃ new, (buildSingleBinary quietWorld sampleConfig sampleApp "" Run.start).2.calls
        = Run.start.calls ++ new
      ∧ stagesOf new = [.embedding, .compiling, .archiving])
    ∧ (∃ new, (buildBinary sampleTool quietWorld plainBuild sampleConfig sampleApp
          Run.start).2.calls = Run.start.calls ++ new
      ∧ stagesOf new = [.compiling, .staging, .archiving])
    ∧ buildBinary sampleTool noCompileWorld plainBuild sampleConfig sampleApp Run.start
      = (.fatal,
          ⟨(), [.cleanupAutoGenVFSFiles "/proj", .compileApp ⟨"BuildCmd", true, false⟩,
            .logFatal "compile failed"]⟩) := by
  have hsingle := ((buildAction_stage_sequences sampleTool quietWorld singleBuild
    Run.start).2.2.2.2 sampleConfig sampleApp "" Run.start).2.2.2
  have hmulti := ((buildAction_stage_sequences sampleTool quietWorld plainBuild
    Run.start).2.2.2.1 sampleConfig sampleApp Run.start).2.2.2
  have hfail := ((buildAction_stage_sequences sampleTool noCompileWorld plainBuild
    Run.start).2.2.2.1 sampleConfig sampleApp Run.start).2.1 "compile failed" rfl
  refine ⟨rfl, ?_, ?_, hfail⟩
  · obtain ⟨new, h1, _, h3, _⟩ := hsingle
    exact ⟨new, h1, h3 rfl⟩
  · obtain ⟨new, h1, _, h3⟩ := hmulti
    exact ⟨new, h1, h3 buildBinary_quietWorld_done⟩

/-! ## Validation of the excludes -/

/-- The validation of the library fails as soon as one pattern is empty or malformed. -/
theorem Ess.ExcludesValidate_invalid (patterns : List String)
    (h : ∃ p ∈ patterns, p = "" ∨ Filepath.badPattern p = true) :
    ∃ err, Ess.ExcludesValidate patterns = some err := by
  obtain ⟨p, hp, hbad⟩ := h
  unfold Ess.ExcludesValidate
  cases hf : patterns.find? (fun p => p.data.isEmpty || Filepath.badPattern p) with
  | some q => exact ⟨_, rfl⟩
  | none =>
    have := List.find?_eq_none.1 hf p hp
    rcases hbad with h0 | h0
    · subst h0
      simp at this
    · simp [h0] at this

/-- Patterns that `filepath.Match` refuses, and patterns it takes. -/
theorem Filepath.badPattern_examples :
    Filepath.badPattern "[" = true ∧ Filepath.badPattern "a[b" = true
    ∧ Filepath.badPattern "[]" = true ∧ Filepath.badPattern "[^]" = true
    ∧ Filepath.badPattern "[a-]" = true ∧ Filepath.badPattern "[a-b-c]" = true
    ∧ Filepath.badPattern "dir\\" = true
    ∧ Filepath.badPattern "*.bak" = false ∧ Filepath.badPattern "vendor" = false
    ∧ Filepath.badPattern "[a-z]?*" = false ∧ Filepath.badPattern "[^.]*" = false
    ∧ Filepath.badPattern "[\\]]" = false ∧ Filepath.badPattern "a]" = false
    ∧ Filepath.badPattern "" = false := by
  decide

/-- The validation of the library succeeds only when no pattern is empty or malformed. -/
theorem Ess.ExcludesValidate_valid (patterns : List String)
    (h : Ess.ExcludesValidate patterns = none) :
    ∀ p ∈ patterns, p ≠ "" ∧ Filepath.badPattern p = false := by
  intro p hp
  unfold Ess.ExcludesValidate at h
  cases hf : patterns.find? (fun p => p.data.isEmpty || Filepath.badPattern p) with
  | some q => rw [hf] at h; cases h
  | none =>
    have := List.find?_eq_none.1 hf p hp
    simp only [Bool.or_eq_true, not_or, Bool.not_eq_true] at this
    refine ⟨?_, this.2⟩
    intro h0
    subst h0
    simp at this

/-- The calls of `copyAppFiles` once the excludes are validated: the validation, the
listing of the application directories, then only tests and copies of directories, with
the subtree excludes, and the writing of the startup files. -/
theorem copyAppFiles_valid_calls {σ : Type} (w : World σ) (cfg : Config)
    (appBaseDir appBinary appProfile buildBaseDir : String) (r : Run σ)
    (h : w.validate (cfg.stringList "build.excludes").1 = none) :
    ∃ rest, (copyAppFiles w cfg appBaseDir appBinary appProfile buildBaseDir r).2.calls
        = r.calls ++ .validate (cfg.stringList "build.excludes").1
            :: .dirsPath appBaseDir false :: rest
      ∧ ∀ c ∈ rest, c.isValidate = false
          ∧ ∀ d s ex, c = .copyDir d s ex →
              ex = excludeAndCreateSlice (cfg.stringList "build.excludes").1 "app" := by
  have hloop := copyAppDirs_calls w buildBaseDir (cfg.stringList "build.excludes").1
    (excludeAndCreateSlice (cfg.stringList "build.excludes").1 "app")
    (fun c => c.isValidate = false ∧ ∀ d s ex, c = .copyDir d s ex →
      ex = excludeAndCreateSlice (cfg.stringList "build.excludes").1 "app")
    (fun _ => ⟨rfl, by intro _ _ _ h; cases h⟩)
    (fun _ _ => ⟨rfl, by intro _ _ _ h; injection h with _ _ h3; exact h3.symm⟩)
    (w.dirsPath appBaseDir false r.state).1
    ⟨r.state, r.calls ++ [.validate (cfg.stringList "build.excludes").1,
      .dirsPath appBaseDir false]⟩
  cases hc : copyAppDirs w buildBaseDir (cfg.stringList "build.excludes").1
      (excludeAndCreateSlice (cfg.stringList "build.excludes").1 "app")
      (w.dirsPath appBaseDir false r.state).1
      ⟨r.state, r.calls ++ [.validate (cfg.stringList "build.excludes").1,
        .dirsPath appBaseDir false]⟩ with
  | mk res r3 =>
    rw [hc] at hloop
    cases res with
    | some err =>
      rw [copyAppFiles_copy_error w cfg _ _ _ _ r r3 err h hc]
      obtain ⟨new, h1, h2⟩ := hloop
      exact ⟨new, by simpa using h1, h2⟩
    | none =>
      rw [copyAppFiles_copy_ok w cfg _ _ _ _ r r3 h hc]
      obtain ⟨new, h1, h2⟩ := hloop.trans
        (writeStartupFiles_calls w buildBaseDir appBinary appProfile _
          (fun _ _ => ⟨rfl, by intro _ _ _ h; cases h⟩)
          (fun _ _ => ⟨rfl, by intro _ _ _ h; cases h⟩) r3)
      exact ⟨new, by simpa using h1, h2⟩

/-- The calls of `copyFilesToWorkingDir` around the validation of the excludes: calls for
the temporary directory, the staging root and the binary come first; the function may
end there; else the validation comes next and, when it fails, is the last call and its
error the result; else the listing of the application directories follows, and the
copies with the subtree excludes. -/
theorem copyFilesToWorkingDir_validate_shape {σ : Type} (w : World σ) (cfg : Config)
    (appBaseDir appBinary appProfile : String) (r : Run σ) :
    ∃ head tail, (copyFilesToWorkingDir w cfg appBaseDir appBinary appProfile r).2.calls
        = r.calls ++ (head ++ tail)
      ∧ (∀ c ∈ head, c.isSetup = true)
      ∧ ((tail = []
          ∧ ((∃ err, (w.tempDir "" (Filepath.Base appBinary) r.state).1 = .error err)
            ∨ ∃ tmpDir, (w.tempDir "" (Filepath.Base appBinary) r.state).1 = .ok tmpDir
              ∧ (w.mkDirAll (Filepath.Join [tmpDir, w.stripExt (Filepath.Base appBinary)])
                  permRWXRXRX
                  (w.deleteFiles (Filepath.Join [tmpDir,
                    w.stripExt (Filepath.Base appBinary)])
                    (w.tempDir "" (Filepath.Base appBinary) r.state).2)).1 ≠ none)
          ∧ ∃ e, (copyFilesToWorkingDir w cfg appBaseDir appBinary appProfile r).1
              = ("", some e))
        ∨ (tail = [.validate (cfg.stringList "build.excludes").1]
          ∧ ∃ err, w.validate (cfg.stringList "build.excludes").1 = some err
            ∧ (copyFilesToWorkingDir w cfg appBaseDir appBinary appProfile r).1
              = ("", some err))
        ∨ (w.validate (cfg.stringList "build.excludes").1 = none
          ∧ ∃ rest, tail = .validate (cfg.stringList "build.excludes").1
              :: .dirsPath appBaseDir false :: rest
            ∧ ∀ c ∈ rest, c.isValidate = false
              ∧ ∀ d s ex, c = .copyDir d s ex →
                  ex = excludeAndCreateSlice (cfg.stringList "build.excludes").1 "app")) := by
  cases htmp : (w.tempDir "" (Filepath.Base appBinary) r.state).1 with
  | error err =>
    rw [copyFilesToWorkingDir_tempDir_error w cfg _ _ _ r err htmp]
    exact ⟨[.tempDir "" (Filepath.Base appBinary)], [], by simp, by simp [Call.isSetup],
      Or.inl ⟨rfl, Or.inl ⟨err, rfl⟩, _, rfl⟩⟩
  | ok tmpDir =>
    cases hmk : (w.mkDirAll (Filepath.Join [tmpDir, w.stripExt (Filepath.Base appBinary)])
        permRWXRXRX
        (w.deleteFiles (Filepath.Join [tmpDir, w.stripExt (Filepath.Base appBinary)])
          (w.tempDir "" (Filepath.Base appBinary) r.state).2)).1 with
    | some err =>
      rw [copyFilesToWorkingDir_root_error w cfg _ _ _ r tmpDir err htmp hmk]
      exact ⟨[.tempDir "" (Filepath.Base appBinary),
          .deleteFiles (Filepath.Join [tmpDir, w.stripExt (Filepath.Base appBinary)]),
          .mkDirAll (Filepath.Join [tmpDir, w.stripExt (Filepath.Base appBinary)])
            permRWXRXRX], [], by simp, by simp [Call.isSetup],
        Or.inl ⟨rfl, Or.inr ⟨tmpDir, rfl, by rw [hmk]; simp⟩, _, rfl⟩⟩
    | none =>
      rw [copyFilesToWorkingDir_root_ok w cfg _ _ _ r tmpDir htmp hmk]
      obtain ⟨bin, hbin, hsetup⟩ := copyBinary_calls w
        (Filepath.Join [tmpDir, w.stripExt (Filepath.Base appBinary)]) appBinary
        (fun c => c.isSetup = true) (fun _ _ => rfl) (fun _ _ => rfl) (fun _ _ => rfl)
        (fun _ => rfl)
        ⟨(w.mkDirAll (Filepath.Join [tmpDir, w.stripExt (Filepath.Base appBinary)])
            permRWXRXRX
            (w.deleteFiles (Filepath.Join [tmpDir, w.stripExt (Filepath.Base appBinary)])
              (w.tempDir "" (Filepath.Base appBinary) r.state).2)).2,
          r.calls ++ [.tempDir "" (Filepath.Base appBinary),
            .deleteFiles (Filepath.Join [tmpDir, w.stripExt (Filepath.Base appBinary)]),
            .mkDirAll (Filepath.Join [tmpDir, w.stripExt (Filepath.Base appBinary)])
              permRWXRXRX]⟩
      generalize copyBinary w (Filepath.Join [tmpDir, w.stripExt (Filepath.Base appBinary)])
        appBinary _ = rb at hbin ⊢
      simp only at hbin
      have hhead : ∀ c ∈ [Call.tempDir "" (Filepath.Base appBinary),
          .deleteFiles (Filepath.Join [tmpDir, w.stripExt (Filepath.Base appBinary)]),
          .mkDirAll (Filepath.Join [tmpDir, w.stripExt (Filepath.Base appBinary)])
            permRWXRXRX] ++ bin, c.isSetup = true := by
        intro c hc
        rcases List.mem_append.1 hc with h | h
        · simp only [List.mem_cons, List.mem_singleton, List.not_mem_nil, or_false] at h
          rcases h with h | h | h <;> rw [h] <;> rfl
        · exact hsetup c h
      cases hv : w.validate (cfg.stringList "build.excludes").1 with
      | some err =>
        rw [copyAppFiles_validate_error w cfg _ _ _ _ rb err hv]
        exact ⟨_, [.validate (cfg.stringList "build.excludes").1],
          by simp [hbin], hhead, Or.inr (Or.inl ⟨rfl, err, rfl, rfl⟩)⟩
      | none =>
        obtain ⟨rest, hrest, hprop⟩ := copyAppFiles_valid_calls w cfg appBaseDir appBinary
          appProfile (Filepath.Join [tmpDir, w.stripExt (Filepath.Base appBinary)]) rb hv
        exact ⟨_, _, by rw [hrest, hbin]; simp, hhead,
          Or.inr (Or.inr ⟨rfl, rest, rfl, hprop⟩)⟩

theorem Call.not_validate_of_isSetup (c : Call) (h : c.isSetup = true) :
    c.isValidate = false ∧ c.isTraversal = false ∧ ∀ d s ex, c ≠ .copyDir d s ex := by
  cases c <;> simp [Call.isSetup] at h <;> simp [Call.isValidate, Call.isTraversal]

theorem countP_isValidate_eq_zero (l : List Call) (h : ∀ c ∈ l, c.isValidate = false) :
    l.countP Call.isValidate = 0 := by
  rw [List.countP_eq_zero]
  intro c hc
  simp [h c hc]

/-- C12: the calls that `copyFilesToWorkingDir` adds to a run validate the configured
excludes (`build.excludes`) at most once, and every call that enumerates or copies the
directories of the application (`ess.DirsPath`, `ess.IsFileExists`, `ess.CopyDir`) comes
after that validation and only when it succeeded; every subtree copy is made with the
validated patterns and the reserved name `app` (`excludeAndCreateSlice`). If the
validation fails, no directory of the application is enumerated or copied and the function
returns an error with an empty path: the validation error, with the validation as its last
call, whenever the temporary directory and the staging root could be made. (The binary is
copied into `<root>/bin` before the validation; that copy uses no pattern.) Where the
validation is that of the library (`Ess.ExcludesValidate`), it fails as soon as one
pattern of `build.excludes` is invalid, that is empty or malformed, with all that follows
from its failure; and a directory of the application is enumerated or copied only when
every pattern is neither empty nor malformed. -/
theorem copyFilesToWorkingDir_validates_first {σ : Type} (w : World σ) (cfg : Config)
    (appBaseDir appBinary appProfile : String) (r : Run σ) :
    ∃ new, (copyFilesToWorkingDir w cfg appBaseDir appBinary appProfile r).2.calls
        = r.calls ++ new
      ∧ new.countP Call.isValidate ≤ 1
      ∧ (∀ p, Call.validate p ∈ new → p = (cfg.stringList "build.excludes").1)
      ∧ (∀ pre c post, new = pre ++ c :: post → c.isTraversal = true →
          Call.validate (cfg.stringList "build.excludes").1 ∈ pre
          ∧ w.validate (cfg.stringList "build.excludes").1 = none)
      ∧ (∀ d s ex, Call.copyDir d s ex ∈ new →
          ex = excludeAndCreateSlice (cfg.stringList "build.excludes").1 "app")
      ∧ (∀ err, w.validate (cfg.stringList "build.excludes").1 = some err →
          (∀ c ∈ new, c.isTraversal = false)
          ∧ (∃ e, (copyFilesToWorkingDir w cfg appBaseDir appBinary appProfile r).1
              = ("", some e))
          ∧ (∀ tmpDir, (w.tempDir "" (Filepath.Base appBinary) r.state).1 = .ok tmpDir →
              (w.mkDirAll (Filepath.Join [tmpDir, w.stripExt (Filepath.Base appBinary)])
                permRWXRXRX
                (w.deleteFiles (Filepath.Join [tmpDir, w.stripExt (Filepath.Base appBinary)])
                  (w.tempDir "" (Filepath.Base appBinary) r.state).2)).1 = none →
              (copyFilesToWorkingDir w cfg appBaseDir appBinary appProfile r).1
                = ("", some err)
              ∧ new.getLast? = some (.validate (cfg.stringList "build.excludes").1)))
      ∧ ((∀ ps, w.validate ps = Ess.ExcludesValidate ps) →
          (∃ p ∈ (cfg.stringList "build.excludes").1, p = "" ∨ Filepath.badPattern p = true) →
          ∃ err, w.validate (cfg.stringList "build.excludes").1 = some err
            ∧ (∀ c ∈ new, c.isTraversal = false)
            ∧ (∃ e, (copyFilesToWorkingDir w cfg appBaseDir appBinary appProfile r).1
                = ("", some e))
            ∧ (∀ tmpDir, (w.tempDir "" (Filepath.Base appBinary) r.state).1 = .ok tmpDir →
                (w.mkDirAll (Filepath.Join [tmpDir, w.stripExt (Filepath.Base appBinary)])
                  permRWXRXRX
                  (w.deleteFiles
                    (Filepath.Join [tmpDir, w.stripExt (Filepath.Base appBinary)])
                    (w.tempDir "" (Filepath.Base appBinary) r.state).2)).1 = none →
                (copyFilesToWorkingDir w cfg appBaseDir appBinary appProfile r).1
                  = ("", some err)
                ∧ new.getLast? = some (.validate (cfg.stringList "build.excludes").1)))
      ∧ ((∀ ps, w.validate ps = Ess.ExcludesValidate ps) →
          ∀ c ∈ new, c.isTraversal = true →
            ∀ p ∈ (cfg.stringList "build.excludes").1,
              p ≠ "" ∧ Filepath.badPattern p = false) := by
  obtain ⟨head, tail, hcalls, hhead, hcases⟩ :=
    copyFilesToWorkingDir_validate_shape w cfg appBaseDir appBinary appProfile r
  have hh := fun c hc => Call.not_validate_of_isSetup c (hhead c hc)
  have hfails : ∀ err, w.validate (cfg.stringList "build.excludes").1 = some err →
      (∀ c ∈ head ++ tail, c.isTraversal = false)
      ∧ (∃ e, (copyFilesToWorkingDir w cfg appBaseDir appBinary appProfile r).1
          = ("", some e))
      ∧ (∀ tmpDir, (w.tempDir "" (Filepath.Base appBinary) r.state).1 = .ok tmpDir →
          (w.mkDirAll (Filepath.Join [tmpDir, w.stripExt (Filepath.Base appBinary)])
            permRWXRXRX
            (w.deleteFiles (Filepath.Join [tmpDir, w.stripExt (Filepath.Base appBinary)])
              (w.tempDir "" (Filepath.Base appBinary) r.state).2)).1 = none →
          (copyFilesToWorkingDir w cfg appBaseDir appBinary appProfile r).1
            = ("", some err)
          ∧ (head ++ tail).getLast?
            = some (.validate (cfg.stringList "build.excludes").1)) := by
    -- when the validation fails
    intro err hv
    rcases hcases with ⟨ht, hwhy, e, he⟩ | ⟨ht, err2, hv2, hres⟩ | ⟨hv2, _⟩
    · refine ⟨?_, ⟨e, he⟩, ?_⟩
      · intro c hc
        rw [ht, List.append_nil] at hc
        exact (hh c hc).2.1
      · intro tmpDir htmp hmk
        rcases hwhy with ⟨err3, h3⟩ | ⟨tmp2, h3, h4⟩
        · rw [htmp] at h3; cases h3
        · rw [htmp] at h3
          injection h3 with h3
          subst h3
          exact absurd hmk h4
    · rw [hv] at hv2
      injection hv2 with hv2
      subst hv2
      refine ⟨?_, ⟨_, hres⟩, fun _ _ _ => ⟨hres, by simp [ht]⟩⟩
      intro c hc
      rcases List.mem_append.1 hc with h | h
      · exact (hh c h).2.1
      · rw [ht] at h
        simp only [List.mem_singleton] at h
        rw [h]
        rfl
    · rw [hv] at hv2
      cases hv2
  have hafter : ∀ pre c post, head ++ tail = pre ++ c :: post → c.isTraversal = true →
      Call.validate (cfg.stringList "build.excludes").1 ∈ pre
      ∧ w.validate (cfg.stringList "build.excludes").1 = none := by
    -- the traversal comes after a successful validation
    intro pre c post hsplit hc
    rcases List.append_eq_append_iff.1 hsplit with ⟨a, hpre, htail⟩ | ⟨b, hhd, hrest2⟩
    · rcases hcases with ⟨ht, _⟩ | ⟨ht, _⟩ | ⟨hv, rest, ht, _⟩
      · rw [ht] at htail
        cases a <;> simp at htail
      · rw [ht] at htail
        cases a with
        | nil =>
          simp only [List.nil_append, List.cons.injEq] at htail
          rw [← htail.1] at hc
          simp [Call.isTraversal] at hc
        | cons x xs =>
          simp only [List.cons_append, List.cons.injEq] at htail
          have := htail.2
          cases xs <;> simp at this
      · rw [ht] at htail
        cases a with
        | nil =>
          simp only [List.nil_append, List.cons.injEq] at htail
          rw [← htail.1] at hc
          simp [Call.isTraversal] at hc
        | cons x xs =>
          simp only [List.cons_append, List.cons.injEq] at htail
          refine ⟨?_, hv⟩
          rw [hpre, ← htail.1]
          simp
    · cases b with
      | nil =>
        simp only [List.nil_append] at hrest2
        rcases hcases with ⟨ht, _⟩ | ⟨ht, _⟩ | ⟨_, rest, ht, _⟩
        · rw [ht] at hrest2; simp at hrest2
        · rw [ht] at hrest2
          simp only [List.cons.injEq] at hrest2
          rw [hrest2.1] at hc
          simp [Call.isTraversal] at hc
        · rw [ht] at hrest2
          simp only [List.cons.injEq] at hrest2
          rw [hrest2.1] at hc
          simp [Call.isTraversal] at hc
      | cons x xs =>
        simp only [List.cons_append, List.cons.injEq] at hrest2
        have hx : x ∈ head := by rw [hhd]; simp
        have := (hh x hx).2.1
        rw [← hrest2.1, hc] at this
        simp at this
  refine ⟨head ++ tail, hcalls, ?_, ?_, hafter, ?_, hfails, ?_, ?_⟩
  · -- at most one validation
    rw [List.countP_append, countP_isValidate_eq_zero head (fun c hc => (hh c hc).1)]
    rcases hcases with ⟨ht, _⟩ | ⟨ht, _⟩ | ⟨_, rest, ht, hrest⟩
    · simp [ht]
    · simp [ht, Call.isValidate]
    · rw [ht, List.countP_cons, List.countP_cons,
        countP_isValidate_eq_zero rest (fun c hc => (hrest c hc).1)]
      simp [Call.isValidate]
  · -- what is validated is the configured list
    intro p hp
    rcases List.mem_append.1 hp with h | h
    · have := (hh _ h).1
      simp [Call.isValidate] at this
    · rcases hcases with ⟨ht, _⟩ | ⟨ht, _⟩ | ⟨_, rest, ht, hrest⟩
      · rw [ht] at h; simp at h
      · rw [ht] at h
        simpa using h
      · rw [ht] at h
        simp only [List.mem_cons] at h
        rcases h with h | h | h
        · injection h
        · cases h
        · have := (hrest _ h).1
          simp [Call.isValidate] at this
  · -- the subtree copies use the validated list and the reserved name
    intro d s ex hmem
    rcases List.mem_append.1 hmem with h | h
    · exact absurd rfl ((hh _ h).2.2 d s ex)
    · rcases hcases with ⟨ht, _⟩ | ⟨ht, _⟩ | ⟨_, rest, ht, hrest⟩
      · rw [ht] at h; simp at h
      · rw [ht] at h; simp at h
      · rw [ht] at h
        simp only [List.mem_cons] at h
        rcases h with h | h | h
        · cases h
        · cases h
        · exact (hrest _ h).2 d s ex rfl
  · -- an invalid pattern makes the validation of the library fail
    intro hval hbad
    obtain ⟨err, herr⟩ := Ess.ExcludesValidate_invalid _ hbad
    rw [← hval] at herr
    exact ⟨err, herr, hfails err herr⟩
  · -- a traversal shows that every pattern is valid
    intro hval c hc hct
    obtain ⟨pre, post, hsplit⟩ := List.append_of_mem hc
    have hv := (hafter pre c post hsplit hct).2
    rw [hval] at hv
    exact Ess.ExcludesValidate_valid _ hv

/-- C12 (example): the sample application with the excludes `*.bak`, `[vendor` (a class
that is not closed) and the empty pattern. The validation of the library refuses them: the
assembly makes the temporary directory and the staging root, puts the binary in place,
validates the excludes and returns the validation error; the application directories are
neither listed nor copied. The excludes `*.bak` and `vendor` alone pass the validation. -/
theorem copyFilesToWorkingDir_validates_first_witness :
    copyFilesToWorkingDir quietWorld badPatternConfig "/proj" "/proj/build/bin/myapp" "qa"
        Run.start
      = (("", some "InvalidPatternError: [vendor"),
          ⟨(), [.tempDir "" "myapp", .deleteFiles "/tmp/myapp042/myapp",
            .mkDirAll "/tmp/myapp042/myapp" permRWXRXRX,
            .mkDirAll "/tmp/myapp042/myapp/bin" permRWXRXRX,
            .copyFile "/tmp/myapp042/myapp/bin" "/proj/build/bin/myapp",
            .applyFileMode "/tmp/myapp042/myapp/bin/myapp" permRWXRXRX,
            .validate ["*.bak", "[vendor", ""]]⟩)
    ∧ Ess.ExcludesValidate ["*.bak", "vendor"] = none
    ∧ Ess.ExcludesValidate [""] = some "InvalidPatternError: "
    ∧ ∃ new, (copyFilesToWorkingDir quietWorld badPatternConfig "/proj"
          "/proj/build/bin/myapp" "qa" Run.start).2.calls = Run.start.calls ++ new
        ∧ (∀ c ∈ new, c.isTraversal = false)
        ∧ new.getLast? = some (.validate ["*.bak", "[vendor", ""]) := by
  refine ⟨rfl, rfl, rfl, ?_⟩
  obtain ⟨new, h1, _, _, _, _, _, h7, _⟩ := copyFilesToWorkingDir_validates_first quietWorld
    badPatternConfig "/proj" "/proj/build/bin/myapp" "qa" Run.start
  obtain ⟨err, _, h8, _, h10⟩ := h7 (fun _ => rfl)
    ⟨"[vendor", by simp [badPatternConfig], Or.inr (by decide)⟩
  exact ⟨new, h1, h8, (h10 "/tmp/myapp042" rfl rfl).2⟩

/-! ## Lemmas on the file system -/

theorem entryFind_erase_self (name : String) (es : List (String × FsNode)) :
    entryFind name (entryErase name es) = none := by
  induction es with
  | nil => rfl
  | cons e rest ih =>
    obtain ⟨n, node⟩ := e
    by_cases h : n = name
    · simp [entryErase, h, ih]
    · simp [entryErase, entryFind, h, ih]

theorem entryFind_erase_other (name other : String) (es : List (String × FsNode))
    (h : other ≠ name) : entryFind other (entryErase name es) = entryFind other es := by
  induction es with
  | nil => rfl
  | cons e rest ih =>
    obtain ⟨n, node⟩ := e
    by_cases h1 : n = name
    · subst h1
      simp [entryErase, entryFind, ih, Ne.symm h]
    · by_cases h2 : n = other
      · subst h2
        simp [entryErase, entryFind, h1]
      · simp [entryErase, entryFind, h1, h2, ih]

theorem entryFind_set_self (name : String) (node : FsNode) (es : List (String × FsNode)) :
    entryFind name (entrySet name node es) = some node := by
  induction es with
  | nil => simp [entrySet, entryFind]
  | cons e rest ih =>
    obtain ⟨n, old⟩ := e
    by_cases h : n = name
    · simp [entrySet, entryFind, h]
    · simp [entrySet, entryFind, h, ih]

theorem entryFind_set_other (name other : String) (node : FsNode)
    (es : List (String × FsNode)) (h : other ≠ name) :
    entryFind other (entrySet name node es) = entryFind other es := by
  induction es with
  | nil =>
    simp only [entrySet, entryFind]
    rw [if_neg (fun h2 => h h2.symm)]
  | cons e rest ih =>
    obtain ⟨n, old⟩ := e
    by_cases h1 : n = name
    · have h2 : n ≠ other := fun h2 => h (h2.symm.trans h1)
      simp only [entrySet, entryFind, h1, if_true]
      rw [if_neg (fun h3 => h h3.symm), if_neg (fun h3 => h h3.symm)]
      exact entryFind_erase_other name other rest h
    · by_cases h2 : n = other
      · subst h2
        simp [entrySet, entryFind, h1]
      · simp [entrySet, entryFind, h1, h2, ih]

theorem entryFind_put_self (name : String) (o : Option FsNode) (es : List (String × FsNode)) :
    entryFind name (entryPut name o es) = o := by
  cases o with
  | none => exact entryFind_erase_self name es
  | some node => exact entryFind_set_self name node es

theorem entryFind_put_other (name other : String) (o : Option FsNode)
    (es : List (String × FsNode)) (h : other ≠ name) :
    entryFind other (entryPut name o es) = entryFind other es := by
  cases o with
  | none => exact entryFind_erase_other name other es h
  | some node => exact entryFind_set_other name other node es h

theorem getAt_none (p : List String) : getAt p none = none := by
  cases p <;> rfl

theorem getAt_file (x : String) (p : List String) (c : String) (m : Nat) :
    getAt (x :: p) (some (.file c m)) = none := rfl

/-- What is found along a path made of two parts. -/
theorem getAt_append (p q : List String) (o : Option FsNode) :
    getAt (p ++ q) o = getAt q (getAt p o) := by
  induction p generalizing o with
  | nil => rfl
  | cons x p ih =>
    cases o with
    | none => simp [getAt, getAt_none]
    | some n =>
      cases n with
      | file c m => simp [getAt, getAt_none]
      | dir es => simp only [List.cons_append, getAt]; exact ih _

/-- A change at the end of a path made of two parts is a change, at the end of the first
part, by the change at the end of the second. -/
theorem alterAt_append (mk : Bool) (f : Option FsNode → Option (Option FsNode))
    (p q : List String) (o : Option FsNode) :
    alterAt mk f (p ++ q) o = alterAt mk (alterAt mk f q) p o := by
  induction p generalizing o with
  | nil => rfl
  | cons x p ih =>
    cases o with
    | none => simp only [List.cons_append, alterAt, List.append_eq, ih]
    | some n =>
      cases n with
      | file c m => simp only [List.cons_append, alterAt]
      | dir es => simp only [List.cons_append, alterAt, List.append_eq, ih]

/-- What a change leaves at its path is what `f` answered, for what was there. -/
theorem getAt_alterAt (mk : Bool) (f : Option FsNode → Option (Option FsNode))
    (p : List String) (o o1 : Option FsNode) (h : alterAt mk f p o = some o1) :
    f (getAt p o) = some (getAt p o1) := by
  induction p generalizing o o1 with
  | nil => simpa [alterAt, getAt] using h
  | cons x p ih =>
    cases o with
    | none =>
      simp only [alterAt] at h
      cases hmk : mk with
      | false => rw [hmk] at h; simp at h
      | true =>
        rw [hmk] at h
        simp only [if_true, Option.map_eq_some'] at h
        obtain ⟨o2, h2, h3⟩ := h
        rw [hmk] at ih
        have := ih none o2 h2
        rw [getAt_none] at this
        rw [← h3]
        show f none = some (getAt p (entryFind x (entryPut x o2 [])))
        rw [entryFind_put_self]
        exact this
    | some n =>
      cases n with
      | file c m => simp [alterAt] at h
      | dir es =>
        simp only [alterAt, Option.map_eq_some'] at h
        obtain ⟨o2, h2, h3⟩ := h
        have := ih _ o2 h2
        rw [← h3]
        show f (getAt p (entryFind x es)) = some (getAt p (entryFind x (entryPut x o2 es)))
        rw [entryFind_put_self]
        exact this

/-- A change under one entry of a directory leaves what stands under the others. -/
theorem getAt_alterAt_other (mk : Bool) (f : Option FsNode → Option (Option FsNode))
    (x a : String) (p q : List String) (o o1 : Option FsNode)
    (h : alterAt mk f (x :: p) o = some o1) (ha : a ≠ x) :
    getAt (a :: q) o1 = getAt (a :: q) o := by
  cases o with
  | none =>
    simp only [alterAt] at h
    cases hmk : mk with
    | false => rw [hmk] at h; simp at h
    | true =>
      rw [hmk] at h
      simp only [if_true, Option.map_eq_some'] at h
      obtain ⟨o2, _, h3⟩ := h
      rw [← h3]
      show getAt q (entryFind a (entryPut x o2 [])) = none
      rw [entryFind_put_other x a o2 [] ha]
      exact getAt_none q
  | some n =>
    cases n with
    | file c m => simp [alterAt] at h
    | dir es =>
      simp only [alterAt, Option.map_eq_some'] at h
      obtain ⟨o2, _, h3⟩ := h
      rw [← h3]
      show getAt q (entryFind a (entryPut x o2 es)) = getAt q (entryFind a es)
      rw [entryFind_put_other x a o2 es ha]

/-- A change at a path that exists fails or succeeds as `f` does on what is there. -/
theorem alterAt_of_getAt (mk : Bool) (f : Option FsNode → Option (Option FsNode))
    (p : List String) (o : Option FsNode) (m : FsNode) (h : getAt p o = some m) :
    (f (some m) = none → alterAt mk f p o = none)
    ∧ (∀ res, f (some m) = some res → ∃ o1, alterAt mk f p o = some o1) := by
  induction p generalizing o with
  | nil =>
    simp only [getAt] at h
    subst h
    exact ⟨fun h1 => h1, fun res h1 => ⟨res, h1⟩⟩
  | cons x p ih =>
    cases o with
    | none => simp [getAt] at h
    | some n =>
      cases n with
      | file c k => simp [getAt] at h
      | dir es =>
        simp only [getAt] at h
        obtain ⟨h1, h2⟩ := ih _ h
        refine ⟨fun hf => ?_, fun res hf => ?_⟩
        · simp [alterAt, h1 hf]
        · obtain ⟨o1, h3⟩ := h2 res hf
          exact ⟨some (.dir (entryPut x o1 es)), by simp [alterAt, h3]⟩

/-! ## Lemmas on the elements of a path -/

namespace Filepath

/-- The elements kept of a rooted path in clean form are its elements. -/
theorem cleanElems_rooted_form (els : List (List Char)) (h : ∀ e ∈ els, Plain e) :
    cleanElems true ('/' :: joinSep els) = els := by
  by_cases hne : els = []
  · subst hne
    simp [cleanElems, joinSep, splitSep, cleanStep]
  · have hs : splitSep ('/' :: joinSep els) = [] :: els := by
      simp [splitSep, splitSep_joinSep els hne (fun e he => (h e he).2.2.2)]
    simp only [cleanElems, hs, List.foldl_cons]
    have h0 : cleanStep true [] [] = [] := by simp [cleanStep]
    rw [h0, foldl_cleanStep_plain true els [] h]
    simp

/-- Cleaning a rooted path does not change the elements kept of it. -/
theorem cleanElems_cleanChars (p : List Char) (h : rootedChars p = true) :
    cleanElems true (cleanChars p) = cleanElems true p := by
  rw [cleanChars_rooted p h]
  exact cleanElems_rooted_form _ (cleanElems_rooted_plain p)

/-- A plain element added to a path comes last among the elements kept. -/
theorem cleanElems_append_plain (a b : List Char) (hb : Plain b) :
    cleanElems true (a ++ '/' :: b) = cleanElems true a ++ [b] := by
  simp only [cleanElems, splitSep_append_sep, splitSep_of_no_sep b hb.2.2.2,
    List.foldl_append, List.foldl_cons, List.foldl_nil,
    cleanStep_plain true _ b hb.1 hb.2.1 hb.2.2.1, List.reverse_cons]

theorem rootedChars_append (a b : List Char) (h : rootedChars a = true) :
    rootedChars (a ++ b) = true := by
  cases a with
  | nil => simp [rootedChars] at h
  | cons c cs => simpa [rootedChars] using h

theorem IsAbs_Join_two (a b : String) (h : IsAbs a = true) : IsAbs (Join [a, b]) = true := by
  have hne : a.data ≠ [] := by
    intro h0
    simp [IsAbs, rootedChars, h0] at h
  unfold IsAbs
  rw [Join_two a b hne, cleanChars_rooted _ (rootedChars_append _ _ h)]
  rfl

end Filepath

/-- The elements of a path joined with a plain name: the name comes last. -/
theorem pathElems_Join_two (a b : String) (h : Filepath.IsAbs a = true)
    (hb : Filepath.Plain b.data) : pathElems (Filepath.Join [a, b]) = pathElems a ++ [b] := by
  have hne : a.data ≠ [] := by
    intro h0
    simp [Filepath.IsAbs, Filepath.rootedChars, h0] at h
  unfold pathElems
  rw [Filepath.Join_two a b hne,
    Filepath.cleanElems_cleanChars _ (Filepath.rootedChars_append _ _ h),
    Filepath.cleanElems_append_plain _ _ hb]
  simp

theorem isPlainName_spec (name : String) (h : isPlainName name = true) :
    Filepath.Plain name.data := by
  simp only [isPlainName, Bool.and_eq_true, decide_eq_true_eq, Bool.not_eq_true',
    List.contains_eq_any_beq, List.any_eq_false, beq_iff_eq] at h
  obtain ⟨⟨⟨h1, h2⟩, h3⟩, h4⟩ := h
  refine ⟨h1, h2, h3, ?_⟩
  intro hmem
  exact h4 '/' hmem rfl

/-! ## Two assemblies side by side -/

theorem alterAt_cons_dir (mk : Bool) (f : Option FsNode → Option (Option FsNode))
    (x : String) (p : List String) (o o1 : Option FsNode)
    (h : alterAt mk f (x :: p) o = some o1) : ∃ es, o1 = some (.dir es) := by
  cases o with
  | none =>
    simp only [alterAt] at h
    cases hmk : mk with
    | false => rw [hmk] at h; simp at h
    | true =>
      rw [hmk] at h
      simp only [if_true, Option.map_eq_some'] at h
      obtain ⟨o2, _, h3⟩ := h
      exact ⟨_, h3.symm⟩
  | some n =>
    cases n with
    | file c m => simp [alterAt] at h
    | dir es =>
      simp only [alterAt, Option.map_eq_some'] at h
      obtain ⟨o2, _, h3⟩ := h
      exact ⟨_, h3.symm⟩

/-- The same change under the two staging roots fails in both file systems or succeeds in
both, and leaves them side by side. -/
theorem alterAt_staged (ref t1 t2 : FsNode) (p1 p2 rel : List String) (mk : Bool)
    (f : Option FsNode → Option (Option FsNode)) (hrel : rel ≠ [])
    (h : Staged ref ("tmp" :: p1) ("tmp" :: p2) t1 t2) :
    (alterAt mk f (("tmp" :: p1) ++ rel) (some t1) = none
      ∧ alterAt mk f (("tmp" :: p2) ++ rel) (some t2) = none)
    ∨ ∃ u1 u2, alterAt mk f (("tmp" :: p1) ++ rel) (some t1) = some (some u1)
      ∧ alterAt mk f (("tmp" :: p2) ++ rel) (some t2) = some (some u2)
      ∧ Staged ref ("tmp" :: p1) ("tmp" :: p2) u1 u2 := by
  obtain ⟨ho1, ho2, m, hm1, hm2⟩ := h
  rw [alterAt_append, alterAt_append]
  obtain ⟨hf1, hs1⟩ := alterAt_of_getAt mk (alterAt mk f rel) _ _ m hm1
  obtain ⟨hf2, hs2⟩ := alterAt_of_getAt mk (alterAt mk f rel) _ _ m hm2
  cases hg : alterAt mk f rel (some m) with
  | none => exact Or.inl ⟨hf1 hg, hf2 hg⟩
  | some res =>
    obtain ⟨o1, h1⟩ := hs1 res hg
    obtain ⟨o2, h2⟩ := hs2 res hg
    obtain ⟨e1, he1⟩ := alterAt_cons_dir mk _ "tmp" p1 _ o1 h1
    obtain ⟨e2, he2⟩ := alterAt_cons_dir mk _ "tmp" p2 _ o2 h2
    have hres : ∃ es, res = some (.dir es) := by
      cases rel with
      | nil => exact absurd rfl hrel
      | cons y ys => exact alterAt_cons_dir mk f y ys _ res hg
    obtain ⟨er, her⟩ := hres
    have g1 := getAt_alterAt mk _ _ _ o1 h1
    have g2 := getAt_alterAt mk _ _ _ o2 h2
    rw [hm1, hg] at g1
    rw [hm2, hg] at g2
    injection g1 with g1
    injection g2 with g2
    subst he1 he2
    refine Or.inr ⟨.dir e1, .dir e2, h1, h2, ?_, ?_, .dir er, ?_, ?_⟩
    · intro a q ha
      rw [getAt_alterAt_other mk _ "tmp" a p1 q _ _ h1 ha]
      exact ho1 a q ha
    · intro a q ha
      rw [getAt_alterAt_other mk _ "tmp" a p2 q _ _ h2 ha]
      exact ho2 a q ha
    · rw [← g1, her]
    · rw [← g2, her]

/-- A call that changes the same place under the two staging roots gives the same answer
in both file systems and leaves them side by side. -/
theorem attempt_staged (ref : FsNode) (s1 s2 : Fs) (p1 p2 rel : List String) (mk : Bool)
    (f : Option FsNode → Option (Option FsNode)) (err : String) (hrel : rel ≠ [])
    (h : Staged ref ("tmp" :: p1) ("tmp" :: p2) s1.root s2.root) :
    (s1.attempt mk f (("tmp" :: p1) ++ rel) err).1 = (s2.attempt mk f (("tmp" :: p2) ++ rel) err).1
    ∧ Staged ref ("tmp" :: p1) ("tmp" :: p2) (s1.attempt mk f (("tmp" :: p1) ++ rel) err).2.root
        (s2.attempt mk f (("tmp" :: p2) ++ rel) err).2.root := by
  rcases alterAt_staged ref s1.root s2.root p1 p2 rel mk f hrel h with ⟨h1, h2⟩ | ⟨u1, u2, h1, h2, h3⟩
  · simp only [Fs.attempt, Fs.alter, h1, h2]
    exact ⟨trivial, h⟩
  · simp only [Fs.attempt, Fs.alter, h1, h2]
    exact ⟨trivial, h3⟩

/-- What stands outside `/tmp` is the same in the two file systems. -/
theorem Staged.get_outside {ref : FsNode} {R1 R2 : List String} {s1 s2 : Fs}
    (h : Staged ref R1 R2 s1.root s2.root) (path : String) (hp : Outside (pathElems path)) :
    s1.get path = s2.get path := by
  obtain ⟨a, q, hq, ha⟩ := hp
  unfold Fs.get
  rw [hq, h.1 a q ha, h.2.1 a q ha]

theorem mkDirAll_staged (ref : FsNode) (s1 s2 : Fs) (p1 p2 rel : List String)
    (path1 path2 : String) (perm : Nat) (hrel : rel ≠ [])
    (h1 : pathElems path1 = ("tmp" :: p1) ++ rel) (h2 : pathElems path2 = ("tmp" :: p2) ++ rel)
    (h : Staged ref ("tmp" :: p1) ("tmp" :: p2) s1.root s2.root) :
    (Fs.mkDirAll path1 perm s1).1 = (Fs.mkDirAll path2 perm s2).1
    ∧ Staged ref ("tmp" :: p1) ("tmp" :: p2) (Fs.mkDirAll path1 perm s1).2.root
        (Fs.mkDirAll path2 perm s2).2.root := by
  unfold Fs.mkDirAll
  rw [h1, h2]
  exact attempt_staged ref s1 s2 p1 p2 rel true mkdirNode _ hrel h

theorem writeFile_staged (ref : FsNode) (s1 s2 : Fs) (p1 p2 rel : List String)
    (path1 path2 data : String) (perm : Nat) (hrel : rel ≠ [])
    (h1 : pathElems path1 = ("tmp" :: p1) ++ rel) (h2 : pathElems path2 = ("tmp" :: p2) ++ rel)
    (h : Staged ref ("tmp" :: p1) ("tmp" :: p2) s1.root s2.root) :
    (Fs.writeFile path1 data perm s1).1 = (Fs.writeFile path2 data perm s2).1
    ∧ Staged ref ("tmp" :: p1) ("tmp" :: p2) (Fs.writeFile path1 data perm s1).2.root
        (Fs.writeFile path2 data perm s2).2.root := by
  unfold Fs.writeFile
  rw [h1, h2]
  exact attempt_staged ref s1 s2 p1 p2 rel false _ _ hrel h

theorem applyFileMode_staged (ref : FsNode) (s1 s2 : Fs) (p1 p2 rel : List String)
    (path1 path2 : String) (perm : Nat) (hrel : rel ≠ [])
    (h1 : pathElems path1 = ("tmp" :: p1) ++ rel) (h2 : pathElems path2 = ("tmp" :: p2) ++ rel)
    (h : Staged ref ("tmp" :: p1) ("tmp" :: p2) s1.root s2.root) :
    (Fs.applyFileMode path1 perm s1).1 = (Fs.applyFileMode path2 perm s2).1
    ∧ Staged ref ("tmp" :: p1) ("tmp" :: p2) (Fs.applyFileMode path1 perm s1).2.root
        (Fs.applyFileMode path2 perm s2).2.root := by
  unfold Fs.applyFileMode
  rw [h1, h2]
  exact attempt_staged ref s1 s2 p1 p2 rel false _ _ hrel h

theorem copyFile_staged (ref : FsNode) (s1 s2 : Fs) (p1 p2 rel : List String)
    (dest1 dest2 src : String)
    (h1 : pathElems dest1 = ("tmp" :: p1) ++ rel) (h2 : pathElems dest2 = ("tmp" :: p2) ++ rel)
    (hsrc : Outside (pathElems src))
    (h : Staged ref ("tmp" :: p1) ("tmp" :: p2) s1.root s2.root) :
    (Fs.copyFile dest1 src s1).1 = (Fs.copyFile dest2 src s2).1
    ∧ Staged ref ("tmp" :: p1) ("tmp" :: p2) (Fs.copyFile dest1 src s1).2.root
        (Fs.copyFile dest2 src s2).2.root := by
  unfold Fs.copyFile
  rw [h.get_outside src hsrc, h1, h2]
  split
  · rw [List.append_assoc, List.append_assoc]
    exact attempt_staged ref s1 s2 p1 p2 _ false _ _ (by simp) h
  · exact ⟨rfl, h⟩

theorem copyDir_staged (globMatch : String → String → Bool) (ref : FsNode) (s1 s2 : Fs)
    (p1 p2 rel : List String) (dest1 dest2 src : String) (excludes : List String)
    (h1 : pathElems dest1 = ("tmp" :: p1) ++ rel) (h2 : pathElems dest2 = ("tmp" :: p2) ++ rel)
    (hsrc : Outside (pathElems src))
    (h : Staged ref ("tmp" :: p1) ("tmp" :: p2) s1.root s2.root) :
    (Fs.copyDir globMatch dest1 src excludes s1).1 = (Fs.copyDir globMatch dest2 src excludes s2).1
    ∧ Staged ref ("tmp" :: p1) ("tmp" :: p2) (Fs.copyDir globMatch dest1 src excludes s1).2.root
        (Fs.copyDir globMatch dest2 src excludes s2).2.root := by
  unfold Fs.copyDir
  rw [h.get_outside src hsrc, h1, h2]
  split
  · split
    · exact ⟨rfl, h⟩
    · rw [List.append_assoc, List.append_assoc]
      exact attempt_staged ref s1 s2 p1 p2 _ false _ _ (by simp) h
  · exact ⟨rfl, h⟩

theorem copyBinary_state {σ : Type} (w : World σ) (buildBaseDir appBinary : String)
    (r : Run σ) :
    (copyBinary w buildBaseDir appBinary r).state
      = (w.applyFileMode
          (Filepath.Join [Filepath.Join [buildBaseDir, "bin"], Filepath.Base appBinary])
          permRWXRXRX
          (w.copyFile (Filepath.Join [buildBaseDir, "bin"]) appBinary
            (w.mkDirAll (Filepath.Join [buildBaseDir, "bin"]) permRWXRXRX r.state).2).2).2 := by
  unfold copyBinary
  simp only []
  split <;> rfl

theorem plain_bin : Filepath.Plain "bin".data := by
  refine ⟨?_, ?_, ?_, ?_⟩ <;> decide

theorem plain_aah_sh : Filepath.Plain "aah.sh".data := by
  refine ⟨?_, ?_, ?_, ?_⟩ <;> decide

theorem plain_aah_cmd : Filepath.Plain "aah.cmd".data := by
  refine ⟨?_, ?_, ?_, ?_⟩ <;> decide

/-- The binary block leaves the two file systems side by side. -/
theorem copyBinary_staged (w0 : World Unit) (ref : FsNode) (root1 root2 appBinary : String)
    (p1 p2 : List String) (r1 r2 : Run Fs)
    (habs1 : Filepath.IsAbs root1 = true) (habs2 : Filepath.IsAbs root2 = true)
    (hR1 : pathElems root1 = "tmp" :: p1) (hR2 : pathElems root2 = "tmp" :: p2)
    (hbase : Filepath.Plain (Filepath.Base appBinary).data)
    (hbin : Outside (pathElems appBinary))
    (h : Staged ref ("tmp" :: p1) ("tmp" :: p2) r1.state.root r2.state.root) :
    Staged ref ("tmp" :: p1) ("tmp" :: p2)
      (copyBinary (fsWorld w0) root1 appBinary r1).state.root
      (copyBinary (fsWorld w0) root2 appBinary r2).state.root := by
  rw [copyBinary_state, copyBinary_state]
  have e1 : pathElems (Filepath.Join [root1, "bin"]) = ("tmp" :: p1) ++ ["bin"] := by
    rw [pathElems_Join_two root1 "bin" habs1 plain_bin, hR1]
  have e2 : pathElems (Filepath.Join [root2, "bin"]) = ("tmp" :: p2) ++ ["bin"] := by
    rw [pathElems_Join_two root2 "bin" habs2 plain_bin, hR2]
  have f1 : pathElems (Filepath.Join [Filepath.Join [root1, "bin"], Filepath.Base appBinary])
      = ("tmp" :: p1) ++ ["bin", Filepath.Base appBinary] := by
    rw [pathElems_Join_two _ _ (Filepath.IsAbs_Join_two root1 "bin" habs1) hbase, e1]
    simp
  have f2 : pathElems (Filepath.Join [Filepath.Join [root2, "bin"], Filepath.Base appBinary])
      = ("tmp" :: p2) ++ ["bin", Filepath.Base appBinary] := by
    rw [pathElems_Join_two _ _ (Filepath.IsAbs_Join_two root2 "bin" habs2) hbase, e2]
    simp
  have s1 := (mkDirAll_staged ref r1.state r2.state p1 p2 ["bin"] _ _ permRWXRXRX (by simp)
    e1 e2 h).2
  have s2 := (copyFile_staged ref _ _ p1 p2 ["bin"] _ _ appBinary e1 e2 hbin s1).2
  exact (applyFileMode_staged ref _ _ p1 p2 ["bin", Filepath.Base appBinary] _ _ permRWXRXRX
    (by simp) f1 f2 s2).2

theorem copyAppDirs_missing {σ : Type} (w : World σ) (buildBaseDir : String)
    (excludes subTreeExcludes : List String) (srcdir : String) (rest : List String)
    (r : Run σ)
    (hm : Ess.ExcludesMatch w excludes (Filepath.Base srcdir) = false)
    (he : w.isFileExists srcdir r.state = false) :
    copyAppDirs w buildBaseDir excludes subTreeExcludes (srcdir :: rest) r
      = copyAppDirs w buildBaseDir excludes subTreeExcludes rest
          ⟨r.state, r.calls ++ [.isFileExists srcdir]⟩ := by
  conv => lhs; unfold copyAppDirs
  simp [hm, he, Run.log]

/-- The copies of the application directories give the same answer in the two file
systems and leave them side by side. -/
theorem copyAppDirs_staged (w0 : World Unit) (ref : FsNode) (root1 root2 : String)
    (p1 p2 : List String) (excludes subTreeExcludes : List String)
    (hR1 : pathElems root1 = "tmp" :: p1) (hR2 : pathElems root2 = "tmp" :: p2) :
    ∀ (dirs : List String) (r1 r2 : Run Fs),
      (∀ d ∈ dirs, Outside (pathElems d)) →
      Staged ref ("tmp" :: p1) ("tmp" :: p2) r1.state.root r2.state.root →
      (copyAppDirs (fsWorld w0) root1 excludes subTreeExcludes dirs r1).1
        = (copyAppDirs (fsWorld w0) root2 excludes subTreeExcludes dirs r2).1
      ∧ Staged ref ("tmp" :: p1) ("tmp" :: p2)
          (copyAppDirs (fsWorld w0) root1 excludes subTreeExcludes dirs r1).2.state.root
          (copyAppDirs (fsWorld w0) root2 excludes subTreeExcludes dirs r2).2.state.root := by
  intro dirs
  induction dirs with
  | nil => intro r1 r2 _ h; exact ⟨rfl, h⟩
  | cons d rest ih =>
    intro r1 r2 hout h
    have hd := hout d (by simp)
    have hrest : ∀ x ∈ rest, Outside (pathElems x) := fun x hx => hout x (by simp [hx])
    cases hm : Ess.ExcludesMatch (fsWorld w0) excludes (Filepath.Base d) with
    | true =>
      rw [copyAppDirs_excluded _ _ _ _ _ _ r1 hm, copyAppDirs_excluded _ _ _ _ _ _ r2 hm]
      exact ih r1 r2 hrest h
    | false =>
      have hget := h.get_outside d hd
      have hex : (fsWorld w0).isFileExists d r1.state = (fsWorld w0).isFileExists d r2.state := by
        show (r1.state.get d).isSome = (r2.state.get d).isSome
        rw [hget]
      cases he : (fsWorld w0).isFileExists d r1.state with
      | false =>
        rw [copyAppDirs_missing _ _ _ _ _ _ r1 hm he,
          copyAppDirs_missing _ _ _ _ _ _ r2 hm (hex ▸ he)]
        exact ih _ _ hrest h
      | true =>
        have he2 : (fsWorld w0).isFileExists d r2.state = true := hex ▸ he
        obtain ⟨hres, hst⟩ := copyDir_staged w0.globMatch ref r1.state r2.state p1 p2 []
          root1 root2 d subTreeExcludes (by simp [hR1]) (by simp [hR2]) hd h
        cases hc : ((fsWorld w0).copyDir root1 d subTreeExcludes r1.state).1 with
        | some err =>
          have hc2 : ((fsWorld w0).copyDir root2 d subTreeExcludes r2.state).1 = some err := by
            rw [← hc]; exact hres.symm
          rw [copyAppDirs_copy_error _ _ _ _ _ _ r1 err hm he hc,
            copyAppDirs_copy_error _ _ _ _ _ _ r2 err hm he2 hc2]
          exact ⟨rfl, hst⟩
        | none =>
          have hc2 : ((fsWorld w0).copyDir root2 d subTreeExcludes r2.state).1 = none := by
            rw [← hc]; exact hres.symm
          rw [copyAppDirs_copy_ok _ _ _ _ _ _ r1 hm he hc,
            copyAppDirs_copy_ok _ _ _ _ _ _ r2 hm he2 hc2]
          exact ih _ _ hrest hst

/-- The writing of the startup files gives the same answer in the two file systems and
leaves them side by side. -/
theorem writeStartupFiles_staged (w0 : World Unit) (ref : FsNode)
    (root1 root2 appBinary appProfile : String) (p1 p2 : List String) (r1 r2 : Run Fs)
    (habs1 : Filepath.IsAbs root1 = true) (habs2 : Filepath.IsAbs root2 = true)
    (hR1 : pathElems root1 = "tmp" :: p1) (hR2 : pathElems root2 = "tmp" :: p2)
    (h : Staged ref ("tmp" :: p1) ("tmp" :: p2) r1.state.root r2.state.root) :
    (writeStartupFiles (fsWorld w0) root1 appBinary appProfile r1).1.2
      = (writeStartupFiles (fsWorld w0) root2 appBinary appProfile r2).1.2
    ∧ ((writeStartupFiles (fsWorld w0) root1 appBinary appProfile r1).1.2 = none →
        (writeStartupFiles (fsWorld w0) root1 appBinary appProfile r1).1.1 = root1
        ∧ (writeStartupFiles (fsWorld w0) root2 appBinary appProfile r2).1.1 = root2)
    ∧ Staged ref ("tmp" :: p1) ("tmp" :: p2)
        (writeStartupFiles (fsWorld w0) root1 appBinary appProfile r1).2.state.root
        (writeStartupFiles (fsWorld w0) root2 appBinary appProfile r2).2.state.root := by
  have e1 : pathElems (Filepath.Join [root1, "aah.sh"]) = ("tmp" :: p1) ++ ["aah.sh"] := by
    rw [pathElems_Join_two root1 _ habs1 plain_aah_sh, hR1]
  have e2 : pathElems (Filepath.Join [root2, "aah.sh"]) = ("tmp" :: p2) ++ ["aah.sh"] := by
    rw [pathElems_Join_two root2 _ habs2 plain_aah_sh, hR2]
  have f1 : pathElems (Filepath.Join [root1, "aah.cmd"]) = ("tmp" :: p1) ++ ["aah.cmd"] := by
    rw [pathElems_Join_two root1 _ habs1 plain_aah_cmd, hR1]
  have f2 : pathElems (Filepath.Join [root2, "aah.cmd"]) = ("tmp" :: p2) ++ ["aah.cmd"] := by
    rw [pathElems_Join_two root2 _ habs2 plain_aah_cmd, hR2]
  cases hsh : (fsWorld w0).renderTmpl aahBashStartupTemplate
      (startupData (fsWorld w0) appBinary appProfile) with
  | error err =>
    rw [writeStartupFiles_sh_render_error _ _ _ _ r1 err hsh,
      writeStartupFiles_sh_render_error _ _ _ _ r2 err hsh]
    exact ⟨rfl, fun h0 => by simp at h0, h⟩
  | ok sh =>
    obtain ⟨hres, hst⟩ := writeFile_staged ref r1.state r2.state p1 p2 ["aah.sh"] _ _ sh
      permRWXRXRX (by simp) e1 e2 h
    cases hw : ((fsWorld w0).writeFile (Filepath.Join [root1, "aah.sh"]) sh permRWXRXRX
        r1.state).1 with
    | some err =>
      have hw2 : ((fsWorld w0).writeFile (Filepath.Join [root2, "aah.sh"]) sh permRWXRXRX
          r2.state).1 = some err := by
        rw [← hw]; exact hres.symm
      rw [writeStartupFiles_sh_write_error _ _ _ _ r1 sh err hsh hw,
        writeStartupFiles_sh_write_error _ _ _ _ r2 sh err hsh hw2]
      exact ⟨rfl, fun h0 => by simp at h0, hst⟩
    | none =>
      have hw2 : ((fsWorld w0).writeFile (Filepath.Join [root2, "aah.sh"]) sh permRWXRXRX
          r2.state).1 = none := by
        rw [← hw]; exact hres.symm
      cases hcmd : (fsWorld w0).renderTmpl aahCmdStartupTemplate
          (startupData (fsWorld w0) appBinary appProfile) with
      | error err =>
        rw [writeStartupFiles_cmd_render_error _ _ _ _ r1 sh err hsh hw hcmd,
          writeStartupFiles_cmd_render_error _ _ _ _ r2 sh err hsh hw2 hcmd]
        exact ⟨rfl, fun h0 => by simp at h0, hst⟩
      | ok cmd =>
        rw [writeStartupFiles_written _ _ _ _ r1 sh cmd hsh hw hcmd,
          writeStartupFiles_written _ _ _ _ r2 sh cmd hsh hw2 hcmd]
        obtain ⟨hres2, hst2⟩ := writeFile_staged ref _ _ p1 p2 ["aah.cmd"] _ _ cmd
          permRWXRXRX (by simp) f1 f2 hst
        exact ⟨hres2, fun _ => ⟨rfl, rfl⟩, hst2⟩

/-- A call that changes a place under `/tmp` leaves what stands outside `/tmp`. -/
theorem attempt_outside (s : Fs) (mk : Bool) (f : Option FsNode → Option (Option FsNode))
    (p : List String) (err : String) (a : String) (q : List String) (ha : a ≠ "tmp") :
    getAt (a :: q) (some (s.attempt mk f ("tmp" :: p) err).2.root)
      = getAt (a :: q) (some s.root) := by
  unfold Fs.attempt Fs.alter
  cases h : alterAt mk f ("tmp" :: p) (some s.root) with
  | none => rfl
  | some o1 =>
    cases o1 with
    | none => rfl
    | some t => exact getAt_alterAt_other mk f "tmp" a p q _ _ h ha

/-- A call that changes a place under a directory that exists: it succeeds when the change
of what the directory holds does, and the directory then holds the result. -/
theorem attempt_under (s : Fs) (mk : Bool) (f : Option FsNode → Option (Option FsNode))
    (x : String) (p rel : List String) (err : String) (m : FsNode) (res : Option FsNode)
    (hm : getAt (x :: p) (some s.root) = some m)
    (hres : alterAt mk f rel (some m) = some res) :
    (s.attempt mk f ((x :: p) ++ rel) err).1 = none
    ∧ getAt (x :: p) (some (s.attempt mk f ((x :: p) ++ rel) err).2.root) = res := by
  obtain ⟨o1, h1⟩ := (alterAt_of_getAt mk (alterAt mk f rel) _ _ m hm).2 res hres
  obtain ⟨es, he⟩ := alterAt_cons_dir mk _ x p _ o1 h1
  have hg := getAt_alterAt mk _ _ _ o1 h1
  rw [hm, hres] at hg
  injection hg with hg
  subst he
  unfold Fs.attempt Fs.alter
  rw [alterAt_append, h1]
  exact ⟨rfl, hg.symm⟩

/-- The staging root is deleted if present and then created: in a directory that exists,
whatever it held under the name of the root, `ess.DeleteFiles` followed by `ess.MkDirAll`
succeeds and leaves the root as an empty directory, and what stands outside `/tmp` as it
was. -/
theorem fresh_root (s : Fs) (p : List String) (name rootPath : String) (perm : Nat)
    (es : List (String × FsNode))
    (hT : getAt ("tmp" :: p) (some s.root) = some (.dir es))
    (hroot : pathElems rootPath = ("tmp" :: p) ++ [name]) :
    (Fs.mkDirAll rootPath perm (Fs.deleteFiles rootPath s)).1 = none
    ∧ getAt (("tmp" :: p) ++ [name])
        (some (Fs.mkDirAll rootPath perm (Fs.deleteFiles rootPath s)).2.root) = some (.dir [])
    ∧ ∀ a q, a ≠ "tmp" →
        getAt (a :: q) (some (Fs.mkDirAll rootPath perm (Fs.deleteFiles rootPath s)).2.root)
          = getAt (a :: q) (some s.root) := by
  unfold Fs.mkDirAll Fs.deleteFiles
  rw [hroot]
  have hdel : alterAt false (fun _ => some none) [name] (some (.dir es))
      = some (some (.dir (entryErase name es))) := by
    simp [alterAt, entryPut]
  obtain ⟨_, hd2⟩ := attempt_under s false (fun _ => some none) "tmp" p [name]
    "remove: no such directory" (.dir es) _ hT hdel
  have hmk : alterAt true mkdirNode [name] (some (.dir (entryErase name es)))
      = some (some (.dir (entrySet name (.dir []) (entryErase name es)))) := by
    simp [alterAt, entryPut, entryFind_erase_self, mkdirNode]
  obtain ⟨hm1, hm2⟩ := attempt_under _ true mkdirNode "tmp" p [name]
    "mkdir: not a directory" _ _ hd2 hmk
  refine ⟨hm1, ?_, ?_⟩
  · rw [getAt_append, hm2]
    simp [getAt, entryFind_set_self]
  · intro a q ha
    rw [List.cons_append, attempt_outside _ _ _ _ _ a q ha,
      attempt_outside _ _ _ _ _ a q ha]

theorem alterAt_remove_none (p : List String) (o : Option FsNode)
    (h : alterAt false (fun _ => some none) p o = none) : getAt p o = none := by
  induction p generalizing o with
  | nil => simp [alterAt] at h
  | cons x p ih =>
    cases o with
    | none => rfl
    | some n =>
      cases n with
      | file c m => rfl
      | dir es =>
        simp only [alterAt, Option.map_eq_none'] at h
        exact ih _ h

/-- Whatever a file system holds, once `ess.DeleteFiles` has run on a path and
`ess.MkDirAll` has succeeded on it, the path is an empty directory. -/
theorem deleted_then_made (s : Fs) (path : String) (perm : Nat)
    (hne : pathElems path ≠ [])
    (h : (Fs.mkDirAll path perm (Fs.deleteFiles path s)).1 = none) :
    (Fs.mkDirAll path perm (Fs.deleteFiles path s)).2.get path = some (.dir []) := by
  have hdel : getAt (pathElems path) (some (Fs.deleteFiles path s).root) = none := by
    unfold Fs.deleteFiles Fs.attempt Fs.alter
    cases hd : alterAt false (fun _ => some none) (pathElems path) (some s.root) with
    | none => exact alterAt_remove_none _ _ hd
    | some o1 =>
      cases o1 with
      | none =>
        cases hp : pathElems path with
        | nil => exact absurd hp hne
        | cons x p =>
          rw [hp] at hd
          obtain ⟨es, he⟩ := alterAt_cons_dir _ _ x p _ _ hd
          cases he
      | some t =>
        have := getAt_alterAt _ _ _ _ _ hd
        simp only [Option.some.injEq] at this
        exact this.symm
  unfold Fs.mkDirAll Fs.attempt Fs.alter at h ⊢
  cases hm : alterAt true mkdirNode (pathElems path) (some (Fs.deleteFiles path s).root) with
  | none => rw [hm] at h; simp at h
  | some o1 =>
    cases o1 with
    | none => rw [hm] at h; simp at h
    | some t =>
      have := getAt_alterAt _ _ _ _ _ hm
      rw [hdel] at this
      simp only [mkdirNode, Option.some.injEq] at this
      simp only [Fs.get]
      exact this.symm

theorem pathElems_tmp : pathElems "/tmp" = ["tmp"] := by
  decide

/-- What `ioutil.TempDir` answers in the file system: a path `/tmp/<name>` with a plain
name, that is now an empty directory; what stands outside `/tmp` is as it was. -/
theorem tempDir_spec (pfx t : String) (s : Fs) (h : (Fs.tempDir "" pfx s).1 = .ok t) :
    ∃ n, pathElems t = ["tmp", n] ∧ Filepath.IsAbs t = true
      ∧ getAt ["tmp", n] (some (Fs.tempDir "" pfx s).2.root) = some (.dir [])
      ∧ ∀ a q, a ≠ "tmp" →
          getAt (a :: q) (some (Fs.tempDir "" pfx s).2.root) = getAt (a :: q) (some s.root) := by
  unfold Fs.tempDir at h ⊢
  simp only [if_true] at h ⊢
  cases hf : s.names.find? (fun suffix => isPlainName (pfx ++ suffix)
      && (s.get (Filepath.Join ["/tmp", pfx ++ suffix])).isNone) with
  | none => rw [hf] at h; simp at h
  | some suffix =>
    rw [hf] at h
    simp only at h ⊢
    have hp := List.find?_some hf
    simp only [Bool.and_eq_true] at hp
    have hplain := isPlainName_spec _ hp.1
    have hel : pathElems (Filepath.Join ["/tmp", pfx ++ suffix]) = ["tmp", pfx ++ suffix] := by
      rw [pathElems_Join_two "/tmp" _ rfl hplain, pathElems_tmp]
      rfl
    unfold Fs.alter at h ⊢
    rw [hel] at h ⊢
    cases ha : alterAt false (placeNode (.dir [])) ["tmp", pfx ++ suffix] (some s.root) with
    | none => rw [ha] at h; simp at h
    | some o1 =>
      cases o1 with
      | none => rw [ha] at h; simp at h
      | some root1 =>
        rw [ha] at h
        simp only [Except.ok.injEq] at h
        subst h
        refine ⟨pfx ++ suffix, hel, Filepath.IsAbs_Join_two "/tmp" _ rfl, ?_, ?_⟩
        · have := getAt_alterAt _ _ _ _ _ ha
          cases hg : getAt ["tmp", pfx ++ suffix] (some s.root) with
          | some x => rw [hg] at this; simp [placeNode] at this
          | none =>
            rw [hg] at this
            simp only [placeNode, Option.some.injEq] at this
            exact this.symm
        · intro a q haq
          exact getAt_alterAt_other _ _ "tmp" a _ q _ _ ha haq

/-- The listing of a directory outside `/tmp` is the listing in the reference. -/
theorem dirsPath_ref (ref : FsNode) (R1 R2 : List String) (s1 s2 : Fs) (basePath : String)
    (recursive : Bool) (names : List String) (hp : Outside (pathElems basePath))
    (h : Staged ref R1 R2 s1.root s2.root) :
    Fs.dirsPath basePath recursive s1 = Fs.dirsPath basePath recursive ⟨ref, names⟩
    ∧ Fs.dirsPath basePath recursive s2 = Fs.dirsPath basePath recursive ⟨ref, names⟩ := by
  obtain ⟨a, q, hq, ha⟩ := hp
  unfold Fs.dirsPath Fs.get
  rw [hq, h.1 a q ha, h.2.1 a q ha]
  exact ⟨rfl, rfl⟩

/-- The part of the assembly after the binary gives the same answer in the two file
systems and leaves them side by side. -/
theorem copyAppFiles_staged (w0 : World Unit) (ref : FsNode) (cfg : Config)
    (appBaseDir appBinary appProfile root1 root2 : String) (p1 p2 : List String)
    (r1 r2 : Run Fs)
    (habs1 : Filepath.IsAbs root1 = true) (habs2 : Filepath.IsAbs root2 = true)
    (hR1 : pathElems root1 = "tmp" :: p1) (hR2 : pathElems root2 = "tmp" :: p2)
    (happ : Outside (pathElems appBaseDir))
    (hdirs : ∀ d ∈ (Fs.dirsPath appBaseDir false ⟨ref, []⟩).1, Outside (pathElems d))
    (h : Staged ref ("tmp" :: p1) ("tmp" :: p2) r1.state.root r2.state.root) :
    (copyAppFiles (fsWorld w0) cfg appBaseDir appBinary appProfile root1 r1).1.2
      = (copyAppFiles (fsWorld w0) cfg appBaseDir appBinary appProfile root2 r2).1.2
    ∧ ((copyAppFiles (fsWorld w0) cfg appBaseDir appBinary appProfile root1 r1).1.2 = none →
        (copyAppFiles (fsWorld w0) cfg appBaseDir appBinary appProfile root1 r1).1.1 = root1
        ∧ (copyAppFiles (fsWorld w0) cfg appBaseDir appBinary appProfile root2 r2).1.1 = root2)
    ∧ Staged ref ("tmp" :: p1) ("tmp" :: p2)
        (copyAppFiles (fsWorld w0) cfg appBaseDir appBinary appProfile root1 r1).2.state.root
        (copyAppFiles (fsWorld w0) cfg appBaseDir appBinary appProfile root2 r2).2.state.root := by
  cases hv : (fsWorld w0).validate (cfg.stringList "build.excludes").1 with
  | some err =>
    rw [copyAppFiles_validate_error _ cfg _ _ _ _ r1 err hv,
      copyAppFiles_validate_error _ cfg _ _ _ _ r2 err hv]
    exact ⟨rfl, fun h0 => by simp at h0, h⟩
  | none =>
    obtain ⟨hd1, hd2⟩ := dirsPath_ref ref _ _ r1.state r2.state appBaseDir false [] happ h
    have hl1 : ((fsWorld w0).dirsPath appBaseDir false r1.state).1
        = (Fs.dirsPath appBaseDir false ⟨ref, []⟩).1 := by
      show (Fs.dirsPath appBaseDir false r1.state).1 = _
      rw [hd1]
    have hl2 : ((fsWorld w0).dirsPath appBaseDir false r2.state).1
        = (Fs.dirsPath appBaseDir false ⟨ref, []⟩).1 := by
      show (Fs.dirsPath appBaseDir false r2.state).1 = _
      rw [hd2]
    obtain ⟨hres, hst⟩ := copyAppDirs_staged w0 ref root1 root2 p1 p2
      (cfg.stringList "build.excludes").1
      (excludeAndCreateSlice (cfg.stringList "build.excludes").1 "app") hR1 hR2
      (Fs.dirsPath appBaseDir false ⟨ref, []⟩).1
      ⟨r1.state, r1.calls ++ [.validate (cfg.stringList "build.excludes").1,
        .dirsPath appBaseDir false]⟩
      ⟨r2.state, r2.calls ++ [.validate (cfg.stringList "build.excludes").1,
        .dirsPath appBaseDir false]⟩ hdirs h
    rw [← hl1] at hres hst
    have hl12 : ((fsWorld w0).dirsPath appBaseDir false r2.state).1
        = ((fsWorld w0).dirsPath appBaseDir false r1.state).1 := hl2.trans hl1.symm
    cases hc1 : copyAppDirs (fsWorld w0) root1 (cfg.stringList "build.excludes").1
        (excludeAndCreateSlice (cfg.stringList "build.excludes").1 "app")
        ((fsWorld w0).dirsPath appBaseDir false r1.state).1
        ⟨r1.state, r1.calls ++ [.validate (cfg.stringList "build.excludes").1,
          .dirsPath appBaseDir false]⟩ with
    | mk res1 q1 =>
      cases hc2 : copyAppDirs (fsWorld w0) root2 (cfg.stringList "build.excludes").1
          (excludeAndCreateSlice (cfg.stringList "build.excludes").1 "app")
          ((fsWorld w0).dirsPath appBaseDir false r1.state).1
          ⟨r2.state, r2.calls ++ [.validate (cfg.stringList "build.excludes").1,
            .dirsPath appBaseDir false]⟩ with
      | mk res2 q2 =>
        rw [hc1, hc2] at hres hst
        simp only at hres hst
        subst hres
        rw [← hl12] at hc2
        cases res1 with
        | some err =>
          rw [copyAppFiles_copy_error _ cfg _ _ _ _ r1 q1 err hv hc1,
            copyAppFiles_copy_error _ cfg _ _ _ _ r2 q2 err hv hc2]
          exact ⟨rfl, fun h0 => by simp at h0, hst⟩
        | none =>
          rw [copyAppFiles_copy_ok _ cfg _ _ _ _ r1 q1 hv hc1,
            copyAppFiles_copy_ok _ cfg _ _ _ _ r2 q2 hv hc2]
          exact writeStartupFiles_staged w0 ref root1 root2 appBinary appProfile p1 p2 q1 q2
            habs1 habs2 hR1 hR2 hst

/-- Two assemblies of the same application in two file systems that agree outside `/tmp`:
they answer the same, each returns its staging root when it ends well, and they leave the
two file systems side by side, the staging roots holding the same. -/
theorem staging_side_by_side (w0 : World Unit) (cfg : Config)
    (appBaseDir appBinary appProfile : String) (r1 r2 : Run Fs) (t1 t2 : String)
    (hbase : Filepath.Plain (Filepath.Base appBinary).data)
    (hname : Filepath.Plain (w0.stripExt (Filepath.Base appBinary)).data)
    (hbin : Outside (pathElems appBinary))
    (happ : Outside (pathElems appBaseDir))
    (hdirs : ∀ d ∈ (Fs.dirsPath appBaseDir false r1.state).1, Outside (pathElems d))
    (hsame : ∀ a q, a ≠ "tmp" →
      getAt (a :: q) (some r2.state.root) = getAt (a :: q) (some r1.state.root))
    (ht1 : (Fs.tempDir "" (Filepath.Base appBinary) r1.state).1 = .ok t1)
    (ht2 : (Fs.tempDir "" (Filepath.Base appBinary) r2.state).1 = .ok t2) :
    (copyFilesToWorkingDir (fsWorld w0) cfg appBaseDir appBinary appProfile r1).1.2
      = (copyFilesToWorkingDir (fsWorld w0) cfg appBaseDir appBinary appProfile r2).1.2
    ∧ ((copyFilesToWorkingDir (fsWorld w0) cfg appBaseDir appBinary appProfile r1).1.2 = none →
        (copyFilesToWorkingDir (fsWorld w0) cfg appBaseDir appBinary appProfile r1).1.1
          = Filepath.Join [t1, w0.stripExt (Filepath.Base appBinary)]
        ∧ (copyFilesToWorkingDir (fsWorld w0) cfg appBaseDir appBinary appProfile r2).1.1
          = Filepath.Join [t2, w0.stripExt (Filepath.Base appBinary)])
    ∧ Staged r1.state.root
        (pathElems (Filepath.Join [t1, w0.stripExt (Filepath.Base appBinary)]))
        (pathElems (Filepath.Join [t2, w0.stripExt (Filepath.Base appBinary)]))
        (copyFilesToWorkingDir (fsWorld w0) cfg appBaseDir appBinary appProfile r1).2.state.root
        (copyFilesToWorkingDir (fsWorld w0) cfg appBaseDir appBinary appProfile r2).2.state.root := by
  obtain ⟨n1, hel1, habs1, hnew1, hout1⟩ := tempDir_spec _ t1 r1.state ht1
  obtain ⟨n2, hel2, habs2, hnew2, hout2⟩ := tempDir_spec _ t2 r2.state ht2
  have hroot1 : pathElems (Filepath.Join [t1, w0.stripExt (Filepath.Base appBinary)])
      = ("tmp" :: [n1]) ++ [w0.stripExt (Filepath.Base appBinary)] := by
    rw [pathElems_Join_two t1 _ habs1 hname, hel1]
  have hroot2 : pathElems (Filepath.Join [t2, w0.stripExt (Filepath.Base appBinary)])
      = ("tmp" :: [n2]) ++ [w0.stripExt (Filepath.Base appBinary)] := by
    rw [pathElems_Join_two t2 _ habs2 hname, hel2]
  obtain ⟨hm1, hg1, hf1⟩ := fresh_root _ [n1] (w0.stripExt (Filepath.Base appBinary))
    (Filepath.Join [t1, w0.stripExt (Filepath.Base appBinary)]) permRWXRXRX [] hnew1 hroot1
  obtain ⟨hm2, hg2, hf2⟩ := fresh_root _ [n2] (w0.stripExt (Filepath.Base appBinary))
    (Filepath.Join [t2, w0.stripExt (Filepath.Base appBinary)]) permRWXRXRX [] hnew2 hroot2
  have hstart : Staged r1.state.root
      ("tmp" :: [n1, w0.stripExt (Filepath.Base appBinary)])
      ("tmp" :: [n2, w0.stripExt (Filepath.Base appBinary)])
      (Fs.mkDirAll (Filepath.Join [t1, w0.stripExt (Filepath.Base appBinary)]) permRWXRXRX
        (Fs.deleteFiles (Filepath.Join [t1, w0.stripExt (Filepath.Base appBinary)])
          (Fs.tempDir "" (Filepath.Base appBinary) r1.state).2)).2.root
      (Fs.mkDirAll (Filepath.Join [t2, w0.stripExt (Filepath.Base appBinary)]) permRWXRXRX
        (Fs.deleteFiles (Filepath.Join [t2, w0.stripExt (Filepath.Base appBinary)])
          (Fs.tempDir "" (Filepath.Base appBinary) r2.state).2)).2.root := by
    refine ⟨?_, ?_, .dir [], hg1, hg2⟩
    · intro a q ha
      rw [hf1 a q ha, hout1 a q ha]
    · intro a q ha
      rw [hf2 a q ha, hout2 a q ha, hsame a q ha]
  have hR1 : pathElems (Filepath.Join [t1, w0.stripExt (Filepath.Base appBinary)])
      = "tmp" :: [n1, w0.stripExt (Filepath.Base appBinary)] := hroot1
  have hR2 : pathElems (Filepath.Join [t2, w0.stripExt (Filepath.Base appBinary)])
      = "tmp" :: [n2, w0.stripExt (Filepath.Base appBinary)] := hroot2
  rw [copyFilesToWorkingDir_root_ok (fsWorld w0) cfg _ _ _ r1 t1 ht1 hm1,
    copyFilesToWorkingDir_root_ok (fsWorld w0) cfg _ _ _ r2 t2 ht2 hm2, hR1, hR2]
  have hb := copyBinary_staged w0 r1.state.root
    (Filepath.Join [t1, w0.stripExt (Filepath.Base appBinary)])
    (Filepath.Join [t2, w0.stripExt (Filepath.Base appBinary)]) appBinary _ _
    ⟨((fsWorld w0).mkDirAll (Filepath.Join [t1, (fsWorld w0).stripExt (Filepath.Base appBinary)])
        permRWXRXRX
        ((fsWorld w0).deleteFiles
          (Filepath.Join [t1, (fsWorld w0).stripExt (Filepath.Base appBinary)])
          ((fsWorld w0).tempDir "" (Filepath.Base appBinary) r1.state).2)).2,
      r1.calls ++ [.tempDir "" (Filepath.Base appBinary),
        .deleteFiles (Filepath.Join [t1, (fsWorld w0).stripExt (Filepath.Base appBinary)]),
        .mkDirAll (Filepath.Join [t1, (fsWorld w0).stripExt (Filepath.Base appBinary)])
          permRWXRXRX]⟩
    ⟨((fsWorld w0).mkDirAll (Filepath.Join [t2, (fsWorld w0).stripExt (Filepath.Base appBinary)])
        permRWXRXRX
        ((fsWorld w0).deleteFiles
          (Filepath.Join [t2, (fsWorld w0).stripExt (Filepath.Base appBinary)])
          ((fsWorld w0).tempDir "" (Filepath.Base appBinary) r2.state).2)).2,
      r2.calls ++ [.tempDir "" (Filepath.Base appBinary),
        .deleteFiles (Filepath.Join [t2, (fsWorld w0).stripExt (Filepath.Base appBinary)]),
        .mkDirAll (Filepath.Join [t2, (fsWorld w0).stripExt (Filepath.Base appBinary)])
          permRWXRXRX]⟩
    (Filepath.IsAbs_Join_two t1 _ habs1) (Filepath.IsAbs_Join_two t2 _ habs2) hR1 hR2 hbase hbin
    hstart
  exact copyAppFiles_staged w0 r1.state.root cfg appBaseDir appBinary appProfile _ _ _ _ _ _
    (Filepath.IsAbs_Join_two t1 _ habs1) (Filepath.IsAbs_Join_two t2 _ habs2) hR1 hR2 happ
    hdirs hb

/-! ## Clean rebuild -/

/-- The calls of `copyFilesToWorkingDir` once the temporary directory is made: the staging
root is deleted, then created, and when it cannot be created nothing else is called; every
copy and every file written comes after and goes into the staging root. -/
theorem copyFilesToWorkingDir_root_first {σ : Type} (w : World σ) (cfg : Config)
    (appBaseDir appBinary appProfile : String) (r : Run σ) (tmpDir : String)
    (h : (w.tempDir "" (Filepath.Base appBinary) r.state).1 = .ok tmpDir) :
    ∃ rest, (copyFilesToWorkingDir w cfg appBaseDir appBinary appProfile r).2.calls
        = r.calls ++ [.tempDir "" (Filepath.Base appBinary),
            .deleteFiles (Filepath.Join [tmpDir, w.stripExt (Filepath.Base appBinary)]),
            .mkDirAll (Filepath.Join [tmpDir, w.stripExt (Filepath.Base appBinary)])
              permRWXRXRX] ++ rest
      ∧ (∀ err,
          (w.mkDirAll (Filepath.Join [tmpDir, w.stripExt (Filepath.Base appBinary)])
            permRWXRXRX
            (w.deleteFiles (Filepath.Join [tmpDir, w.stripExt (Filepath.Base appBinary)])
              (w.tempDir "" (Filepath.Base appBinary) r.state).2)).1 = some err →
          rest = []
          ∧ (copyFilesToWorkingDir w cfg appBaseDir appBinary appProfile r).1 = ("", some err))
      ∧ ∀ c ∈ rest,
          c.intoRoot (Filepath.Join [tmpDir, w.stripExt (Filepath.Base appBinary)]) := by
  cases hmk : (w.mkDirAll (Filepath.Join [tmpDir, w.stripExt (Filepath.Base appBinary)])
      permRWXRXRX
      (w.deleteFiles (Filepath.Join [tmpDir, w.stripExt (Filepath.Base appBinary)])
        (w.tempDir "" (Filepath.Base appBinary) r.state).2)).1 with
  | some err =>
    rw [copyFilesToWorkingDir_root_error w cfg _ _ _ r tmpDir err h hmk]
    refine ⟨[], by simp, ?_, by simp⟩
    intro err2 he
    injection he with he
    subst he
    exact ⟨rfl, rfl⟩
  | none =>
    rw [copyFilesToWorkingDir_root_ok w cfg _ _ _ r tmpDir h hmk]
    obtain ⟨logged, hb, hlog⟩ := copyBinary_eq w
      (Filepath.Join [tmpDir, w.stripExt (Filepath.Base appBinary)]) appBinary
      ⟨(w.mkDirAll (Filepath.Join [tmpDir, w.stripExt (Filepath.Base appBinary)])
          permRWXRXRX
          (w.deleteFiles (Filepath.Join [tmpDir, w.stripExt (Filepath.Base appBinary)])
            (w.tempDir "" (Filepath.Base appBinary) r.state).2)).2,
        r.calls ++ [.tempDir "" (Filepath.Base appBinary),
          .deleteFiles (Filepath.Join [tmpDir, w.stripExt (Filepath.Base appBinary)]),
          .mkDirAll (Filepath.Join [tmpDir, w.stripExt (Filepath.Base appBinary)])
            permRWXRXRX]⟩
    obtain ⟨new, hn, hnew⟩ := copyAppFiles_calls w cfg appBaseDir appBinary appProfile
      (Filepath.Join [tmpDir, w.stripExt (Filepath.Base appBinary)])
      (Call.intoRoot (Filepath.Join [tmpDir, w.stripExt (Filepath.Base appBinary)]))
      (fun _ => trivial) (fun _ _ => trivial) (fun _ => trivial) (fun _ _ => rfl)
      (fun _ _ => Or.inl rfl) (fun _ _ => Or.inr rfl)
      (copyBinary w (Filepath.Join [tmpDir, w.stripExt (Filepath.Base appBinary)]) appBinary
        ⟨(w.mkDirAll (Filepath.Join [tmpDir, w.stripExt (Filepath.Base appBinary)])
            permRWXRXRX
            (w.deleteFiles (Filepath.Join [tmpDir, w.stripExt (Filepath.Base appBinary)])
              (w.tempDir "" (Filepath.Base appBinary) r.state).2)).2,
          r.calls ++ [.tempDir "" (Filepath.Base appBinary),
            .deleteFiles (Filepath.Join [tmpDir, w.stripExt (Filepath.Base appBinary)]),
            .mkDirAll (Filepath.Join [tmpDir, w.stripExt (Filepath.Base appBinary)])
              permRWXRXRX]⟩)
    refine ⟨[.mkDirAll (Filepath.Join [Filepath.Join [tmpDir,
          w.stripExt (Filepath.Base appBinary)], "bin"]) permRWXRXRX,
        .copyFile (Filepath.Join [Filepath.Join [tmpDir,
          w.stripExt (Filepath.Base appBinary)], "bin"]) appBinary,
        .applyFileMode (Filepath.Join [Filepath.Join [Filepath.Join [tmpDir,
          w.stripExt (Filepath.Base appBinary)], "bin"], Filepath.Base appBinary])
          permRWXRXRX] ++ logged ++ new, ?_, ?_, ?_⟩
    · rw [hn, hb]
      simp
    · intro err he
      cases he
    · intro c hc
      rcases List.mem_append.1 hc with hc1 | hc1
      · rcases List.mem_append.1 hc1 with hc2 | hc2
        · simp only [List.mem_cons, List.mem_singleton, List.not_mem_nil, or_false] at hc2
          rcases hc2 with h0 | h0 | h0
          · subst h0; trivial
          · subst h0; exact rfl
          · subst h0; trivial
        · rcases hlog with h0 | ⟨e, h0⟩
          · rw [h0] at hc2
            simp at hc2
          · rw [h0] at hc2
            simp only [List.mem_singleton] at hc2
            subst hc2
            trivial
      · exact hnew c hc1

/-- C13: in `copyFilesToWorkingDir` the staging root
`<temporary directory>/<binary name without extension>` is deleted and then created
before anything is copied: in any world, once `ioutil.TempDir` has answered, the next
calls are `ess.DeleteFiles` and `ess.MkDirAll` on the root, nothing else is called when
the root cannot be created, and every copy and every file written comes after and goes
into the root. In a file system, whatever stood at the root before, it is an empty
directory once `ess.DeleteFiles` has run and `ess.MkDirAll` has succeeded. Therefore two
assemblies of the same application (same `appBaseDir`, binary, excludes and profile; the
application and its binary lie outside `/tmp`), in two file systems that hold the same
outside `/tmp` and anything inside (what earlier builds left behind), answer the same and
leave the same tree under their staging roots, the application being left as it was; in
particular a second assembly, run in the file system the first one left, stages the same
tree as the first. -/
theorem copyFilesToWorkingDir_clean_rebuild (w0 : World Unit) (cfg : Config)
    (appBaseDir appBinary appProfile : String) (r1 r2 : Run Fs)
    (hbase : Filepath.Plain (Filepath.Base appBinary).data)
    (hname : Filepath.Plain (w0.stripExt (Filepath.Base appBinary)).data)
    (hbin : Outside (pathElems appBinary))
    (happ : Outside (pathElems appBaseDir))
    (hdirs : ∀ d ∈ (Fs.dirsPath appBaseDir false r1.state).1, Outside (pathElems d))
    (hsame : ∀ a q, a ≠ "tmp" →
      getAt (a :: q) (some r2.state.root) = getAt (a :: q) (some r1.state.root)) :
    (∀ (σ : Type) (w : World σ) (r : Run σ) (tmpDir : String),
      (w.tempDir "" (Filepath.Base appBinary) r.state).1 = .ok tmpDir →
      ∃ rest, (copyFilesToWorkingDir w cfg appBaseDir appBinary appProfile r).2.calls
          = r.calls ++ [.tempDir "" (Filepath.Base appBinary),
              .deleteFiles (Filepath.Join [tmpDir, w.stripExt (Filepath.Base appBinary)]),
              .mkDirAll (Filepath.Join [tmpDir, w.stripExt (Filepath.Base appBinary)])
                permRWXRXRX] ++ rest
        ∧ (∀ err,
            (w.mkDirAll (Filepath.Join [tmpDir, w.stripExt (Filepath.Base appBinary)])
              permRWXRXRX
              (w.deleteFiles (Filepath.Join [tmpDir, w.stripExt (Filepath.Base appBinary)])
                (w.tempDir "" (Filepath.Base appBinary) r.state).2)).1 = some err →
            rest = []
            ∧ (copyFilesToWorkingDir w cfg appBaseDir appBinary appProfile r).1
              = ("", some err))
        ∧ ∀ c ∈ rest,
            c.intoRoot (Filepath.Join [tmpDir, w.stripExt (Filepath.Base appBinary)]))
    ∧ (∀ (s : Fs) (tmpDir : String), Filepath.IsAbs tmpDir = true →
      ((fsWorld w0).mkDirAll
        (Filepath.Join [tmpDir, (fsWorld w0).stripExt (Filepath.Base appBinary)]) permRWXRXRX
        ((fsWorld w0).deleteFiles
          (Filepath.Join [tmpDir, (fsWorld w0).stripExt (Filepath.Base appBinary)]) s)).1
        = none →
      ((fsWorld w0).mkDirAll
        (Filepath.Join [tmpDir, (fsWorld w0).stripExt (Filepath.Base appBinary)]) permRWXRXRX
        ((fsWorld w0).deleteFiles
          (Filepath.Join [tmpDir, (fsWorld w0).stripExt (Filepath.Base appBinary)]) s)).2.get
          (Filepath.Join [tmpDir, (fsWorld w0).stripExt (Filepath.Base appBinary)])
        = some (.dir []))
    ∧ (∀ t1 t2,
      ((fsWorld w0).tempDir "" (Filepath.Base appBinary) r1.state).1 = .ok t1 →
      ((fsWorld w0).tempDir "" (Filepath.Base appBinary) r2.state).1 = .ok t2 →
      (copyFilesToWorkingDir (fsWorld w0) cfg appBaseDir appBinary appProfile r1).1.2
        = (copyFilesToWorkingDir (fsWorld w0) cfg appBaseDir appBinary appProfile r2).1.2
      ∧ ((copyFilesToWorkingDir (fsWorld w0) cfg appBaseDir appBinary appProfile r1).1.2
          = none →
        (copyFilesToWorkingDir (fsWorld w0) cfg appBaseDir appBinary appProfile r1).1.1
          = Filepath.Join [t1, w0.stripExt (Filepath.Base appBinary)]
        ∧ (copyFilesToWorkingDir (fsWorld w0) cfg appBaseDir appBinary appProfile r2).1.1
          = Filepath.Join [t2, w0.stripExt (Filepath.Base appBinary)])
      ∧ (∃ staged,
        (copyFilesToWorkingDir (fsWorld w0) cfg appBaseDir appBinary appProfile r1).2.state.get
            (Filepath.Join [t1, w0.stripExt (Filepath.Base appBinary)]) = some staged
        ∧ (copyFilesToWorkingDir (fsWorld w0) cfg appBaseDir appBinary appProfile
            r2).2.state.get
            (Filepath.Join [t2, w0.stripExt (Filepath.Base appBinary)]) = some staged)
      ∧ ∀ path, Outside (pathElems path) →
        (copyFilesToWorkingDir (fsWorld w0) cfg appBaseDir appBinary appProfile r1).2.state.get
            path = r1.state.get path
        ∧ (copyFilesToWorkingDir (fsWorld w0) cfg appBaseDir appBinary appProfile
            r2).2.state.get path = r2.state.get path)
    ∧ (∀ t1 t2,
      ((fsWorld w0).tempDir "" (Filepath.Base appBinary) r1.state).1 = .ok t1 →
      ((fsWorld w0).tempDir "" (Filepath.Base appBinary)
        (copyFilesToWorkingDir (fsWorld w0) cfg appBaseDir appBinary appProfile
          r1).2.state).1 = .ok t2 →
      (copyFilesToWorkingDir (fsWorld w0) cfg appBaseDir appBinary appProfile
          (copyFilesToWorkingDir (fsWorld w0) cfg appBaseDir appBinary appProfile r1).2).1.2
        = (copyFilesToWorkingDir (fsWorld w0) cfg appBaseDir appBinary appProfile r1).1.2
      ∧ ∃ staged,
        (copyFilesToWorkingDir (fsWorld w0) cfg appBaseDir appBinary appProfile r1).2.state.get
            (Filepath.Join [t1, w0.stripExt (Filepath.Base appBinary)]) = some staged
        ∧ (copyFilesToWorkingDir (fsWorld w0) cfg appBaseDir appBinary appProfile
            (copyFilesToWorkingDir (fsWorld w0) cfg appBaseDir appBinary appProfile
              r1).2).2.state.get
            (Filepath.Join [t2, w0.stripExt (Filepath.Base appBinary)]) = some staged) := by
  refine ⟨?_, ?_, ?_, ?_⟩
  · intro σ w r tmpDir h
    exact copyFilesToWorkingDir_root_first w cfg appBaseDir appBinary appProfile r tmpDir h
  · intro s tmpDir habs hmk
    apply deleted_then_made s _ permRWXRXRX _ hmk
    show pathElems (Filepath.Join [tmpDir, w0.stripExt (Filepath.Base appBinary)]) ≠ []
    rw [pathElems_Join_two tmpDir _ habs hname]
    simp
  · intro t1 t2 ht1 ht2
    obtain ⟨h1, h2, ⟨ho1, ho2, m, hm1, hm2⟩⟩ := staging_side_by_side w0 cfg appBaseDir
      appBinary appProfile r1 r2 t1 t2 hbase hname hbin happ hdirs hsame ht1 ht2
    refine ⟨h1, h2, ⟨m, hm1, hm2⟩, ?_⟩
    intro path hp
    obtain ⟨a, q, hq, ha⟩ := hp
    unfold Fs.get
    rw [hq, ho1 a q ha, ho2 a q ha, hsame a q ha]
    exact ⟨rfl, rfl⟩
  · intro t1 t2 ht1 ht2
    obtain ⟨_, _, ⟨hf, _, _⟩⟩ := staging_side_by_side w0 cfg appBaseDir appBinary appProfile
      r1 r1 t1 t1 hbase hname hbin happ hdirs (fun _ _ _ => rfl) ht1 ht1
    obtain ⟨h1, _, ⟨_, _, m, hm1, hm2⟩⟩ := staging_side_by_side w0 cfg appBaseDir appBinary
      appProfile r1
      (copyFilesToWorkingDir (fsWorld w0) cfg appBaseDir appBinary appProfile r1).2 t1 t2
      hbase hname hbin happ hdirs hf ht1 ht2
    exact ⟨h1.symm, m, hm1, hm2⟩

theorem sampleFs_dirs :
    (Fs.dirsPath "/proj" false sampleFs).1 = ["/proj/app", "/proj/config", "/proj/build"] := by
  decide

/-- C13 (example): the sample application is assembled in an empty `/tmp` and in a `/tmp`
where an interrupted build left `/tmp/myapp042/myapp/stale.txt`. The two assemblies
answer the same, the first in `/tmp/myapp042`, the second in `/tmp/myapp043`, and leave the
same tree under their staging roots. -/
theorem copyFilesToWorkingDir_clean_rebuild_witness :
    ((fsWorld quietWorld).tempDir "" "myapp" sampleFs).1 = .ok "/tmp/myapp042"
    ∧ ((fsWorld quietWorld).tempDir "" "myapp" staleFs).1 = .ok "/tmp/myapp043"
    ∧ staleFs.get "/tmp/myapp042/myapp/stale.txt" = some (.file "left behind" 0o644)
    ∧ (copyFilesToWorkingDir (fsWorld quietWorld) sampleConfig "/proj" "/proj/build/bin/myapp"
          "qa" ⟨sampleFs, []⟩).1.2
      = (copyFilesToWorkingDir (fsWorld quietWorld) sampleConfig "/proj"
          "/proj/build/bin/myapp" "qa" ⟨staleFs, []⟩).1.2
    ∧ ∃ staged,
      (copyFilesToWorkingDir (fsWorld quietWorld) sampleConfig "/proj" "/proj/build/bin/myapp"
          "qa" ⟨sampleFs, []⟩).2.state.get "/tmp/myapp042/myapp" = some staged
      ∧ (copyFilesToWorkingDir (fsWorld quietWorld) sampleConfig "/proj"
          "/proj/build/bin/myapp" "qa" ⟨staleFs, []⟩).2.state.get "/tmp/myapp043/myapp"
        = some staged := by
  have ht1 : ((fsWorld quietWorld).tempDir "" (Filepath.Base "/proj/build/bin/myapp")
      sampleFs).1 = .ok "/tmp/myapp042" := rfl
  have ht2 : ((fsWorld quietWorld).tempDir "" (Filepath.Base "/proj/build/bin/myapp")
      staleFs).1 = .ok "/tmp/myapp043" := rfl
  have hplain : Filepath.Plain "myapp".data := by
    refine ⟨?_, ?_, ?_, ?_⟩ <;> decide
  have key := (copyFilesToWorkingDir_clean_rebuild quietWorld sampleConfig "/proj"
    "/proj/build/bin/myapp" "qa" ⟨sampleFs, []⟩ ⟨staleFs, []⟩ hplain hplain
    ⟨"proj", ["build", "bin", "myapp"], by decide, by decide⟩
    ⟨"proj", [], by decide, by decide⟩
    (by
      intro d hd
      rw [show (Fs.dirsPath "/proj" false (⟨sampleFs, []⟩ : Run Fs).state).1
        = ["/proj/app", "/proj/config", "/proj/build"] from sampleFs_dirs] at hd
      simp only [List.mem_cons, List.mem_singleton, List.not_mem_nil, or_false] at hd
      rcases hd with h | h | h
      · exact ⟨"proj", ["app"], by rw [h]; decide, by decide⟩
      · exact ⟨"proj", ["config"], by rw [h]; decide, by decide⟩
      · exact ⟨"proj", ["build"], by rw [h]; decide, by decide⟩)
    (by
      intro a q ha
      have h0 : ¬ "tmp" = a := fun h => ha h.symm
      simp [getAt, entryFind, staleFs, sampleFs, h0])).2.2.1
    "/tmp/myapp042" "/tmp/myapp043" ht1 ht2
  obtain ⟨h1, _, h3, _⟩ := key
  exact ⟨rfl, rfl, rfl, h1, h3⟩

/-- The assembly of `/proj` on `staleFs`, as a tree: the binary under `bin` with the execute
bits, the directories of the application other than `app`, and the two startup scripts with
the execute bits; what the interrupted build left in `/tmp/myapp042` is not part of it. -/
theorem copyFilesToWorkingDir_staged_example :
    (copyFilesToWorkingDir (fsWorld lineWorld) sampleConfig "/proj" "/proj/build/bin/myapp"
        "qa" ⟨staleFs, []⟩).1 = ("/tmp/myapp043/myapp", none)
    ∧ (copyFilesToWorkingDir (fsWorld lineWorld) sampleConfig "/proj" "/proj/build/bin/myapp"
        "qa" ⟨staleFs, []⟩).2.state.get "/tmp/myapp043/myapp"
      = some (.dir [("bin", .dir [("myapp", .file "binary" 0o755)]),
          ("config", .dir [("app.conf", .file "env.default = dev" 0o644)]),
          ("build", .dir [("bin", .dir [("myapp", .file "binary" 0o644)])]),
          ("aah.sh", .file "APP_ENV_PROFILE=qa" 0o755),
          ("aah.cmd", .file "APP_ENV_PROFILE=qa" 0o755)]) := by
  constructor <;> rfl

/-! ## What the staged tree holds -/

/-- An entry of what `ess.CopyDir` copies has a name that is not excluded, and is what is
copied of an entry of the source. -/
theorem entryFind_pruneEntries (excluded : String → Bool) (x : String)
    (es : List (String × FsNode)) (m : FsNode)
    (h : entryFind x (pruneEntries excluded es) = some m) :
    excluded x = false ∧ ∃ m0, m = pruneNode excluded m0 := by
  induction es with
  | nil => simp [pruneEntries, entryFind] at h
  | cons e rest ih =>
    obtain ⟨n, node⟩ := e
    cases hex : excluded n with
    | true =>
      simp only [pruneEntries, hex, if_true] at h
      exact ih h
    | false =>
      simp only [pruneEntries, hex, entryFind] at h
      by_cases hn : n = x
      · subst hn
        simp only [if_true, Option.some.injEq] at h
        exact ⟨hex, node, h.symm⟩
      · rw [if_neg hn] at h
        exact ih h

/-- No name on a path into what `ess.CopyDir` copies is excluded. -/
theorem getAt_pruneEntries (excluded : String → Bool) :
    ∀ (q : List String) (x : String) (es : List (String × FsNode)) (m : FsNode),
      getAt (x :: q) (some (.dir (pruneEntries excluded es))) = some m →
      ∀ n ∈ x :: q, excluded n = false := by
  intro q
  induction q with
  | nil =>
    intro x es m h n hn
    simp only [getAt] at h
    simp only [List.mem_singleton] at hn
    subst hn
    exact (entryFind_pruneEntries excluded n es m h).1
  | cons y q ih =>
    intro x es m h n hn
    simp only [getAt] at h
    cases hf : entryFind x (pruneEntries excluded es) with
    | none => rw [hf, getAt_none] at h; cases h
    | some node =>
      obtain ⟨hx, m0, hm0⟩ := entryFind_pruneEntries excluded x es node hf
      rw [hf] at h
      simp only [List.mem_cons] at hn
      rcases hn with hn | hn
      · rw [hn]; exact hx
      · subst hm0
        cases m0 with
        | file c k => simp [pruneNode, getAt] at h
        | dir es0 =>
          simp only [pruneNode] at h
          exact ih y es0 m h n (by simpa using hn)

/-- Where a directory stands once a path is changed: it was a directory before, or it
stands in what the change put at the path, or it is a parent that the change made. -/
theorem getAt_alterAt_dir (mk : Bool) (f : Option FsNode → Option (Option FsNode)) :
    ∀ (p q : List String) (o o1 : Option FsNode) (es : List (String × FsNode)),
      alterAt mk f p o = some o1 → getAt q o1 = some (.dir es) →
      (∃ es0, getAt q o = some (.dir es0))
      ∨ (∃ q2 res, q = p ++ q2 ∧ f (getAt p o) = some res ∧ getAt q2 res = some (.dir es))
      ∨ (mk = true ∧ ∃ p2, p2 ≠ [] ∧ p = q ++ p2) := by
  intro p
  induction p with
  | nil =>
    intro q o o1 es h hq
    exact Or.inr (Or.inl ⟨q, o1, rfl, h, hq⟩)
  | cons x p ih =>
    intro q o o1 es h hq
    cases o with
    | none =>
      simp only [alterAt] at h
      cases hmk : mk with
      | false => rw [hmk] at h; simp at h
      | true =>
        rw [hmk] at h
        simp only [if_true, Option.map_eq_some'] at h
        obtain ⟨o2, h2, h3⟩ := h
        subst h3
        cases q with
        | nil => exact Or.inr (Or.inr ⟨rfl, x :: p, by simp, rfl⟩)
        | cons y q =>
          simp only [getAt] at hq
          by_cases hy : y = x
          · subst hy
            rw [entryFind_put_self] at hq
            rw [hmk] at ih
            rcases ih q none o2 es h2 hq with ⟨es0, h0⟩ | ⟨q2, res, hq2, hres, hget⟩ | ⟨_, p2, hp2, hp⟩
            · rw [getAt_none] at h0; cases h0
            · refine Or.inr (Or.inl ⟨q2, res, by rw [hq2]; rfl, ?_, hget⟩)
              rw [getAt_none] at hres ⊢
              exact hres
            · exact Or.inr (Or.inr ⟨rfl, p2, hp2, by rw [hp]; rfl⟩)
          · rw [entryFind_put_other x y o2 [] hy] at hq
            simp [entryFind, getAt_none] at hq
    | some n =>
      cases n with
      | file c m => simp [alterAt] at h
      | dir es1 =>
        simp only [alterAt, Option.map_eq_some'] at h
        obtain ⟨o2, h2, h3⟩ := h
        subst h3
        cases q with
        | nil => exact Or.inl ⟨es1, rfl⟩
        | cons y q =>
          simp only [getAt] at hq
          by_cases hy : y = x
          · subst hy
            rw [entryFind_put_self] at hq
            rcases ih q _ o2 es h2 hq with ⟨es0, h0⟩ | ⟨q2, res, hq2, hres, hget⟩ | ⟨hmk, p2, hp2, hp⟩
            · exact Or.inl ⟨es0, h0⟩
            · exact Or.inr (Or.inl ⟨q2, res, by rw [hq2]; rfl, hres, hget⟩)
            · exact Or.inr (Or.inr ⟨hmk, p2, hp2, by rw [hp]; rfl⟩)
          · rw [entryFind_put_other x y o2 es1 hy] at hq
            exact Or.inl ⟨es, hq⟩

/-- A change that makes no directory, at a path whose parents exist, leaves no directory
where none was. -/
theorem alterAt_keeps_dirs (f : Option FsNode → Option (Option FsNode))
    (hf : ∀ o res q es, f o = some res → getAt q res = some (.dir es) →
      ∃ es0, getAt q o = some (.dir es0))
    (p q : List String) (o o1 : Option FsNode) (es : List (String × FsNode))
    (h : alterAt false f p o = some o1) (hq : getAt q o1 = some (.dir es)) :
    ∃ es0, getAt q o = some (.dir es0) := by
  rcases getAt_alterAt_dir false f p q o o1 es h hq with h0 | ⟨q2, res, hq2, hres, hget⟩ | ⟨hmk, _⟩
  · exact h0
  · obtain ⟨es0, h0⟩ := hf _ res q2 es hres hget
    exact ⟨es0, by rw [hq2, getAt_append]; exact h0⟩
  · cases hmk

theorem chmodNode_keeps_dirs (perm : Nat) (o res : Option FsNode) (q : List String)
    (es : List (String × FsNode)) (h : chmodNode perm o = some res)
    (hq : getAt q res = some (.dir es)) : ∃ es0, getAt q o = some (.dir es0) := by
  cases o with
  | none => simp [chmodNode] at h
  | some n =>
    cases n with
    | file c m =>
      simp only [chmodNode, Option.some.injEq] at h
      subst h
      cases q <;> simp [getAt] at hq
    | dir es1 =>
      simp only [chmodNode, Option.some.injEq] at h
      subst h
      exact ⟨es, hq⟩

theorem writeNode_keeps_dirs (data : String) (perm : Nat) (o res : Option FsNode)
    (q : List String) (es : List (String × FsNode)) (h : writeNode data perm o = some res)
    (hq : getAt q res = some (.dir es)) : ∃ es0, getAt q o = some (.dir es0) := by
  cases o with
  | none =>
    simp only [writeNode, Option.some.injEq] at h
    subst h
    cases q <;> simp [getAt] at hq
  | some n =>
    cases n with
    | file c m =>
      simp only [writeNode, Option.some.injEq] at h
      subst h
      cases q <;> simp [getAt] at hq
    | dir es1 => simp [writeNode] at h

theorem placeNode_file_keeps_dirs (content : String) (mode : Nat) (o res : Option FsNode)
    (q : List String) (es : List (String × FsNode))
    (h : placeNode (.file content mode) o = some res)
    (hq : getAt q res = some (.dir es)) : ∃ es0, getAt q o = some (.dir es0) := by
  cases o with
  | none =>
    simp only [placeNode, Option.some.injEq] at h
    subst h
    cases q <;> simp [getAt] at hq
  | some n => simp [placeNode] at h

/-- A call that makes no directory leaves the directories staged as they should be. -/
theorem attempt_keeps_staged (excluded : String → Bool) (R : List String) (s : Fs)
    (f : Option FsNode → Option (Option FsNode))
    (hf : ∀ o res q es, f o = some res → getAt q res = some (.dir es) →
      ∃ es0, getAt q o = some (.dir es0))
    (p : List String) (err : String) (h : DirsStaged excluded R s.root) :
    DirsStaged excluded R (s.attempt false f p err).2.root := by
  unfold Fs.attempt Fs.alter
  cases ha : alterAt false f p (some s.root) with
  | none => exact h
  | some o1 =>
    cases o1 with
    | none => exact h
    | some t =>
      intro x q es hq
      obtain ⟨es0, h0⟩ := alterAt_keeps_dirs f hf p _ _ _ es ha hq
      exact h x q es0 h0

/-- The directory `bin` made in the staging root leaves the directories staged as they
should be. -/
theorem mkDirAll_bin_staged (excluded : String → Bool) (R : List String) (s : Fs)
    (path : String) (perm : Nat) (hp : pathElems path = R ++ ["bin"])
    (h : DirsStaged excluded R s.root) :
    DirsStaged excluded R (Fs.mkDirAll path perm s).2.root := by
  unfold Fs.mkDirAll Fs.attempt Fs.alter
  rw [hp]
  cases ha : alterAt true mkdirNode (R ++ ["bin"]) (some s.root) with
  | none => exact h
  | some o1 =>
    cases o1 with
    | none => exact h
    | some t =>
      intro x q es hq
      rcases getAt_alterAt_dir true mkdirNode _ _ _ _ es ha hq with
        ⟨es0, h0⟩ | ⟨q2, res, hq2, hres, hget⟩ | ⟨_, p2, hp2, hpe⟩
      · exact h x q es0 h0
      · rw [List.append_assoc] at hq2
        have hxq := List.append_cancel_left hq2
        simp only [List.singleton_append] at hxq
        cases q2 with
        | nil => exact Or.inl hxq
        | cons y q3 =>
          cases hb : getAt (R ++ ["bin"]) (some s.root) with
          | none =>
            rw [hb] at hres
            simp only [mkdirNode, Option.some.injEq] at hres
            subst hres
            simp [getAt, entryFind, getAt_none] at hget
          | some n =>
            cases n with
            | file c m => rw [hb] at hres; simp [mkdirNode] at hres
            | dir es1 =>
              rw [hb] at hres
              simp only [mkdirNode, Option.some.injEq] at hres
              subst hres
              apply h x q es
              rw [hxq, show R ++ "bin" :: y :: q3 = (R ++ ["bin"]) ++ y :: q3 by simp,
                getAt_append, hb]
              exact hget
      · exfalso
        rw [List.append_assoc] at hpe
        have := List.append_cancel_left hpe
        simp only [List.cons_append, List.cons.injEq] at this
        have h2 := this.2
        cases q with
        | nil => exact hp2 (by simpa using h2.symm)
        | cons a b => simp at h2

theorem copyFile_keeps_staged (excluded : String → Bool) (R : List String) (s : Fs)
    (destDir src : String) (h : DirsStaged excluded R s.root) :
    DirsStaged excluded R (Fs.copyFile destDir src s).2.root := by
  unfold Fs.copyFile
  split
  · exact attempt_keeps_staged excluded R s _ (placeNode_file_keeps_dirs _ _) _ _ h
  · exact h

theorem applyFileMode_keeps_staged (excluded : String → Bool) (R : List String) (s : Fs)
    (path : String) (perm : Nat) (h : DirsStaged excluded R s.root) :
    DirsStaged excluded R (Fs.applyFileMode path perm s).2.root :=
  attempt_keeps_staged excluded R s _ (chmodNode_keeps_dirs perm) _ _ h

theorem writeFile_keeps_staged (excluded : String → Bool) (R : List String) (s : Fs)
    (path data : String) (perm : Nat) (h : DirsStaged excluded R s.root) :
    DirsStaged excluded R (Fs.writeFile path data perm s).2.root :=
  attempt_keeps_staged excluded R s _ (writeNode_keeps_dirs data perm) _ _ h

/-- A copy of a directory into the staging root, with the excludes by which the
directories are staged, leaves them staged as they should be. -/
theorem copyDir_keeps_staged (globMatch : String → String → Bool) (excludes : List String)
    (R : List String) (s : Fs) (dest src : String) (hd : pathElems dest = R)
    (h : DirsStaged (fun n => excludes.any (fun p => globMatch p n)) R s.root) :
    DirsStaged (fun n => excludes.any (fun p => globMatch p n)) R
      (Fs.copyDir globMatch dest src excludes s).2.root := by
  unfold Fs.copyDir
  rw [hd]
  split
  · rename_i es1 name _ _
    split
    · exact h
    · rename_i hname
      unfold Fs.attempt Fs.alter
      cases ha : alterAt false
          (placeNode (.dir (pruneEntries (fun n => excludes.any (fun p => globMatch p n)) es1)))
          (R ++ [name]) (some s.root) with
      | none => exact h
      | some o1 =>
        cases o1 with
        | none => exact h
        | some t =>
          intro x q es hq
          rcases getAt_alterAt_dir false _ _ _ _ _ es ha hq with
            ⟨es0, h0⟩ | ⟨q2, res, hq2, hres, hget⟩ | ⟨hmk, _⟩
          · exact h x q es0 h0
          · rw [List.append_assoc] at hq2
            have hxq := List.append_cancel_left hq2
            simp only [List.singleton_append] at hxq
            have hn : excludes.any (fun p => globMatch p name) = false := by
              simpa using hname
            have hresd : res = some (.dir (pruneEntries
                (fun n => excludes.any (fun p => globMatch p n)) es1)) := by
              cases hg : getAt (R ++ [name]) (some s.root) with
              | none =>
                rw [hg] at hres
                simp only [placeNode, Option.some.injEq] at hres
                exact hres.symm
              | some n => rw [hg] at hres; simp [placeNode] at hres
            subst hresd
            refine Or.inr ?_
            rw [hxq]
            intro n hmem
            simp only [List.mem_cons] at hmem
            rcases hmem with hmem | hmem
            · rw [hmem]; exact hn
            · cases q2 with
              | nil => simp at hmem
              | cons y q3 =>
                exact getAt_pruneEntries _ q3 y es1 _ hget n (by simpa using hmem)
          · cases hmk
  · exact h

/-! ### The states an assembly goes through -/

theorem copyBinary_inv {σ : Type} (w : World σ) (buildBaseDir appBinary : String)
    (P : σ → Prop)
    (hmk : ∀ s, P s → P (w.mkDirAll (Filepath.Join [buildBaseDir, "bin"]) permRWXRXRX s).2)
    (hcp : ∀ d f s, P s → P (w.copyFile d f s).2)
    (hmode : ∀ p s, P s → P (w.applyFileMode p permRWXRXRX s).2)
    (r : Run σ) (h : P r.state) : P (copyBinary w buildBaseDir appBinary r).state := by
  rw [copyBinary_state]
  exact hmode _ _ (hcp _ _ _ (hmk _ h))

theorem copyAppDirs_inv {σ : Type} (w : World σ) (buildBaseDir : String)
    (excludes subTreeExcludes : List String) (P : σ → Prop)
    (hcopy : ∀ d s, P s → P (w.copyDir buildBaseDir d subTreeExcludes s).2) :
    ∀ (dirs : List String) (r : Run σ), P r.state →
      P (copyAppDirs w buildBaseDir excludes subTreeExcludes dirs r).2.state := by
  intro dirs
  induction dirs with
  | nil => intro r h; exact h
  | cons d rest ih =>
    intro r h
    unfold copyAppDirs
    split
    · exact ih r h
    · simp only []
      split
      · split
        · exact hcopy d _ h
        · exact ih _ (hcopy d _ h)
      · exact ih _ h

theorem writeStartupFiles_inv {σ : Type} (w : World σ)
    (buildBaseDir appBinary appProfile : String) (P : σ → Prop)
    (hwrite : ∀ p d s, P s → P (w.writeFile p d permRWXRXRX s).2)
    (r : Run σ) (h : P r.state) :
    P (writeStartupFiles w buildBaseDir appBinary appProfile r).2.state := by
  unfold writeStartupFiles
  simp only []
  split
  · exact h
  · split
    · exact hwrite _ _ _ h
    · split
      · exact hwrite _ _ _ h
      · exact hwrite _ _ _ (hwrite _ _ _ h)

theorem copyAppFiles_inv {σ : Type} (w : World σ) (cfg : Config)
    (appBaseDir appBinary appProfile buildBaseDir : String) (P : σ → Prop)
    (hcopy : ∀ d s, P s → P (w.copyDir buildBaseDir d
      (excludeAndCreateSlice (cfg.stringList "build.excludes").1 "app") s).2)
    (hwrite : ∀ p d s, P s → P (w.writeFile p d permRWXRXRX s).2)
    (r : Run σ) (h : P r.state) :
    P (copyAppFiles w cfg appBaseDir appBinary appProfile buildBaseDir r).2.state := by
  unfold copyAppFiles
  simp only []
  split
  · exact h
  · have hloop := copyAppDirs_inv w buildBaseDir (cfg.stringList "build.excludes").1
      (excludeAndCreateSlice (cfg.stringList "build.excludes").1 "app") P hcopy
      (w.dirsPath appBaseDir false (r.log (.validate (cfg.stringList "build.excludes").1)).state).1
      ((r.log (.validate (cfg.stringList "build.excludes").1)).log (.dirsPath appBaseDir false)) h
    split
    · rename_i heq
      rw [heq] at hloop
      exact hloop
    · rename_i heq
      rw [heq] at hloop
      exact writeStartupFiles_inv w buildBaseDir appBinary appProfile P hwrite _ hloop

/-- A name that the subtree excludes do not match is not `app` and matches no pattern of
the excludes. -/
theorem subTreeExcludes_spec {σ : Type} (w : World σ) (excludes : List String)
    (hglob : w.globMatch "app" "app" = true) (name : String)
    (h : Ess.ExcludesMatch w (excludeAndCreateSlice excludes "app") name = false) :
    name ≠ "app" ∧ Ess.ExcludesMatch w excludes name = false := by
  unfold excludeAndCreateSlice at h
  rw [ExcludesMatch_append, Bool.or_eq_false_iff] at h
  refine ⟨?_, h.1⟩
  intro hn
  have h2 := h.2
  rw [hn] at h2
  simp [Ess.ExcludesMatch, hglob] at h2

/-- The subtree copies of `copyFilesToWorkingDir`, in any world: each is for a directory
whose base name matches no pattern of `build.excludes`, with the subtree excludes. -/
theorem copyFilesToWorkingDir_copyDir_calls {σ : Type} (w : World σ) (cfg : Config)
    (appBaseDir appBinary appProfile : String) (r : Run σ) :
    ∃ new, (copyFilesToWorkingDir w cfg appBaseDir appBinary appProfile r).2.calls
        = r.calls ++ new
      ∧ ∀ dest src ex, Call.copyDir dest src ex ∈ new →
        Ess.ExcludesMatch w (cfg.stringList "build.excludes").1 (Filepath.Base src) = false
        ∧ ex = excludeAndCreateSlice (cfg.stringList "build.excludes").1 "app" := by
  obtain ⟨new, h1, h2⟩ := copyFilesToWorkingDir_calls w cfg appBaseDir appBinary appProfile
    (fun c => ∀ dest src ex, c = Call.copyDir dest src ex →
      Ess.ExcludesMatch w (cfg.stringList "build.excludes").1 (Filepath.Base src) = false
      ∧ ex = excludeAndCreateSlice (cfg.stringList "build.excludes").1 "app")
    (by intro _ _ _ _ _ h; cases h) (by intro _ _ _ _ h; cases h)
    (by intro _ _ _ _ _ h; cases h) (by intro _ _ _ _ _ h; cases h)
    (by intro _ _ _ _ _ h; cases h) (by intro _ _ _ _ h; cases h)
    (by intro _ _ _ _ h; cases h) (by intro _ _ _ _ _ h; cases h)
    (by intro _ _ _ _ h; cases h)
    (by
      intro root src hm dest src2 ex h
      injection h with _ hs he
      exact ⟨by rw [← hs]; exact hm, he.symm⟩)
    (by intro _ _ _ _ _ _ h; cases h) (by intro _ _ _ _ _ _ h; cases h) r
  exact ⟨new, h1, fun dest src ex hmem => h2 _ hmem dest src ex rfl⟩

/-- The directories that an assembly leaves under its staging root, in a file system: the
directory `bin`, and directories at paths none of whose names the subtree excludes
match. -/
theorem copyFilesToWorkingDir_dirs_staged (w0 : World Unit) (cfg : Config)
    (appBaseDir appBinary appProfile : String) (r : Run Fs) (tmpDir : String)
    (hname : Filepath.Plain (w0.stripExt (Filepath.Base appBinary)).data)
    (htmp : ((fsWorld w0).tempDir "" (Filepath.Base appBinary) r.state).1 = .ok tmpDir) :
    DirsStaged
      (fun n => (excludeAndCreateSlice (cfg.stringList "build.excludes").1 "app").any
        (fun p => w0.globMatch p n))
      (pathElems (Filepath.Join [tmpDir, w0.stripExt (Filepath.Base appBinary)]))
      (copyFilesToWorkingDir (fsWorld w0) cfg appBaseDir appBinary appProfile r).2.state.root := by
  obtain ⟨n, hel, habs, hnew, _⟩ := tempDir_spec _ tmpDir r.state htmp
  have hroot : pathElems (Filepath.Join [tmpDir, w0.stripExt (Filepath.Base appBinary)])
      = ("tmp" :: [n]) ++ [w0.stripExt (Filepath.Base appBinary)] := by
    rw [pathElems_Join_two tmpDir _ habs hname, hel]
  obtain ⟨hm, hg, _⟩ := fresh_root _ [n] (w0.stripExt (Filepath.Base appBinary))
    (Filepath.Join [tmpDir, w0.stripExt (Filepath.Base appBinary)]) permRWXRXRX [] hnew hroot
  rw [copyFilesToWorkingDir_root_ok (fsWorld w0) cfg _ _ _ r tmpDir htmp hm]
  have hrabs := Filepath.IsAbs_Join_two tmpDir (w0.stripExt (Filepath.Base appBinary)) habs
  apply copyAppFiles_inv (fsWorld w0) cfg appBaseDir appBinary appProfile _
    (fun s => DirsStaged
      (fun n => (excludeAndCreateSlice (cfg.stringList "build.excludes").1 "app").any
        (fun p => w0.globMatch p n))
      (pathElems (Filepath.Join [tmpDir, w0.stripExt (Filepath.Base appBinary)])) s.root)
  · intro d s hs
    exact copyDir_keeps_staged w0.globMatch _ _ s _ d rfl hs
  · intro p d s hs
    exact writeFile_keeps_staged _ _ s p d permRWXRXRX hs
  · apply copyBinary_inv (fsWorld w0) _ appBinary
      (fun s => DirsStaged
        (fun n => (excludeAndCreateSlice (cfg.stringList "build.excludes").1 "app").any
          (fun p => w0.globMatch p n))
        (pathElems (Filepath.Join [tmpDir, w0.stripExt (Filepath.Base appBinary)])) s.root)
    · intro s hs
      exact mkDirAll_bin_staged _ _ s
        (Filepath.Join [Filepath.Join [tmpDir, w0.stripExt (Filepath.Base appBinary)], "bin"])
        permRWXRXRX (pathElems_Join_two _ "bin" hrabs plain_bin) hs
    · intro d f s hs
      exact copyFile_keeps_staged _ _ s d f hs
    · intro p s hs
      exact applyFileMode_keeps_staged _ _ s p permRWXRXRX hs
    · intro x q es hq
      exfalso
      rw [getAt_append, hroot] at hq
      have hg2 : getAt (("tmp" :: [n]) ++ [w0.stripExt (Filepath.Base appBinary)])
          (some ((fsWorld w0).mkDirAll
            (Filepath.Join [tmpDir, (fsWorld w0).stripExt (Filepath.Base appBinary)])
            permRWXRXRX
            ((fsWorld w0).deleteFiles
              (Filepath.Join [tmpDir, (fsWorld w0).stripExt (Filepath.Base appBinary)])
              ((fsWorld w0).tempDir "" (Filepath.Base appBinary) r.state).2)).2.root)
          = some (.dir []) := hg
      rw [hg2] at hq
      simp [getAt, entryFind, getAt_none] at hq

/-- C4 (amended): in `copyFilesToWorkingDir`, in any world, every subtree copy (call of
`ess.CopyDir`) is for a directory whose base name matches no pattern of `build.excludes`,
and is made with a subtree exclude set that holds every pattern of `build.excludes` and the
reserved name `app`. Consequently, in a file system, whatever it held before and however
the assembly ends, every directory found under the staging root
`<temporary directory>/<binary name without extension>` is either the directory `bin`, which
the assembler itself makes for the binary whatever the excludes are, or stands at a path
none of whose names is `app` or matches a pattern of `build.excludes`: neither the
top-level directory `app` nor any directory that is named `app` or matches an exclude is
staged with the copies, at any depth. -/
theorem copyFilesToWorkingDir_subtree_excludes (w0 : World Unit) (cfg : Config)
    (appBaseDir appBinary appProfile : String) (r : Run Fs)
    (hglob : w0.globMatch "app" "app" = true)
    (hname : Filepath.Plain (w0.stripExt (Filepath.Base appBinary)).data) :
    (∀ (σ : Type) (w : World σ) (r0 : Run σ),
      ∃ new, (copyFilesToWorkingDir w cfg appBaseDir appBinary appProfile r0).2.calls
          = r0.calls ++ new
        ∧ ∀ dest src ex, Call.copyDir dest src ex ∈ new →
          Ess.ExcludesMatch w (cfg.stringList "build.excludes").1 (Filepath.Base src) = false
          ∧ (∀ pattern ∈ (cfg.stringList "build.excludes").1, pattern ∈ ex)
          ∧ "app" ∈ ex)
    ∧ ∀ tmpDir, ((fsWorld w0).tempDir "" (Filepath.Base appBinary) r.state).1 = .ok tmpDir →
        ∀ x q es,
          getAt (pathElems (Filepath.Join [tmpDir, w0.stripExt (Filepath.Base appBinary)])
              ++ x :: q)
            (some (copyFilesToWorkingDir (fsWorld w0) cfg appBaseDir appBinary appProfile
              r).2.state.root) = some (.dir es) →
          (x = "bin" ∧ q = [])
          ∨ ∀ n ∈ x :: q, n ≠ "app"
              ∧ Ess.ExcludesMatch (fsWorld w0) (cfg.stringList "build.excludes").1 n = false := by
  refine ⟨?_, ?_⟩
  · intro σ w r0
    obtain ⟨new, h1, h2⟩ := copyFilesToWorkingDir_copyDir_calls w cfg appBaseDir appBinary
      appProfile r0
    refine ⟨new, h1, ?_⟩
    intro dest src ex hmem
    obtain ⟨hm, hex⟩ := h2 dest src ex hmem
    subst hex
    refine ⟨hm, ?_, ?_⟩
    · intro pattern hp
      simp [excludeAndCreateSlice, hp]
    · simp [excludeAndCreateSlice]
  · intro tmpDir htmp x q es hq
    rcases copyFilesToWorkingDir_dirs_staged w0 cfg appBaseDir appBinary appProfile r tmpDir
      hname htmp x q es hq with h | h
    · simp only [List.cons.injEq] at h
      exact Or.inl ⟨h.1, h.2⟩
    · refine Or.inr ?_
      intro n hn
      exact subTreeExcludes_spec (fsWorld w0) _ hglob n (h n hn)

/-- C4 (counterexample): the sample application is assembled with the one exclude `bin`.
The assembly ends well, and the staged tree holds the directory `bin` with the binary,
although `bin` matches an exclude; `build/bin`, copied from the application, is pruned. So
it does not hold that no directory of the staged tree matches an exclude. -/
theorem copyFilesToWorkingDir_subtree_excludes_counterexample :
    (binExcludedConfig.stringList "build.excludes").1 = ["bin"]
    ∧ (copyFilesToWorkingDir (fsWorld lineWorld) binExcludedConfig "/proj"
        "/proj/build/bin/myapp" "qa" ⟨sampleFs, []⟩).1 = ("/tmp/myapp042/myapp", none)
    ∧ (copyFilesToWorkingDir (fsWorld lineWorld) binExcludedConfig "/proj"
        "/proj/build/bin/myapp" "qa" ⟨sampleFs, []⟩).2.state.get "/tmp/myapp042/myapp"
      = some (.dir [("bin", .dir [("myapp", .file "binary" 0o755)]),
          ("config", .dir [("app.conf", .file "env.default = dev" 0o644)]),
          ("build", .dir []),
          ("aah.sh", .file "APP_ENV_PROFILE=qa" 0o755),
          ("aah.cmd", .file "APP_ENV_PROFILE=qa" 0o755)])
    ∧ Ess.ExcludesMatch (fsWorld lineWorld) ["bin"] "bin" = true
    ∧ ¬ (∀ x q es,
        getAt (pathElems "/tmp/myapp042/myapp" ++ x :: q)
          (some (copyFilesToWorkingDir (fsWorld lineWorld) binExcludedConfig "/proj"
            "/proj/build/bin/myapp" "qa" ⟨sampleFs, []⟩).2.state.root) = some (.dir es) →
        ∀ n ∈ x :: q, n ≠ "app"
          ∧ Ess.ExcludesMatch (fsWorld lineWorld)
              (binExcludedConfig.stringList "build.excludes").1 n = false) := by
  refine ⟨rfl, rfl, rfl, by decide, ?_⟩
  intro h
  have h1 := h "bin" [] [("myapp", .file "binary" 0o755)] rfl "bin" (by simp)
  have h2 : Ess.ExcludesMatch (fsWorld lineWorld)
      (binExcludedConfig.stringList "build.excludes").1 "bin" = true := by decide
  rw [h1.2] at h2
  cases h2

/-- C4 (example): the sample application, whose excludes are `*.bak` and `vendor`, in the
file system `staleFs`. The staged tree holds the directories `bin`, `config`, `build` and
`build/bin`; the directory `app` of the application is not staged. -/
theorem copyFilesToWorkingDir_subtree_excludes_witness :
    ((fsWorld lineWorld).tempDir "" "myapp" staleFs).1 = .ok "/tmp/myapp043"
    ∧ (copyFilesToWorkingDir (fsWorld lineWorld) sampleConfig "/proj" "/proj/build/bin/myapp"
        "qa" ⟨staleFs, []⟩).2.state.get "/tmp/myapp043/myapp/app" = none
    ∧ staleFs.get "/proj/app" = some (.dir [("main.go", .file "package main" 0o644)])
    ∧ ∀ x q es,
        getAt (pathElems "/tmp/myapp043/myapp" ++ x :: q)
          (some (copyFilesToWorkingDir (fsWorld lineWorld) sampleConfig "/proj"
            "/proj/build/bin/myapp" "qa" ⟨staleFs, []⟩).2.state.root) = some (.dir es) →
        (x = "bin" ∧ q = [])
        ∨ ∀ n ∈ x :: q, n ≠ "app"
            ∧ Ess.ExcludesMatch (fsWorld lineWorld)
                (sampleConfig.stringList "build.excludes").1 n = false := by
  have hplain : Filepath.Plain "myapp".data := by
    refine ⟨?_, ?_, ?_, ?_⟩ <;> decide
  have ht : ((fsWorld lineWorld).tempDir "" (Filepath.Base "/proj/build/bin/myapp")
      staleFs).1 = .ok "/tmp/myapp043" := rfl
  exact ⟨rfl, rfl, rfl,
    (copyFilesToWorkingDir_subtree_excludes lineWorld sampleConfig "/proj"
      "/proj/build/bin/myapp" "qa" ⟨staleFs, []⟩ (by decide) hplain).2 "/tmp/myapp043" ht⟩

end Aah
